import Mathlib

/-!
The subscription refresh pipeline of termiflow.

A shallow embedding of the refresh pipeline of `termiflow`
(`internal/scheduler/scheduler.go`, `internal/intelligence/curator.go`,
`internal/intelligence/summarize.go`, `internal/providers/search/rss.go`,
`internal/db`, `pkg/models`) and of its two prompt builders
(`internal/intelligence/ask.go`, `internal/cli/ask.go`), together with the
properties proved about them.

Modelling conventions.

* Go `string` values are modelled as `String` (text that is valid UTF-8); the
  Go length `len(s)` is the UTF-8 byte length.
* `time.Time` is an instant counted in nanoseconds; `time.Duration` is a
  signed 64-bit nanosecond count, and `Time.Sub` saturates as in Go.
* `float64` values are modelled by `F64`: NaN, the two infinities and the
  finite values (as rationals), with the IEEE 754 comparison rules.
* Calls to the outside world (language model) are explicit state passing.
* Where the bytes of a string matter (the JSON text of tags and sources), a
  Go string that need not be valid UTF-8 is a `GoString`.
-/

namespace Termiflow

/-! ## Time -/

/-- An instant, in nanoseconds since the zero `time.Time`. -/
structure Time where
  nsec : Int
deriving DecidableEq

/-! A `time.Duration` is a nanosecond count held in a signed 64-bit integer;
durations are integers between `minDuration` and `maxDuration`. -/

/-- The smallest `time.Duration`. -/
def minDuration : Int := -(2 ^ 63)

/-- The largest `time.Duration`. -/
def maxDuration : Int := 2 ^ 63 - 1

def Nanosecond : Int := 1

def Second : Int := 1000000000 * Nanosecond

def Minute : Int := 60 * Second

def Hour : Int := 60 * Minute

/-- The method `t.Sub(u)`: the duration `t - u`; when the difference does not fit a
`Duration` the result is the largest (or smallest) duration. -/
def Time.Sub (t u : Time) : Int :=
  let d := t.nsec - u.nsec
  if d < minDuration then minDuration
  else if maxDuration < d then maxDuration
  else d

/-- The method `t.After(u)`. -/
def Time.After (t u : Time) : Bool := decide (u.nsec < t.nsec)

/-- The method `t.Before(u)`. -/
def Time.Before (t u : Time) : Bool := decide (t.nsec < u.nsec)

/-! ## Data model -/

/-- The type `models.Subscription`. -/
structure Subscription where
  ID : Int
  Topic : String
  Category : String
  Frequency : String
  Sources : List String
  CreatedAt : Time
  UpdatedAt : Time
  LastFetchedAt : Option Time
  IsActive : Bool
deriving DecidableEq

/-- The type `search.SearchResult`: one candidate gathered from a source. -/
structure SearchResult where
  Title : String
  URL : String
  Snippet : String
  Content : String
  PublishedAt : Time
  Source : String
deriving DecidableEq

/-! ## Scheduler: refresh policy and deduplication -/

/-- The function `shouldRefresh` of `scheduler.go`; `now` is the value of `time.Now()`. -/
def shouldRefresh (now : Time) (sub : Subscription) : Bool :=
  match sub.LastFetchedAt with
  | none => true
  | some last =>
    if sub.Frequency = "hourly" then decide (now.Sub last ≥ Hour)
    else if sub.Frequency = "daily" then decide (now.Sub last ≥ 24 * Hour)
    else if sub.Frequency = "weekly" then decide (now.Sub last ≥ 7 * 24 * Hour)
    else decide (now.Sub last ≥ 24 * Hour)

/-- The loop of `deduplicateByURL`: `seen` is the `map[string]bool` (a missing
key reads as `false`), `unique` the slice built so far. -/
def deduplicateLoop (seen : String → Bool) (unique : List SearchResult) :
    List SearchResult → List SearchResult
  | [] => unique
  | r :: rest =>
    if !seen r.URL then
      deduplicateLoop (Function.update seen r.URL true) (unique ++ [r]) rest
    else
      deduplicateLoop seen unique rest

/-- The function `deduplicateByURL` of `scheduler.go`. -/
def deduplicateByURL (results : List SearchResult) : List SearchResult :=
  deduplicateLoop (fun _ => false) [] results

/-! ## float64 -/

/-- A `float64` value: NaN, an infinity, or a finite value given by the
rational number it denotes (the two zeros are not told apart; they compare
equal). -/
inductive F64 where
  | nan
  | negInf
  | fin (q : ℚ)
  | posInf
deriving DecidableEq

namespace F64

/-- The Go comparison `a < b`: false as soon as an operand is NaN. -/
def lt : F64 → F64 → Bool
  | nan, _ => false
  | _, nan => false
  | negInf, negInf => false
  | negInf, _ => true
  | fin _, negInf => false
  | fin a, fin b => decide (a < b)
  | fin _, posInf => true
  | posInf, _ => false

/-- The Go comparison `a <= b`: false as soon as an operand is NaN. -/
def le : F64 → F64 → Bool
  | nan, _ => false
  | _, nan => false
  | negInf, _ => true
  | fin _, negInf => false
  | fin a, fin b => decide (a ≤ b)
  | fin _, posInf => true
  | posInf, posInf => true
  | posInf, _ => false

/-- The Go comparison `a > b`. -/
def gt (a b : F64) : Bool := lt b a

/-- The Go comparison `a >= b`. -/
def ge (a b : F64) : Bool := le b a

/-- The constant `0`. -/
def zero : F64 := fin 0

/-- The constant `1`. -/
def one : F64 := fin 1

/-- The constant `0.5` (exactly representable). -/
def half : F64 := fin (mkRat 1 2)

/-- The float64 nearest to `0.1`. -/
def lit01 : F64 := fin (mkRat 3602879701896397 36028797018963968)

/-- The float64 nearest to `0.3`. -/
def lit03 : F64 := fin (mkRat 5404319552844595 18014398509481984)

/-- The float64 nearest to `0.6`. -/
def lit06 : F64 := fin (mkRat 5404319552844595 9007199254740992)

/-- The float64 nearest to `0.7`. -/
def lit07 : F64 := fin (mkRat 3152519739159347 4503599627370496)

/-- The float64 nearest to `0.9`. -/
def lit09 : F64 := fin (mkRat 8106479329266893 9007199254740992)

/-- The value lies in the closed interval `[0.0, 1.0]`. -/
def inUnitInterval (a : F64) : Bool := le zero a && le a one

end F64

/-! ## Strings (package `strings`, `unicode`) -/

/-- A Go `error` value, identified by its message. -/
abbrev Error := String

/-- The function `unicode.IsSpace`. -/
def IsSpace (r : Char) : Bool :=
  let n := r.toNat
  if n ≤ 0xFF then
    n = 0x09 || n = 0x0A || n = 0x0B || n = 0x0C || n = 0x0D || n = 0x20 ||
      n = 0x85 || n = 0xA0
  else
    n = 0x1680 || (0x2000 ≤ n && n ≤ 0x200A) || n = 0x2028 || n = 0x2029 ||
      n = 0x202F || n = 0x205F || n = 0x3000

/-- Removes the leading white space of a rune sequence. -/
def trimLeftSpace (cs : List Char) : List Char := cs.dropWhile IsSpace

/-- Removes the trailing white space of a rune sequence. -/
def trimRightSpace (cs : List Char) : List Char :=
  (cs.reverse.dropWhile IsSpace).reverse

/-- The function `strings.TrimSpace`. -/
def TrimSpace (s : String) : String := ⟨trimRightSpace (trimLeftSpace s.data)⟩

/-- Cuts a rune sequence at every comma; `n` commas give `n + 1` pieces. -/
def splitComma : List Char → List (List Char)
  | [] => [[]]
  | c :: cs =>
    if c = ',' then [] :: splitComma cs
    else
      match splitComma cs with
      | [] => [[c]]
      | piece :: pieces => (c :: piece) :: pieces

/-- The call `strings.Split(s, ",")`. -/
def SplitComma (s : String) : List String := (splitComma s.data).map String.mk

/-- The call `strings.TrimPrefix(s, "#")`. -/
def TrimPrefixHash (s : String) : String :=
  match s.data with
  | '#' :: rest => ⟨rest⟩
  | _ => s

/-! ## Language-model capability (package `llm`) -/

/-- The type `llm.Message`. -/
structure Message where
  Role : String
  Content : String
deriving DecidableEq

/-- The type `llm.CompletionRequest`. -/
structure CompletionRequest where
  Messages : List Message
  MaxTokens : Int
  Temperature : F64
  Stream : Bool
deriving DecidableEq

/-- The type `llm.Usage`. -/
structure Usage where
  PromptTokens : Int
  CompletionTokens : Int
  TotalTokens : Int
deriving DecidableEq

/-- The type `llm.CompletionResponse`. -/
structure CompletionResponse where
  Content : String
  FinishReason : String
  Usage : Usage
deriving DecidableEq

/-- The interface `llm.Provider`, restricted to `Complete`: a call either fails with an
error or yields a response, and moves the outside world (of type `σ`: the
model's state, the network, the context's cancellation) to a new state. -/
structure Provider (σ : Type) where
  Complete : CompletionRequest → σ → Except Error CompletionResponse × σ

/-! ## Feed items (package `models`) -/

/-- The type `models.FeedItem`. `Content` is kept as bytes: it is the one string of the
pipeline that is cut at a byte offset. -/
structure FeedItem where
  ID : Int
  SubscriptionID : Int
  Title : String
  Summary : String
  Content : List UInt8
  SourceName : String
  SourceURL : String
  PublishedAt : Option Time
  FetchedAt : Time
  IsRead : Bool
  RelevanceScore : F64
  Tags : List String
deriving DecidableEq

/-! ## Go runtime and standard library -/

/-- The functions of the Go runtime and standard library that the pipeline
calls and whose code is not part of the repository; the pipeline is
parameterised by them. -/
structure Runtime where
  /-- The call `strconv.ParseFloat(s, 64)`: value and error. -/
  ParseFloat : String → F64 × Option Error
  /-- The function `unicode.ToLower` on code points above ASCII. -/
  unicodeToLower : Char → Char
  /-- Multiplication of two `float64`. -/
  mulFloat : F64 → F64 → F64
  /-- Addition of two `float64`. -/
  addFloat : F64 → F64 → F64
  /-- The call `sort.Slice(items, less)`: the slice after the call, `less`
  being read on the elements at the two indices. -/
  sortSlice : (FeedItem → FeedItem → Bool) → List FeedItem → List FeedItem

/-- The function `strings.ToLower`: every rune is lowered, the ASCII ones by
the fixed rule, the others by the Unicode tables. -/
def ToLower (rt : Runtime) (s : String) : String :=
  ⟨s.data.map (fun c => if c.toNat < 128 then c.toLower else rt.unicodeToLower c)⟩

/-- What `sort.Slice` guarantees whatever `less` is: the slice is rearranged,
no element is added or lost. -/
def Runtime.SortPermutes (rt : Runtime) : Prop :=
  ∀ (less : FeedItem → FeedItem → Bool) (items : List FeedItem),
    (rt.sortSlice less items).Perm items

/-! ## Summarizer and relevance scorer (`summarize.go`) -/

/-- The prompt of `Summarize`. -/
def summarizePrompt (topic title content : String) : String :=
  "Summarize the following article in 2-3 sentences for a developer interested in \"" ++
    topic ++ "\".\nFocus on the key technical insights and why it matters.\n\nTitle: " ++
    title ++ "\nContent: " ++ content ++ "\n\nSummary:"

/-- The request sent by `Summarize`. -/
def summarizeRequest (topic title content : String) : CompletionRequest :=
  { Messages := [{ Role := "user", Content := summarizePrompt topic title content }],
    MaxTokens := 200, Temperature := F64.half, Stream := false }

/-- The function `Summarize` of `summarize.go`: the summary and the error. -/
def Summarize {σ : Type} (provider : Provider σ) (topic title content : String)
    (w : σ) : (String × Option Error) × σ :=
  match provider.Complete (summarizeRequest topic title content) w with
  | (Except.error err, w1) => (("", some err), w1)
  | (Except.ok resp, w1) => ((TrimSpace resp.Content, none), w1)

/-- The prompt of `ScoreRelevance`. -/
def scorePrompt (topic title snippet : String) : String :=
  "You are evaluating if a piece of content is relevant to a user\x27s topic subscription.\n\nTopic: " ++
    topic ++ "\nContent Title: " ++ title ++ "\nContent Snippet: " ++ snippet ++
    "\n\nRate the relevance from 0.0 to 1.0 where:\n- 0.0-0.3: Not relevant\n- 0.4-0.6: Somewhat relevant\n- 0.7-0.9: Highly relevant\n- 1.0: Perfectly relevant\n\nRespond with only a number between 0.0 and 1.0."

/-- The request sent by `ScoreRelevance`. -/
def scoreRequest (topic title snippet : String) : CompletionRequest :=
  { Messages := [{ Role := "user", Content := scorePrompt topic title snippet }],
    MaxTokens := 10, Temperature := F64.lit01, Stream := false }

/-- The function `ScoreRelevance` of `summarize.go`: the score and the error. -/
def ScoreRelevance {σ : Type} (rt : Runtime) (provider : Provider σ)
    (topic title snippet : String) (w : σ) : (F64 × Option Error) × σ :=
  match provider.Complete (scoreRequest topic title snippet) w with
  | (Except.error err, w1) => ((F64.zero, some err), w1)
  | (Except.ok resp, w1) =>
    match rt.ParseFloat (TrimSpace resp.Content) with
    | (_, some _) => ((F64.half, none), w1)
    | (score, none) =>
      let score :=
        if F64.lt score F64.zero then F64.zero
        else if F64.gt score F64.one then F64.one
        else score
      ((score, none), w1)

/-- The prompt of `ExtractTags`. -/
def tagsPrompt (title content : String) : String :=
  "Extract 2-4 relevant technical tags from this content. Return only lowercase tags separated by commas.\n\nTitle: " ++
    title ++ "\nContent: " ++ content ++ "\n\nTags:"

/-- The request sent by `ExtractTags`. -/
def tagsRequest (title content : String) : CompletionRequest :=
  { Messages := [{ Role := "user", Content := tagsPrompt title content }],
    MaxTokens := 50, Temperature := F64.lit03, Stream := false }

/-- The loop of `ExtractTags` over the comma-separated fragments. -/
def cleanTagsLoop (rt : Runtime) (cleanTags : List String) : List String → List String
  | [] => cleanTags
  | tag :: rest =>
    let tag := TrimSpace (ToLower rt tag)
    let tag := TrimPrefixHash tag
    if tag ≠ "" then cleanTagsLoop rt (cleanTags ++ [tag]) rest
    else cleanTagsLoop rt cleanTags rest

/-- The tags `ExtractTags` reads from a response text. -/
def parseTags (rt : Runtime) (content : String) : List String :=
  let tagStr := TrimSpace content
  let tags := SplitComma tagStr
  cleanTagsLoop rt [] tags

/-- The function `ExtractTags` of `summarize.go`: the tags and the error. -/
def ExtractTags {σ : Type} (rt : Runtime) (provider : Provider σ)
    (title content : String) (w : σ) : (List String × Option Error) × σ :=
  match provider.Complete (tagsRequest title content) w with
  | (Except.error err, w1) => (([], some err), w1)
  | (Except.ok resp, w1) => ((parseTags rt resp.Content, none), w1)

/-! ## Curator (`curator.go`) -/

/-- The function `truncateContent` of `curator.go`, on the bytes of the
content (`len` and slicing count bytes). -/
def truncateContent (content : List UInt8) (maxLen : Nat) : List UInt8 :=
  if content.length ≤ maxLen then content else content.take maxLen

/-- The loop of `filterByRelevance`. -/
def filterByRelevanceLoop (threshold : F64) (filtered : List FeedItem) :
    List FeedItem → List FeedItem
  | [] => filtered
  | item :: rest =>
    if F64.ge item.RelevanceScore threshold then
      filterByRelevanceLoop threshold (filtered ++ [item]) rest
    else
      filterByRelevanceLoop threshold filtered rest

/-- The function `filterByRelevance` of `curator.go`. -/
def filterByRelevance (items : List FeedItem) (threshold : F64) : List FeedItem :=
  filterByRelevanceLoop threshold [] items

/-- The comparison function `sortByRelevanceAndRecency` hands to `sort.Slice`,
read on the two elements `a = items[i]` and `b = items[j]`. -/
def lessByRelevanceAndRecency (rt : Runtime) (a b : FeedItem) : Bool :=
  let scoreI := rt.mulFloat a.RelevanceScore F64.lit07
  let scoreJ := rt.mulFloat b.RelevanceScore F64.lit07
  match a.PublishedAt, b.PublishedAt with
  | some ta, some tb =>
    if ta.After tb then F64.gt (rt.addFloat scoreI F64.lit03) scoreJ
    else F64.gt scoreI (rt.addFloat scoreJ F64.lit03)
  | _, _ => F64.gt scoreI scoreJ

/-- The function `sortByRelevanceAndRecency` of `curator.go`. -/
def sortByRelevanceAndRecency (rt : Runtime) (items : List FeedItem) : List FeedItem :=
  rt.sortSlice (lessByRelevanceAndRecency rt) items

/-- The item `CurateResults` builds from a candidate before scoring; the
fields not named in the source have their zero value. `PublishedAt` points at
the publish time of the candidate itself, which is never a nil pointer. -/
def itemSkeleton (result : SearchResult) : FeedItem :=
  { ID := 0, SubscriptionID := 0,
    Title := result.Title,
    Summary := "",
    Content := truncateContent result.Content.toUTF8.data.toList 2000,
    SourceName := result.Source,
    SourceURL := result.URL,
    PublishedAt := some result.PublishedAt,
    FetchedAt := ⟨0⟩, IsRead := false,
    RelevanceScore := F64.zero,
    Tags := [] }

/-- The body of the loop of `CurateResults` for one candidate: the item built
and the state of the world after the language-model calls. -/
def curateOne {σ : Type} (rt : Runtime) (provider : Provider σ) (topic : String)
    (result : SearchResult) (w : σ) : FeedItem × σ :=
  let item := itemSkeleton result
  match ScoreRelevance rt provider topic result.Title result.Snippet w with
  | ((score0, err), w1) =>
    let score := if err ≠ none then F64.half else score0
    let item := { item with RelevanceScore := score }
    if F64.gt score F64.half then
      match Summarize provider topic result.Title result.Content w1 with
      | ((summary, err), w2) =>
        let item := if err = none then { item with Summary := summary } else item
        match ExtractTags rt provider result.Title result.Content w2 with
        | ((tags, err), w3) =>
          let item := if err = none then { item with Tags := tags } else item
          (item, w3)
    else
      (item, w1)

/-- The loop of `CurateResults`: `items` is the slice built so far. -/
def curateLoop {σ : Type} (rt : Runtime) (provider : Provider σ) (topic : String)
    (items : List FeedItem) : List SearchResult → σ → List FeedItem × σ
  | [], w => (items, w)
  | result :: rest, w =>
    match curateOne rt provider topic result w with
    | (item, w1) => curateLoop rt provider topic (items ++ [item]) rest w1

/-- The function `CurateResults` of `curator.go`: the curated items, the error, and the
state of the world after the run. -/
def CurateResults {σ : Type} (rt : Runtime) (provider : Provider σ) (topic : String)
    (results : List SearchResult) (w : σ) : (List FeedItem × Option Error) × σ :=
  match curateLoop rt provider topic [] results w with
  | (items, w1) =>
    let items := filterByRelevance items F64.half
    let items := sortByRelevanceAndRecency rt items
    ((items, none), w1)

/-! ## Categories (`topic.go`) and time ranges (`subscription.go`) -/

/-- The type `models.Category`. -/
structure Category where
  ID : Int
  Name : String
  DisplayName : String
  Description : String
  DefaultRSS : List String
  Keywords : List String
deriving DecidableEq

/-- The table `DefaultCategories` of `topic.go`. -/
def DefaultCategories : List Category :=
  [ { ID := 0, Name := "silicon-chips",
      DisplayName := "Silicon & Semiconductors",
      Description := "Chip fabrication, lithography, semiconductor industry news",
      Keywords := ["semiconductor", "chip fabrication", "TSMC", "Intel", "Samsung foundry",
        "EUV lithography", "nm process node"],
      DefaultRSS := ["https://semianalysis.com/feed/", "https://www.anandtech.com/rss/"] },
    { ID := 0, Name := "rust-lang",
      DisplayName := "Rust Programming",
      Description := "Rust language updates, crates, ecosystem news",
      Keywords := ["rust programming", "rust lang", "crates.io", "rust async", "rust embedded"],
      DefaultRSS := [] },
    { ID := 0, Name := "llm-inference",
      DisplayName := "LLM & AI Inference",
      Description := "Large language models, inference optimization, AI deployment",
      Keywords := ["LLM inference", "transformer optimization", "quantization", "GGUF", "vLLM",
        "TensorRT-LLM"],
      DefaultRSS := [] },
    { ID := 0, Name := "webgpu",
      DisplayName := "WebGPU & Graphics",
      Description := "WebGPU, browser graphics, GPU compute on the web",
      Keywords := ["WebGPU", "WGSL", "browser GPU", "web graphics"],
      DefaultRSS := [] },
    { ID := 0, Name := "systems-programming",
      DisplayName := "Systems Programming",
      Description := "OS development, compilers, low-level programming",
      Keywords := ["operating systems", "compiler design", "LLVM", "systems programming",
        "kernel"],
      DefaultRSS := [] },
    { ID := 0, Name := "kubernetes",
      DisplayName := "Kubernetes & Cloud Native",
      Description := "K8s, containers, cloud-native infrastructure",
      Keywords := ["kubernetes", "k8s", "containers", "cloud native", "CNCF"],
      DefaultRSS := [] } ]

/-- The loop of `GetCategoryByName` over a table of categories. -/
def categoryByName (name : String) : List Category → Option Category
  | [] => none
  | cat :: rest => if cat.Name = name then some cat else categoryByName name rest

/-- The function `GetCategoryByName` of `topic.go`; `none` is the nil pointer. -/
def GetCategoryByName (name : String) : Option Category :=
  categoryByName name DefaultCategories

/-- The method `GetTimeRange` of `models.Subscription`. -/
def Subscription.GetTimeRange (s : Subscription) : String :=
  if s.Frequency = "hourly" then "day"
  else if s.Frequency = "daily" then "week"
  else if s.Frequency = "weekly" then "month"
  else "week"

/-! ## Search and feed sources (package `search`) -/

/-- The type `search.SearchRequest`. -/
structure SearchRequest where
  Query : String
  MaxResults : Int
  TimeRange : String
deriving DecidableEq

/-- The time ranges a search request can name, as listed at the field
`TimeRange` of `search.SearchRequest` in `provider.go`. -/
def timeRanges : List String := ["day", "week", "month", "year"]

/-- The function `timeRangeToDays` of `tavily.go`. -/
def timeRangeToDays (timeRange : String) : Int :=
  if timeRange = "day" then 1
  else if timeRange = "week" then 7
  else if timeRange = "month" then 30
  else if timeRange = "year" then 365
  else 7

/-- The interface `search.Provider`, restricted to `Search` and `Available`:
a search either fails or yields results, and moves the outside world on. -/
structure SearchProvider (σ : Type) where
  Search : SearchRequest → σ → Except Error (List SearchResult) × σ
  Available : σ → Bool

/-- The fields of `gofeed.Item` that `FetchFeed` reads; `PublishedParsed` is
`none` for the nil pointer. -/
structure FeedEntry where
  Title : String
  Link : String
  Description : String
  Content : String
  PublishedParsed : Option Time
deriving DecidableEq

/-- The fields of `gofeed.Feed` that `FetchFeed` reads. -/
structure Feed where
  Title : String
  Items : List FeedEntry
deriving DecidableEq

/-- The type `search.RSSProvider`: its parser, of which `ParseURLWithContext`
either fails or yields the feed, and moves the outside world on. -/
structure RSSProvider (σ : Type) where
  ParseURLWithContext : String → σ → Except Error Feed × σ

/-- The candidate `FetchFeed` makes of one feed entry. -/
def feedResult (feed : Feed) (item : FeedEntry) : SearchResult :=
  { Title := item.Title,
    URL := item.Link,
    Snippet := item.Description,
    Content := item.Content,
    PublishedAt :=
      (match item.PublishedParsed with
       | some t => t
       | none => ⟨0⟩),
    Source := feed.Title }

/-- The loop of `FetchFeed` over the entries of the feed: `results` is the
slice built so far. -/
def fetchFeedLoop (feed : Feed) (since : Option Time) (results : List SearchResult) :
    List FeedEntry → List SearchResult
  | [] => results
  | item :: rest =>
    let skip : Bool :=
      match since, item.PublishedParsed with
      | some s, some t => t.Before s
      | _, _ => false
    if skip then fetchFeedLoop feed since results rest
    else fetchFeedLoop feed since (results ++ [feedResult feed item]) rest

/-- The method `FetchFeed` of `rss.go`: the candidates and the error. -/
def FetchFeed {σ : Type} (p : RSSProvider σ) (feedURL : String) (since : Option Time)
    (w : σ) : (List SearchResult × Option Error) × σ :=
  match p.ParseURLWithContext feedURL w with
  | (Except.error err, w1) => (([], some err), w1)
  | (Except.ok feed, w1) => ((fetchFeedLoop feed since [] feed.Items, none), w1)

/-- The loop of `FetchMultipleFeeds`: `allResults` is the slice built so
far. -/
def fetchMultipleLoop {σ : Type} (p : RSSProvider σ) (since : Option Time)
    (allResults : List SearchResult) : List String → σ → List SearchResult × σ
  | [], w => (allResults, w)
  | url :: rest, w =>
    match FetchFeed p url since w with
    | ((_, some _), w1) => fetchMultipleLoop p since allResults rest w1
    | ((results, none), w1) => fetchMultipleLoop p since (allResults ++ results) rest w1

/-- The method `FetchMultipleFeeds` of `rss.go`: the candidates and the error
(always nil). -/
def FetchMultipleFeeds {σ : Type} (p : RSSProvider σ) (feedURLs : List String)
    (since : Option Time) (w : σ) : (List SearchResult × Option Error) × σ :=
  match fetchMultipleLoop p since [] feedURLs w with
  | (allResults, w1) => ((allResults, none), w1)

/-! ## Persistence (package `db`) -/

/-- The statements the package `db` sends to the database handle, as far as
the refresh pipeline uses them. -/
structure Database (σ : Type) where
  /-- The query `SELECT COUNT(*) FROM feed_items WHERE source_url = ?` scanned
  into `count`: the value `count` holds afterwards (it starts at zero) and the
  error. -/
  countBySourceURL : String → σ → (Int × Option Error) × σ
  /-- The `INSERT INTO feed_items` of the item: the error of `Exec`, or the
  outcome of `LastInsertId` on its result. -/
  insertFeedItem : FeedItem → σ → Except Error (Int × Option Error) × σ
  /-- The `UPDATE subscriptions SET last_fetched_at` of the subscription with
  this id, at the current time. -/
  updateLastFetched : Int → σ → Option Error × σ

/-- The function `ItemExistsByURL` of `feed_items.go`: the flag and the
error. -/
def ItemExistsByURL {σ : Type} (db : Database σ) (url : String) (w : σ) :
    (Bool × Option Error) × σ :=
  match db.countBySourceURL url w with
  | ((count, err), w1) => ((decide (count > 0), err), w1)

/-- The function `CreateFeedItem` of `feed_items.go`: the item after the call
(its `ID` is set when the insert succeeded) and the error. -/
def CreateFeedItem {σ : Type} (db : Database σ) (item : FeedItem) (w : σ) :
    (FeedItem × Option Error) × σ :=
  match db.insertFeedItem item w with
  | (Except.error err, w1) => ((item, some err), w1)
  | (Except.ok (_, some err), w1) => ((item, some err), w1)
  | (Except.ok (id, none), w1) => (({ item with ID := id }, none), w1)

/-- The function `UpdateLastFetched` of `subscriptions.go`. -/
def UpdateLastFetched {σ : Type} (db : Database σ) (id : Int) (w : σ) : Option Error × σ :=
  db.updateLastFetched id w

/-! ## Scheduler: refreshing a subscription (`scheduler.go`) -/

/-- The type `intelligence.Curator`. -/
structure Curator (σ : Type) where
  llmProvider : Provider σ

/-- The type `scheduler.Scheduler`; `searchProvider` is `none` for the nil
interface. -/
structure Scheduler (σ : Type) where
  llmProvider : Provider σ
  searchProvider : Option (SearchProvider σ)
  rssProvider : RSSProvider σ
  curator : Curator σ

/-- A call of the package `db` made by the scheduler, recorded in the order
of the calls. -/
inductive DBCall where
  | itemExistsByURL (url : String)
  | createFeedItem (item : FeedItem)
  | updateLastFetched (id : Int)
deriving DecidableEq

/-- The first step of `RefreshSubscription`: the candidates of the search
provider, none when there is no provider, when it is not available or when
the search fails. -/
def fetchSearch {σ : Type} (s : Scheduler σ) (sub : Subscription) (w : σ) :
    List SearchResult × σ :=
  match s.searchProvider with
  | none => ([], w)
  | some provider =>
    if provider.Available w then
      match provider.Search
          { Query := sub.Topic, MaxResults := 10, TimeRange := sub.GetTimeRange } w with
      | (Except.ok results, w1) => (results, w1)
      | (Except.error _, w1) => ([], w1)
    else ([], w)

/-- The second step of `RefreshSubscription`: the candidates of the default
feeds of the category named like the topic. -/
def fetchRSS {σ : Type} (s : Scheduler σ) (sub : Subscription) (w : σ) :
    List SearchResult × σ :=
  match GetCategoryByName sub.Topic with
  | none => ([], w)
  | some category =>
    if category.DefaultRSS.length > 0 then
      match FetchMultipleFeeds s.rssProvider category.DefaultRSS sub.LastFetchedAt w with
      | ((results, none), w1) => (results, w1)
      | ((_, some _), w1) => ([], w1)
    else ([], w)

/-- The steps of `RefreshSubscription` up to the curation: the candidates of
the search and of the feeds, concatenated in this order, deduplicated and
curated. -/
def curatedFor {σ : Type} (rt : Runtime) (s : Scheduler σ) (sub : Subscription) (w : σ) :
    (List FeedItem × Option Error) × σ :=
  match fetchSearch s sub w with
  | (found, w1) =>
    match fetchRSS s sub w1 with
    | (fed, w2) =>
      CurateResults rt s.curator.llmProvider sub.Topic (deduplicateByURL (found ++ fed)) w2

/-- The body of the saving loop of `RefreshSubscription` for one item: the
item after the iteration and the calls made to the package `db`. -/
def persistOne {σ : Type} (db : Database σ) (subID : Int) (item : FeedItem) (w : σ) :
    (FeedItem × List DBCall) × σ :=
  let item := { item with SubscriptionID := subID }
  match ItemExistsByURL db item.SourceURL w with
  | ((found, _), w1) =>
    if !found then
      match CreateFeedItem db item w1 with
      | ((item1, _), w2) =>
        ((item1, [DBCall.itemExistsByURL item.SourceURL, DBCall.createFeedItem item]), w2)
    else
      ((item, [DBCall.itemExistsByURL item.SourceURL]), w1)

/-- The saving loop of `RefreshSubscription`: the items after the loop and the
calls made to the package `db`. -/
def persistItems {σ : Type} (db : Database σ) (subID : Int) :
    List FeedItem → σ → (List FeedItem × List DBCall) × σ
  | [], w => (([], []), w)
  | item :: rest, w =>
    match persistOne db subID item w with
    | ((item1, calls1), w1) =>
      match persistItems db subID rest w1 with
      | ((items, calls), w2) => ((item1 :: items, calls1 ++ calls), w2)

/-- The function `RefreshSubscription` of `scheduler.go`: the items and the
error it returns, and the calls it made to the package `db`. -/
def RefreshSubscription {σ : Type} (rt : Runtime) (db : Database σ) (s : Scheduler σ)
    (sub : Subscription) (w : σ) : ((List FeedItem × Option Error) × List DBCall) × σ :=
  match curatedFor rt s sub w with
  | ((_, some err), w1) => ((([], some err), []), w1)
  | ((items, none), w1) =>
    match persistItems db sub.ID items w1 with
    | ((items1, calls), w2) =>
      match UpdateLastFetched db sub.ID w2 with
      | (some err, w3) => ((([], some err), calls ++ [DBCall.updateLastFetched sub.ID]), w3)
      | (none, w3) => (((items1, none), calls ++ [DBCall.updateLastFetched sub.ID]), w3)

/-! ## JSON text of string slices (package `encoding/json`)

The part of `json.Marshal` and `json.Unmarshal` that the models use: the JSON
text of a `[]string` (strings escaped as `appendString` does since Go 1.22,
with HTML escaping) and the decoding of a JSON text into a `[]string` that is
nil. The decoder reads the text in one pass where the package validates it
first and decodes it afterwards; the outcome is the same. -/

/-- One step of reading a Go string with `utf8.DecodeRuneInString`: a code
point, or a byte that is not part of a valid UTF-8 encoding (read as
`utf8.RuneError` with width 1). -/
inductive Rune where
  | valid (c : Char)
  | invalid (b : UInt8)
deriving DecidableEq

/-- A Go string that need not be valid UTF-8, as the sequence of its
decoding steps. -/
abbrev GoString := List Rune

/-- The Go string of a text that is valid UTF-8. -/
def GoString.ofString (s : String) : GoString := s.data.map Rune.valid

/-- The code point of a decoding step: `utf8.RuneError`, U+FFFD, for an
invalid byte. -/
def Rune.char : Rune → Char
  | Rune.valid c => c
  | Rune.invalid _ => '\uFFFD'

/-- The text a Go string is coerced to when every invalid byte is replaced by
U+FFFD. -/
def GoString.text (s : GoString) : String := ⟨s.map Rune.char⟩

/-- The table `hex` of `encode.go`. -/
def hexDigit (n : Nat) : Char := "0123456789abcdef".data.getD n '0'

/-- The table `htmlSafeSet` of `tables.go`: the ASCII characters from the
space on that need no escape, the double quote, the backslash and the HTML
characters `<`, `>`, `&` left out. -/
def htmlSafe (c : Char) : Bool :=
  decide (32 ≤ c.toNat) && decide (c.toNat < 128) && !(c == '"') && !(c == '\\') &&
    !(c == '<') && !(c == '>') && !(c == '&')

/-- What `appendString` of `encode.go` writes for one decoding step of the
string, with `escapeHTML` set as `json.Marshal` sets it. -/
def escapeRune : Rune → List Char
  | Rune.invalid _ => ['\\', 'u', 'f', 'f', 'f', 'd']
  | Rune.valid c =>
    if c.toNat < 128 then
      if htmlSafe c then [c]
      else if c = '\\' ∨ c = '"' then ['\\', c]
      else if c = '\x08' then ['\\', 'b']
      else if c = '\x0c' then ['\\', 'f']
      else if c = '\n' then ['\\', 'n']
      else if c = '\r' then ['\\', 'r']
      else if c = '\t' then ['\\', 't']
      else ['\\', 'u', '0', '0', hexDigit (c.toNat / 16), hexDigit (c.toNat % 16)]
    else if c = '\u2028' ∨ c = '\u2029' then
      ['\\', 'u', '2', '0', '2', hexDigit (c.toNat % 16)]
    else [c]

/-- The function `appendString` of `encode.go`: the JSON string literal of a
Go string. -/
def appendString (src : GoString) : List Char :=
  '"' :: (src.flatMap escapeRune ++ ['"'])

/-- The elements after the first of a slice, each behind a comma, and the
closing bracket. -/
def marshalRest : List GoString → List Char
  | [] => [']']
  | x :: rest => ',' :: (appendString x ++ marshalRest rest)

/-- The text `json.Marshal` returns for a `[]string` that is not nil (the
empty list stands for the empty slice). -/
def jsonMarshalStrings : List GoString → String
  | [] => "[]"
  | x :: rest => ⟨'[' :: (appendString x ++ marshalRest rest)⟩

/-- The value of a hexadecimal digit. -/
def hexValue (c : Char) : Option Nat :=
  if '0' ≤ c ∧ c ≤ '9' then some (c.toNat - 48)
  else if 'a' ≤ c ∧ c ≤ 'f' then some (c.toNat - 87)
  else if 'A' ≤ c ∧ c ≤ 'F' then some (c.toNat - 55)
  else none

/-- The value of four hexadecimal digits. -/
def hex4 (a b c d : Char) : Option Nat :=
  match hexValue a, hexValue b, hexValue c, hexValue d with
  | some x, some y, some z, some w => some (((x * 16 + y) * 16 + z) * 16 + w)
  | _, _, _, _ => none

/-- The function `getu4` of `decode.go`: the value of an escape `\uXXXX` at
the head of the text. -/
def getu4 : List Char → Option Nat
  | '\\' :: 'u' :: a :: b :: c :: d :: _ => hex4 a b c d
  | _ => none

/-- The code point `utf8.EncodeRune` writes for a rune value: U+FFFD when the
value is not a valid code point. -/
def runeChar (n : Nat) : Char := if n.isValidChar then Char.ofNat n else '\uFFFD'

/-- The body of a JSON string literal read up to its closing quote, as the
scanner accepts it and `unquoteBytes` of `decode.go` decodes it: the decoded
text and the text after the quote. `skip` counts the characters of a low
surrogate escape that has been decoded with the high one before it. -/
def unquoteAux : Nat → List Char → Option (List Char × List Char)
  | _, [] => none
  | skip + 1, _ :: rest => unquoteAux skip rest
  | 0, c :: rest =>
    if c = '"' then some ([], rest)
    else if c = '\\' then
      match rest with
      | [] => none
      | e :: rest1 =>
        if e = 'u' then
          match rest1 with
          | a :: b :: c1 :: d :: rest2 =>
            match hex4 a b c1 d with
            | none => none
            | some rr =>
              if 0xD800 ≤ rr ∧ rr < 0xE000 then
                match getu4 rest2 with
                | some rr1 =>
                  if rr < 0xDC00 ∧ 0xDC00 ≤ rr1 ∧ rr1 < 0xE000 then
                    (unquoteAux 6 rest2).map (fun r =>
                      (runeChar ((rr - 0xD800) * 1024 + (rr1 - 0xDC00) + 0x10000) :: r.1, r.2))
                  else (unquoteAux 0 rest2).map (fun r => ('\uFFFD' :: r.1, r.2))
                | none => (unquoteAux 0 rest2).map (fun r => ('\uFFFD' :: r.1, r.2))
              else (unquoteAux 0 rest2).map (fun r => (runeChar rr :: r.1, r.2))
          | _ => none
        else if e = '"' ∨ e = '\\' ∨ e = '/' then
          (unquoteAux 0 rest1).map (fun r => (e :: r.1, r.2))
        else if e = 'b' then (unquoteAux 0 rest1).map (fun r => ('\x08' :: r.1, r.2))
        else if e = 'f' then (unquoteAux 0 rest1).map (fun r => ('\x0c' :: r.1, r.2))
        else if e = 'n' then (unquoteAux 0 rest1).map (fun r => ('\n' :: r.1, r.2))
        else if e = 'r' then (unquoteAux 0 rest1).map (fun r => ('\r' :: r.1, r.2))
        else if e = 't' then (unquoteAux 0 rest1).map (fun r => ('\t' :: r.1, r.2))
        else none
    else if c.toNat < 32 then none
    else (unquoteAux 0 rest).map (fun r => (c :: r.1, r.2))

/-- The function `isSpace` of `scanner.go`. -/
def isSpace (c : Char) : Bool := c == ' ' || c == '\t' || c == '\r' || c == '\n'

/-- The text after the leading JSON white space. -/
def skipSpace : List Char → List Char
  | [] => []
  | c :: rest => if isSpace c then skipSpace rest else c :: rest

/-- The text after the leading decimal digits. -/
def skipDigits : List Char → List Char
  | [] => []
  | c :: rest => if c.isDigit then skipDigits rest else c :: rest

/-- At least one decimal digit: the text after the digits. -/
def skipDigits1 : List Char → Option (List Char)
  | [] => none
  | c :: rest => if c.isDigit then some (skipDigits rest) else none

/-- The exponent of a JSON number, when there is one: the text after it. -/
def skipExponent : List Char → Option (List Char)
  | [] => some []
  | e :: rest =>
    if e = 'e' ∨ e = 'E' then
      match rest with
      | [] => none
      | s :: rest1 => if s = '+' ∨ s = '-' then skipDigits1 rest1 else skipDigits1 (s :: rest1)
    else some (e :: rest)

/-- The fraction and the exponent of a JSON number, when there are: the text
after them. -/
def skipFraction : List Char → Option (List Char)
  | [] => some []
  | c :: rest =>
    if c = '.' then
      match skipDigits1 rest with
      | none => none
      | some rest1 => skipExponent rest1
    else skipExponent (c :: rest)

/-- The integer part of a JSON number: a single `0`, or digits that begin
with another digit. -/
def skipInteger : List Char → Option (List Char)
  | [] => none
  | c :: rest => if c = '0' then some rest else if c.isDigit then some (skipDigits rest) else none

/-- A JSON number as the scanner accepts it: the text after it. -/
def skipNumber : List Char → Option (List Char)
  | [] => none
  | c :: rest =>
    match (if c = '-' then skipInteger rest else skipInteger (c :: rest)) with
    | none => none
    | some rest1 => skipFraction rest1

/-- The text after the literal `lit`, when the text begins with it. -/
def afterLiteral : List Char → List Char → Option (List Char)
  | [], input => some input
  | _ :: _, [] => none
  | l :: lit, c :: input => if l = c then afterLiteral lit input else none

/-- The kind of a JSON value, with the text of a string. -/
inductive JSONKind where
  | null
  | bool
  | number
  | string (s : String)
  | array
  | object
deriving DecidableEq

/-- Why a text could not be read: it is not valid JSON, or a loop of the
reader used up its fuel. -/
inductive ParseFailure where
  | invalid
  | outOfFuel
deriving DecidableEq

/-- The outcome of reading one piece of a JSON text: the piece and the text
after it. -/
abbrev Parsed (α : Type) := Except ParseFailure (α × List Char)

/-- The elements of a JSON array after the first white space, up to the
closing bracket; `value` reads one element, and `fuel` bounds the number of
elements. -/
def parseElements (value : List Char → Parsed JSONKind) :
    Nat → List Char → Parsed (List JSONKind)
  | 0, _ => Except.error ParseFailure.outOfFuel
  | fuel + 1, input =>
    match value input with
    | Except.error e => Except.error e
    | Except.ok (k, rest) =>
      match skipSpace rest with
      | [] => Except.error ParseFailure.invalid
      | d :: rest1 =>
        if d = ',' then
          match parseElements value fuel (skipSpace rest1) with
          | Except.error e => Except.error e
          | Except.ok (ks, rest2) => Except.ok (k :: ks, rest2)
        else if d = ']' then Except.ok ([k], rest1)
        else Except.error ParseFailure.invalid

/-- The members of a JSON object after the first white space, up to the
closing brace; `value` reads one value, and `fuel` bounds the number of
members. -/
def parseMembers (value : List Char → Parsed JSONKind) : Nat → List Char → Parsed Unit
  | 0, _ => Except.error ParseFailure.outOfFuel
  | fuel + 1, input =>
    match afterLiteral ['"'] input with
    | none => Except.error ParseFailure.invalid
    | some rest =>
      match unquoteAux 0 rest with
      | none => Except.error ParseFailure.invalid
      | some (_, rest1) =>
        match afterLiteral [':'] (skipSpace rest1) with
        | none => Except.error ParseFailure.invalid
        | some rest2 =>
          match value (skipSpace rest2) with
          | Except.error e => Except.error e
          | Except.ok (_, rest3) =>
            match skipSpace rest3 with
            | [] => Except.error ParseFailure.invalid
            | d :: rest4 =>
              if d = ',' then parseMembers value fuel (skipSpace rest4)
              else if d = '}' then Except.ok ((), rest4)
              else Except.error ParseFailure.invalid

/-- A JSON value that is not an array or an object, at the head `c :: rest` of
the text: a string, `true`, `false`, `null` or a number. -/
def parseScalar (c : Char) (rest : List Char) : Parsed JSONKind :=
  if c = '"' then
    match unquoteAux 0 rest with
    | none => Except.error ParseFailure.invalid
    | some (s, rest1) => Except.ok (JSONKind.string ⟨s⟩, rest1)
  else if c = 't' then
    match afterLiteral ['r', 'u', 'e'] rest with
    | some rest1 => Except.ok (JSONKind.bool, rest1)
    | none => Except.error ParseFailure.invalid
  else if c = 'f' then
    match afterLiteral ['a', 'l', 's', 'e'] rest with
    | some rest1 => Except.ok (JSONKind.bool, rest1)
    | none => Except.error ParseFailure.invalid
  else if c = 'n' then
    match afterLiteral ['u', 'l', 'l'] rest with
    | some rest1 => Except.ok (JSONKind.null, rest1)
    | none => Except.error ParseFailure.invalid
  else
    match skipNumber (c :: rest) with
    | none => Except.error ParseFailure.invalid
    | some rest1 => Except.ok (JSONKind.number, rest1)

/-- One JSON value at the head of the text; `budget` is the number of levels
of arrays and objects that may still be opened (the scanner allows 10000 of
them, and a bracket or brace beyond that is an error). -/
def parseValue : Nat → List Char → Parsed JSONKind
  | _, [] => Except.error ParseFailure.invalid
  | 0, c :: rest => parseScalar c rest
  | inner + 1, c :: rest =>
    if c = '[' then
      match skipSpace rest with
      | [] => Except.error ParseFailure.invalid
      | d :: rest1 =>
        if d = ']' then Except.ok (JSONKind.array, rest1)
        else
          match parseElements (parseValue inner) (d :: rest1).length (d :: rest1) with
          | Except.error e => Except.error e
          | Except.ok (_, rest2) => Except.ok (JSONKind.array, rest2)
    else if c = '{' then
      match skipSpace rest with
      | [] => Except.error ParseFailure.invalid
      | d :: rest1 =>
        if d = '}' then Except.ok (JSONKind.object, rest1)
        else
          match parseMembers (parseValue inner) (d :: rest1).length (d :: rest1) with
          | Except.error e => Except.error e
          | Except.ok (_, rest2) => Except.ok (JSONKind.object, rest2)
    else parseScalar c rest

/-- The kinds of error `json.Unmarshal` returns: the text is not valid JSON
(`SyntaxError`), or a value does not fit the Go type (`UnmarshalTypeError`). -/
inductive JSONError where
  | invalidText
  | wrongType
deriving DecidableEq

/-- The string an element of a `[]string` holds after decoding a JSON value
into it: the text of a JSON string; `null` and a value of another kind leave
the empty string of the fresh element. -/
def elementText : JSONKind → String
  | JSONKind.string s => s
  | _ => ""

/-- The JSON value cannot be stored in a Go string: it is neither a string nor
`null`. -/
def elementMistyped : JSONKind → Bool
  | JSONKind.string _ => false
  | JSONKind.null => false
  | _ => true

/-- The call `json.Unmarshal(data, &v)` for a `[]string` variable `v` that is
nil: the value of `v` after the call (nil and the empty slice are both the
empty list) and the error. A text that is not valid JSON leaves `v` as it is;
in an array, an element that is not a string is skipped with a type error
and decoding goes on. -/
def jsonUnmarshalStrings (data : String) : List String × Option JSONError :=
  match skipSpace data.data with
  | [] => ([], some JSONError.invalidText)
  | c :: rest =>
    if c = '[' then
      match skipSpace rest with
      | [] => ([], some JSONError.invalidText)
      | d :: rest1 =>
        if d = ']' then
          (if skipSpace rest1 = [] then ([], none) else ([], some JSONError.invalidText))
        else
          match parseElements (parseValue 9999) (d :: rest1).length (d :: rest1) with
          | Except.error _ => ([], some JSONError.invalidText)
          | Except.ok (ks, rest2) =>
            if skipSpace rest2 = [] then
              (ks.map elementText,
                if ks.any elementMistyped then some JSONError.wrongType else none)
            else ([], some JSONError.invalidText)
    else
      match parseValue 10000 (c :: rest) with
      | Except.error _ => ([], some JSONError.invalidText)
      | Except.ok (k, rest1) =>
        if skipSpace rest1 = [] then
          (if k = JSONKind.null then ([], none) else ([], some JSONError.wrongType))
        else ([], some JSONError.invalidText)

/-- The method `GetTagsJSON` of `feed_item.go`, read on the value of the field
`Tags`; the tags are Go strings, which need not be valid UTF-8. -/
def GetTagsJSON (tags : List GoString) : String :=
  if tags.length = 0 then "[]" else jsonMarshalStrings tags

/-- The method `SetTagsFromJSON` of `feed_item.go` on an item whose `Tags` is
nil: the value of `Tags` after the call and the error. -/
def SetTagsFromJSON (data : String) : List String × Option JSONError :=
  if data = "" ∨ data = "null" then ([], none) else jsonUnmarshalStrings data



/-- The method `GetSourcesJSON` of `subscription.go`, read on the value of the
field `Sources`; the sources are Go strings, which need not be valid UTF-8. -/
def GetSourcesJSON (sources : List GoString) : String :=
  if sources.length = 0 then "[]" else jsonMarshalStrings sources

/-- The method `SetSourcesFromJSON` of `subscription.go` on a subscription
whose `Sources` is nil: the value of `Sources` after the call and the
error. -/
def SetSourcesFromJSON (data : String) : List String × Option JSONError :=
  if data = "" ∨ data = "null" then ([], none) else jsonUnmarshalStrings data

/-! ## Loading the subscriptions (`subscriptions.go`) -/

/-- The columns `rows.Scan` fills for one row of the query of
`GetActiveSubscriptions`; a column that is NULL (an `sql.NullString` or
`sql.NullTime` that is not valid) is `none`. -/
structure SubscriptionRow where
  ID : Int
  Topic : String
  category : Option String
  Frequency : String
  sources : Option String
  CreatedAt : Time
  UpdatedAt : Time
  lastFetched : Option Time
  IsActive : Bool
deriving DecidableEq

/-- The rows of a query as the loop `for rows.Next()` meets them: the outcome
of `rows.Scan` for each row, and the error `rows.Err()` reports after the
loop. -/
structure SubscriptionRows where
  scans : List (Except Error SubscriptionRow)
  err : Option Error

/-- The subscription the loop of `scanSubscriptions` builds from a scanned
row; the error of `SetSourcesFromJSON` is dropped. -/
def subscriptionOfRow (row : SubscriptionRow) : Subscription :=
  { ID := row.ID,
    Topic := row.Topic,
    Category :=
      (match row.category with
       | some category => category
       | none => ""),
    Frequency := row.Frequency,
    Sources :=
      (match row.sources with
       | some sources => (SetSourcesFromJSON sources).1
       | none => []),
    CreatedAt := row.CreatedAt,
    UpdatedAt := row.UpdatedAt,
    LastFetchedAt := row.lastFetched,
    IsActive := row.IsActive }

/-- The loop of `scanSubscriptions`: `subs` is the slice built so far; a row
that cannot be scanned ends the function with its error and no
subscription. -/
def scanSubscriptionsLoop (final : Option Error) (subs : List Subscription) :
    List (Except Error SubscriptionRow) → List Subscription × Option Error
  | [] => (subs, final)
  | Except.error err :: _ => ([], some err)
  | Except.ok row :: rest => scanSubscriptionsLoop final (subs ++ [subscriptionOfRow row]) rest

/-- The function `scanSubscriptions` of `subscriptions.go`. -/
def scanSubscriptions (rows : SubscriptionRows) : List Subscription × Option Error :=
  scanSubscriptionsLoop rows.err [] rows.scans

/-- The function `GetActiveSubscriptions` of `subscriptions.go`; `query` is
its `db.Query` of the active subscriptions, newest first, which fails or
yields rows. -/
def GetActiveSubscriptions {σ : Type} (query : σ → Except Error SubscriptionRows × σ)
    (w : σ) : (List Subscription × Option Error) × σ :=
  match query w with
  | (Except.error err, w1) => (([], some err), w1)
  | (Except.ok rows, w1) => (scanSubscriptions rows, w1)

/-! ## Scheduler: refreshing all subscriptions (`scheduler.go`) -/

/-- The loop of `RefreshAllSubscriptions`: the calls of `RefreshSubscription`
it makes, each with the error the call returned, in the order of the calls.
`now` reads the clock of the world for `time.Now()`. -/
def refreshAllLoop {σ : Type} (rt : Runtime) (db : Database σ) (now : σ → Time)
    (s : Scheduler σ) : List Subscription → σ → List (Subscription × Option Error) × σ
  | [], w => ([], w)
  | sub :: rest, w =>
    if shouldRefresh (now w) sub then
      match RefreshSubscription rt db s sub w with
      | (((_, err), _), w1) =>
        match refreshAllLoop rt db now s rest w1 with
        | (calls, w2) => ((sub, err) :: calls, w2)
    else refreshAllLoop rt db now s rest w

/-- The function `RefreshAllSubscriptions` of `scheduler.go`: the error it
returns and the calls of `RefreshSubscription` it made. -/
def RefreshAllSubscriptions {σ : Type} (rt : Runtime) (db : Database σ)
    (query : σ → Except Error SubscriptionRows × σ) (now : σ → Time) (s : Scheduler σ)
    (w : σ) : (Option Error × List (Subscription × Option Error)) × σ :=
  match GetActiveSubscriptions query w with
  | ((_, some err), w1) => ((some err, []), w1)
  | ((subs, none), w1) =>
    match refreshAllLoop rt db now s subs w1 with
    | (calls, w2) => ((none, calls), w2)

/-! ## Prompt builders (`intelligence/ask.go`, `cli/ask.go`) -/

/-- The conversion `rune(n)` of an `int`: the value is cut to 32 bits. -/
def runeOfInt (n : Int) : Int := (n + 2 ^ 31) % 2 ^ 32 - 2 ^ 31

/-- The conversion `string(r)` of a rune: the UTF-8 text of the code point
`r`, and of U+FFFD when `r` is not a valid code point. -/
def stringOfRune (r : Int) : String :=
  if 0 ≤ r ∧ r.toNat.isValidChar then String.singleton (Char.ofNat r.toNat) else "\uFFFD"

/-- The verb `%d` of package `fmt` on an `int`: the decimal digits, after a
minus sign for a negative value. -/
def formatDecimal (n : Int) : String :=
  if n < 0 then "-" ++ Nat.repr (-n).toNat else Nat.repr n.toNat

/-- The loop of `buildPromptWithSources` over the sources, `i` being the
index of the next source and `prompt` the text built so far. -/
def buildPromptWithSourcesLoop (prompt : String) : Nat → List SearchResult → String
  | _, [] => prompt
  | i, src :: rest =>
    let prompt :=
      prompt ++
        ("Source " ++ stringOfRune (runeOfInt (49 + (i : Int))) ++ ": " ++ src.Title ++ "\n")
    let prompt := prompt ++ ("URL: " ++ src.URL ++ "\n")
    let prompt :=
      if src.Snippet ≠ "" then prompt ++ ("Content: " ++ src.Snippet ++ "\n") else prompt
    let prompt := prompt ++ "\n"
    buildPromptWithSourcesLoop prompt (i + 1) rest

/-- The function `buildPromptWithSources` of `intelligence/ask.go`; the rune
`'1'` is the code point 49. -/
def buildPromptWithSources (question : String) (sources : List SearchResult) : String :=
  let prompt := ""
  let prompt :=
    if sources.length > 0 then
      buildPromptWithSourcesLoop
        (prompt ++ "Use the following sources to inform your answer:\n\n") 0 sources ++
        "---\n\n"
    else prompt
  prompt ++ ("Question: " ++ question)

/-- The loop of `buildPrompt` over the sources, `i` being the index of the
next source and `sb` the text written to the builder so far. -/
def buildPromptLoop (sb : String) : Nat → List SearchResult → String
  | _, [] => sb
  | i, src :: rest =>
    let sb := sb ++ ("Source " ++ formatDecimal ((i : Int) + 1) ++ ": " ++ src.Title ++ "\n")
    let sb := sb ++ ("URL: " ++ src.URL ++ "\n")
    let sb := if src.Snippet ≠ "" then sb ++ ("Content: " ++ src.Snippet ++ "\n") else sb
    let sb := sb ++ "\n"
    buildPromptLoop sb (i + 1) rest

/-- The function `buildPrompt` of `cli/ask.go`. -/
def buildPrompt (question : String) (sources : List SearchResult) : String :=
  let sb := ""
  let sb :=
    if sources.length > 0 then
      buildPromptLoop (sb ++ "Use the following sources to inform your answer:\n\n") 0
        sources ++ "---\n\n"
    else sb
  (sb ++ "Question: ") ++ question

/-! ## Specification-side definitions -/

/-- The refresh threshold the specification assigns to a frequency tier:
one hour for hourly, 24 hours for daily, 168 hours for weekly and 24 hours
for every other tier. -/
def dueThreshold (frequency : String) : Int :=
  if frequency = "hourly" then 1 * Hour
  else if frequency = "daily" then 24 * Hour
  else if frequency = "weekly" then 168 * Hour
  else 24 * Hour

/-- The first element of `xs` whose URL is `u`, as a list of length at most
one. -/
def firstWithURL (u : String) (xs : List SearchResult) : List SearchResult :=
  (xs.find? (fun r => decide (r.URL = u))).toList

/-- The elements of `xs` whose URL is `u`, in order. -/
def withURL (u : String) (xs : List SearchResult) : List SearchResult :=
  xs.filter (fun r => decide (r.URL = u))

/-- The items for which `CreateFeedItem` was called, in the order of the
calls. -/
def createCalls (calls : List DBCall) : List FeedItem :=
  calls.filterMap (fun call =>
    match call with
    | DBCall.createFeedItem item => some item
    | _ => none)

/-- The subscription ids for which `UpdateLastFetched` was called, in the
order of the calls. -/
def updateCalls (calls : List DBCall) : List Int :=
  calls.filterMap (fun call =>
    match call with
    | DBCall.updateLastFetched id => some id
    | _ => none)

/-- Whether, in the saving loop over `items` started in the world `w`, every
existence check reports that the URL of its item already exists. -/
def allReportedExisting {σ : Type} (db : Database σ) (subID : Int) :
    List FeedItem → σ → Bool
  | [], _ => true
  | item :: rest, w =>
    (ItemExistsByURL db item.SourceURL w).1.1 &&
      allReportedExisting db subID rest (persistOne db subID item w).2

/-- The entry has a publish time and it lies strictly before `since`; never
so when `since` is unset. -/
def publishedBefore (since : Option Time) (item : FeedEntry) : Bool :=
  match since, item.PublishedParsed with
  | some s, some t => decide (t.nsec < s.nsec)
  | _, _ => false

/-! ## A concrete runtime

A runtime on which the pipeline can be evaluated. Its `ParseFloat` reads the
special spellings as `strconv` does (a transcription of its function
`special`) and decimal literals (sign, digits, fraction, decimal exponent),
rounded to the nearest `float64`; hexadecimal literals and digit separators
are not accepted. Its `sort.Slice` is the insertion sort the `sort` package
runs on slices of at most twelve elements. Code points above ASCII are left
unchanged by its `unicode.ToLower`. -/

/-- The integer nearest to `n / d`, ties going to the even one (`0 < d`). -/
def roundHalfEven (n d : Nat) : Nat :=
  let f := n / d
  let r := n % d
  if 2 * r < d then f
  else if d < 2 * r then f + 1
  else if f % 2 = 0 then f else f + 1

/-- The binary logarithm rounded down, by halving at most `fuel` times. -/
def floorLog2Fuel : Nat → Nat → Nat
  | 0, _ => 0
  | fuel + 1, n => if n < 2 then 0 else 1 + floorLog2Fuel fuel (n / 2)

/-- The binary logarithm of `n` rounded down (`0` for `n = 0`). -/
def floorLog2 (n : Nat) : Nat := floorLog2Fuel n n

/-- Whether `n / d < 2 ^ e`. -/
def belowPow2 (n d : Nat) (e : Int) : Bool :=
  if 0 ≤ e then decide (n < d * 2 ^ e.toNat) else decide (n * 2 ^ (-e).toNat < d)

/-- The `float64` nearest to the fraction `num / den` (ties to even, `0 < den`);
a magnitude that rounds to `2 ^ 1024` or more gives an infinity. -/
def roundFraction (num : Int) (den : Nat) : F64 :=
  if num = 0 then F64.fin 0
  else
    let n := num.natAbs
    let e0 : Int := (floorLog2 n : Int) - (floorLog2 den : Int)
    let e : Int := if belowPow2 n den e0 then e0 - 1 else e0
    let k : Int := max e (-1022) - 52
    let m : Nat :=
      if 0 ≤ k then roundHalfEven n (den * 2 ^ k.toNat)
      else roundHalfEven (n * 2 ^ (-k).toNat) den
    if 0 ≤ k ∧ 1024 ≤ floorLog2 m + k.toNat then
      (if 0 < num then F64.posInf else F64.negInf)
    else
      let sm : Int := if 0 < num then (m : Int) else -(m : Int)
      if 0 ≤ k then F64.fin (mkRat (sm * 2 ^ k.toNat) 1)
      else F64.fin (mkRat sm (2 ^ (-k).toNat))

/-- The `float64` nearest to a rational number. -/
def round64 (q : ℚ) : F64 := roundFraction q.num q.den

/-- The function `commonPrefixLenIgnoreCase` of `strconv`; `pre` is in lower case. -/
def commonPrefixLenIgnoreCase : List Char → List Char → Nat
  | c :: s, p :: pre => if c.toLower = p then 1 + commonPrefixLenIgnoreCase s pre else 0
  | _, _ => 0

/-- The length of the infinity spelling at the head of `s`: the common prefix
with "infinity", cut back to "inf" when it is incomplete. -/
def infinityPrefixLen (s : List Char) : Nat :=
  let n := commonPrefixLenIgnoreCase s "infinity".data
  if 3 < n ∧ n < 8 then 3 else n

/-- The function `special` of `strconv`: the special value spelled at the head of `s` and
the number of characters it takes. -/
def special (s : List Char) : Option (F64 × Nat) :=
  match s with
  | [] => none
  | c :: rest =>
    if c = '+' ∨ c = '-' then
      let n := infinityPrefixLen rest
      if n = 3 ∨ n = 8 then some (if c = '-' then F64.negInf else F64.posInf, 1 + n)
      else none
    else if c = 'i' ∨ c = 'I' then
      let n := infinityPrefixLen s
      if n = 3 ∨ n = 8 then some (F64.posInf, n) else none
    else if c = 'n' ∨ c = 'N' then
      if commonPrefixLenIgnoreCase s "nan".data = 3 then some (F64.nan, 3) else none
    else none

/-- Reads decimal digits: the number read onto `acc`, how many digits were
read onto `count`, and the rest of the text. -/
def readDigits (acc count : Nat) : List Char → Nat × Nat × List Char
  | [] => (acc, count, [])
  | c :: cs =>
    if c.isDigit then readDigits (10 * acc + (c.toNat - 48)) (count + 1) cs
    else (acc, count, c :: cs)

/-- Reads an optional sign: whether it is a minus, and the rest. -/
def readSign : List Char → Bool × List Char
  | '+' :: t => (false, t)
  | '-' :: t => (true, t)
  | s => (false, s)

/-- The exact value of a decimal literal, as a numerator and a denominator;
`none` when the text is not a decimal literal. -/
def readDecimal (s : List Char) : Option (Int × Nat) :=
  match readSign s with
  | (neg, s1) =>
    match readDigits 0 0 s1 with
    | (ip, ni, s2) =>
      let frac : Nat × Nat × List Char :=
        match s2 with
        | '.' :: t => readDigits ip 0 t
        | _ => (ip, 0, s2)
      match frac with
      | (mant, nf, s3) =>
        if ni + nf = 0 then none
        else
          let expo : Option (Int × List Char) :=
            match s3 with
            | [] => some (0, [])
            | c :: t =>
              if c = 'e' ∨ c = 'E' then
                match readSign t with
                | (eneg, t1) =>
                  match readDigits 0 0 t1 with
                  | (e, ne, t2) =>
                    if ne = 0 then none
                    else some (if eneg then -(e : Int) else (e : Int), t2)
              else some (0, c :: t)
          match expo with
          | none => none
          | some (e, rest) =>
            if rest ≠ [] then none
            else
              let x : Int := e - (nf : Int)
              let sm : Int := if neg then -(mant : Int) else (mant : Int)
              if 0 ≤ x then some (sm * 10 ^ x.toNat, 1)
              else some (sm, 10 ^ (-x).toNat)

/-- A model of `strconv.ParseFloat(s, 64)`. -/
def parseFloat64 (s : String) : F64 × Option Error :=
  match special s.data with
  | some (f, n) =>
    if n = s.data.length then (f, none) else (F64.zero, some "invalid syntax")
  | none =>
    match readDecimal s.data with
    | none => (F64.zero, some "invalid syntax")
    | some (num, den) =>
      match roundFraction num den with
      | F64.posInf => (F64.posInf, some "value out of range")
      | F64.negInf => (F64.negInf, some "value out of range")
      | f => (f, none)

/-- IEEE 754 multiplication (rounding to nearest). -/
def mul64 : F64 → F64 → F64
  | F64.fin a, F64.fin b => roundFraction (a.num * b.num) (a.den * b.den)
  | F64.nan, _ => F64.nan
  | _, F64.nan => F64.nan
  | F64.fin a, F64.posInf => if a = 0 then F64.nan else if 0 < a then F64.posInf else F64.negInf
  | F64.fin a, F64.negInf => if a = 0 then F64.nan else if 0 < a then F64.negInf else F64.posInf
  | F64.posInf, F64.fin b => if b = 0 then F64.nan else if 0 < b then F64.posInf else F64.negInf
  | F64.negInf, F64.fin b => if b = 0 then F64.nan else if 0 < b then F64.negInf else F64.posInf
  | F64.posInf, F64.posInf => F64.posInf
  | F64.negInf, F64.negInf => F64.posInf
  | F64.posInf, F64.negInf => F64.negInf
  | F64.negInf, F64.posInf => F64.negInf

/-- IEEE 754 addition (rounding to nearest). -/
def add64 : F64 → F64 → F64
  | F64.fin a, F64.fin b => roundFraction (a.num * b.den + b.num * a.den) (a.den * b.den)
  | F64.nan, _ => F64.nan
  | _, F64.nan => F64.nan
  | F64.posInf, F64.negInf => F64.nan
  | F64.negInf, F64.posInf => F64.nan
  | F64.posInf, _ => F64.posInf
  | F64.negInf, _ => F64.negInf
  | F64.fin _, F64.posInf => F64.posInf
  | F64.fin _, F64.negInf => F64.negInf

/-- The inner loop of the insertion sort of package `sort`
(`insertionSort_func`): the element `x` moves towards the front while it is
less than its predecessor. `before` holds the elements in front of `x`, the
nearest first. -/
def insertionStep {α : Type} (less : α → α → Bool) (x : α) : List α → List α
  | [] => [x]
  | y :: before => if less x y then y :: insertionStep less x before else x :: y :: before

/-- The insertion sort of package `sort` (`insertionSort_func`), on the whole
slice. -/
def insertionSortLessFunc {α : Type} (less : α → α → Bool) (data : List α) : List α :=
  (data.foldl (fun before x => insertionStep less x before) []).reverse

/-- What `sort.Slice` does on a short slice: up to twelve elements are sorted
by `insertionSortLessFunc`. -/
def Runtime.SortsShortByInsertion (rt : Runtime) : Prop :=
  ∀ (less : FeedItem → FeedItem → Bool) (items : List FeedItem),
    items.length ≤ 12 → rt.sortSlice less items = insertionSortLessFunc less items

/-- Adding the recency bonus `0.3` to the weighted score `s * 0.7` gives a
strictly greater `float64`. -/
def Runtime.BonusRaises (rt : Runtime) (s : F64) : Prop :=
  F64.gt (rt.addFloat (rt.mulFloat s F64.lit07) F64.lit03) (rt.mulFloat s F64.lit07) = true

/-- The concrete runtime. -/
def goRuntime : Runtime :=
  { ParseFloat := parseFloat64,
    unicodeToLower := fun c => c,
    mulFloat := mul64,
    addFloat := add64,
    sortSlice := fun less items => insertionSortLessFunc less items }

/-! ## The function `sort.Slice` on slices of any length

A transcription of the pattern-defeating quicksort that package `sort` runs
behind `sort.Slice` (`pdqsort_func` and its helpers in `zsortfunc.go`, Go 1.19
and later). The slice is a list, `data.Less(i, j)` and `data.Swap(i, j)` work
on indices as in the package, and a range `data[a:b]` is given by its two
bounds. -/

/-- The call `data.Less(i, j)`: `less` on the elements at the two indices. -/
def lessAt {α : Type} (less : α → α → Bool) (data : List α) (i j : Nat) : Bool :=
  match data[i]?, data[j]? with
  | some x, some y => less x y
  | _, _ => false

/-- The call `data.Swap(i, j)`. -/
def swapAt {α : Type} (data : List α) (i j : Nat) : List α :=
  match data[i]?, data[j]? with
  | some x, some y => (data.set i y).set j x
  | _, _ => data

/-- The function `bits.Len`: the number of bits needed to write `n`. -/
def bitsLen (n : Nat) : Nat := if n = 0 then 0 else floorLog2 n + 1

/-- The function `insertionSort_func` on `data[a:b]`. -/
def insertionSort_func {α : Type} (less : α → α → Bool) (data : List α) (a b : Nat) :
    List α :=
  data.take a ++ insertionSortLessFunc less ((data.drop a).take (b - a)) ++ data.drop b

/-- The function `siftDown_func`, started at `root`; its loop runs at most
`fuel` times (the root index at least doubles in each round). -/
def siftDown_func {α : Type} (less : α → α → Bool) (hi first : Nat) :
    Nat → Nat → List α → List α
  | 0, _, data => data
  | fuel + 1, root, data =>
    let child := 2 * root + 1
    if child ≥ hi then data
    else
      let child :=
        if child + 1 < hi ∧ lessAt less data (first + child) (first + child + 1) then child + 1
        else child
      if !lessAt less data (first + root) (first + child) then data
      else siftDown_func less hi first fuel child (swapAt data (first + root) (first + child))

/-- The function `heapSort_func`. -/
def heapSort_func {α : Type} (less : α → α → Bool) (data : List α) (a b : Nat) : List α :=
  let first := a
  let lo := 0
  let hi := b - a
  let built := ((List.range ((hi - 1) / 2 + 1)).reverse).foldl
    (fun data i => siftDown_func less hi first hi i data) data
  ((List.range hi).reverse).foldl
    (fun data i => siftDown_func less i first hi lo (swapAt data first (first + i))) built

/-- The type `sortedHint` of package `sort`. -/
inductive SortedHint where
  | unknownHint
  | increasingHint
  | decreasingHint
deriving DecidableEq

/-- The function `order2_func`: the two indices in order, and the count of
swaps. -/
def order2_func {α : Type} (less : α → α → Bool) (data : List α) (a b swaps : Nat) :
    Nat × Nat × Nat :=
  if lessAt less data b a then (b, a, swaps + 1) else (a, b, swaps)

/-- The function `median_func`: the index of the median of three, and the
count of swaps. -/
def median_func {α : Type} (less : α → α → Bool) (data : List α) (a b c swaps : Nat) :
    Nat × Nat :=
  match order2_func less data a b swaps with
  | (a1, b1, swaps1) =>
    match order2_func less data b1 c swaps1 with
    | (b2, _, swaps2) =>
      match order2_func less data a1 b2 swaps2 with
      | (_, b3, swaps3) => (b3, swaps3)

/-- The function `medianAdjacent_func`. -/
def medianAdjacent_func {α : Type} (less : α → α → Bool) (data : List α) (a swaps : Nat) :
    Nat × Nat :=
  median_func less data (a - 1) a (a + 1) swaps

/-- The function `choosePivot_func`: the index of the pivot and the hint. -/
def choosePivot_func {α : Type} (less : α → α → Bool) (data : List α) (a b : Nat) :
    Nat × SortedHint :=
  let l := b - a
  let i := a + l / 4 * 1
  let j := a + l / 4 * 2
  let k := a + l / 4 * 3
  let chosen : Nat × Nat :=
    if l ≥ 8 then
      if l ≥ 50 then
        match medianAdjacent_func less data i 0 with
        | (i1, swaps1) =>
          match medianAdjacent_func less data j swaps1 with
          | (j1, swaps2) =>
            match medianAdjacent_func less data k swaps2 with
            | (k1, swaps3) => median_func less data i1 j1 k1 swaps3
      else median_func less data i j k 0
    else (j, 0)
  if chosen.2 = 0 then (chosen.1, SortedHint.increasingHint)
  else if chosen.2 = 4 * 3 then (chosen.1, SortedHint.decreasingHint)
  else (chosen.1, SortedHint.unknownHint)

/-- The function `reverseRange_func`: `data[a:b]` is reversed. -/
def reverseRange_func {α : Type} (data : List α) (a b : Nat) : List α :=
  data.take a ++ ((data.drop a).take (b - a)).reverse ++ data.drop b

/-- The loop `for i < b && !data.Less(i, i-1) { i++ }` of
`partialInsertionSort_func`; it runs at most `fuel` times. -/
def skipOrdered {α : Type} (less : α → α → Bool) (data : List α) (b : Nat) : Nat → Nat → Nat
  | 0, i => i
  | fuel + 1, i =>
    if i < b ∧ !lessAt less data i (i - 1) then skipOrdered less data b fuel (i + 1) else i

/-- The loop of `partialInsertionSort_func` that shifts the smaller element to
the left, `j` running down to 1. -/
def shiftLeft {α : Type} (less : α → α → Bool) : Nat → List α → List α
  | 0, data => data
  | j + 1, data =>
    if lessAt less data (j + 1) j then shiftLeft less j (swapAt data (j + 1) j) else data

/-- The loop of `partialInsertionSort_func` that shifts the greater element to
the right, `j` running up to `b - 1`; it runs at most `fuel` times. -/
def shiftRight {α : Type} (less : α → α → Bool) (b : Nat) : Nat → Nat → List α → List α
  | 0, _, data => data
  | fuel + 1, j, data =>
    if j < b ∧ lessAt less data j (j - 1) then
      shiftRight less b fuel (j + 1) (swapAt data j (j - 1))
    else data

/-- The function `partialInsertionSort_func`, entered at index `i` with
`steps` rounds of its outer loop left: the slice after the call and whether it
is sorted. -/
def partialInsertionSort_func {α : Type} (less : α → α → Bool) (a b : Nat) :
    Nat → Nat → List α → List α × Bool
  | 0, _, data => (data, false)
  | steps + 1, i, data =>
    let i := skipOrdered less data b (b - i + 1) i
    if i = b then (data, true)
    else if b - a < 50 then (data, false)
    else
      let data := swapAt data i (i - 1)
      let data := if i - a ≥ 2 then shiftLeft less (i - 1) data else data
      let data := if b - i ≥ 2 then shiftRight less b (b - i) (i + 1) data else data
      partialInsertionSort_func less a b steps i data

/-- The loop `for i <= j && data.Less(i, a) { i++ }` of `partition_func`; it
runs at most `fuel` times. -/
def scanUp {α : Type} (less : α → α → Bool) (data : List α) (a j : Nat) : Nat → Nat → Nat
  | 0, i => i
  | fuel + 1, i =>
    if i ≤ j ∧ lessAt less data i a then scanUp less data a j fuel (i + 1) else i

/-- The loop `for i <= j && !data.Less(j, a) { j-- }` of `partition_func`; it
runs at most `fuel` times. -/
def scanDown {α : Type} (less : α → α → Bool) (data : List α) (a i : Nat) : Nat → Nat → Nat
  | 0, j => j
  | fuel + 1, j =>
    if i ≤ j ∧ !lessAt less data j a then scanDown less data a i fuel (j - 1) else j

/-- The main loop of `partition_func`, entered with the bounds `i` and `j`; it
runs at most `fuel` times. -/
def partitionLoop {α : Type} (less : α → α → Bool) (a : Nat) :
    Nat → Nat → Nat → List α → List α × Nat
  | 0, _, j, data => (data, j)
  | fuel + 1, i, j, data =>
    let i := scanUp less data a j (j + 1 - i + 1) i
    let j := scanDown less data a i (j + 1 - i + 1) j
    if i > j then (data, j)
    else partitionLoop less a fuel (i + 1) (j - 1) (swapAt data i j)

/-- The function `partition_func`: the slice after the call, the new index of
the pivot, and whether the slice was already partitioned. -/
def partition_func {α : Type} (less : α → α → Bool) (data : List α) (a b pivot : Nat) :
    List α × Nat × Bool :=
  let data := swapAt data a pivot
  let i := scanUp less data a (b - 1) (b - a + 1) (a + 1)
  let j := scanDown less data a i (b - a + 1) (b - 1)
  if i > j then (swapAt data j a, j, true)
  else
    match partitionLoop less a (b - a + 1) (i + 1) (j - 1) (swapAt data i j) with
    | (data, j) => (swapAt data j a, j, false)

/-- The loop `for i <= j && !data.Less(a, i) { i++ }` of
`partitionEqual_func`; it runs at most `fuel` times. -/
def scanUpEqual {α : Type} (less : α → α → Bool) (data : List α) (a j : Nat) :
    Nat → Nat → Nat
  | 0, i => i
  | fuel + 1, i =>
    if i ≤ j ∧ !lessAt less data a i then scanUpEqual less data a j fuel (i + 1) else i

/-- The loop `for i <= j && data.Less(a, j) { j-- }` of
`partitionEqual_func`; it runs at most `fuel` times. -/
def scanDownEqual {α : Type} (less : α → α → Bool) (data : List α) (a i : Nat) :
    Nat → Nat → Nat
  | 0, j => j
  | fuel + 1, j =>
    if i ≤ j ∧ lessAt less data a j then scanDownEqual less data a i fuel (j - 1) else j

/-- The loop of `partitionEqual_func`, entered with the bounds `i` and `j`; it
runs at most `fuel` times. -/
def partitionEqualLoop {α : Type} (less : α → α → Bool) (a : Nat) :
    Nat → Nat → Nat → List α → List α × Nat
  | 0, i, _, data => (data, i)
  | fuel + 1, i, j, data =>
    let i := scanUpEqual less data a j (j + 1 - i + 1) i
    let j := scanDownEqual less data a i (j + 1 - i + 1) j
    if i > j then (data, i)
    else partitionEqualLoop less a fuel (i + 1) (j - 1) (swapAt data i j)

/-- The function `partitionEqual_func`: the slice after the call and the new
start of the range. -/
def partitionEqual_func {α : Type} (less : α → α → Bool) (data : List α) (a b pivot : Nat) :
    List α × Nat :=
  partitionEqualLoop less a (b - a + 1) (a + 1) (b - 1) (swapAt data a pivot)

/-- The method `Next` of the generator `xorshift` of package `sort`, on 64
bits. -/
def xorshiftNext (r : Nat) : Nat :=
  let r := Nat.xor r ((r <<< 13) % 2 ^ 64)
  let r := Nat.xor r (r >>> 7)
  Nat.xor r ((r <<< 17) % 2 ^ 64)

/-- The function `breakPatterns_func`: three elements around the middle are
swapped with elements at indices drawn from the generator. -/
def breakPatterns_func {α : Type} (data : List α) (a b : Nat) : List α :=
  let length := b - a
  if length ≥ 8 then
    let modulus := 2 ^ bitsLen length
    let idx := a + (length / 4) * 2 - 1
    let pick (random : Nat) : Nat :=
      let other := Nat.land random (modulus - 1)
      if other ≥ length then other - length else other
    let r1 := xorshiftNext length
    let r2 := xorshiftNext r1
    let r3 := xorshiftNext r2
    let data := swapAt data (idx - 1 + 0) (a + pick r1)
    let data := swapAt data (idx - 1 + 1) (a + pick r2)
    swapAt data (idx - 1 + 2) (a + pick r3)
  else data

/-- The function `pdqsort_func` on `data[a:b]`, entered with the given values
of its variables `wasBalanced` and `wasPartitioned`. Every round of its loop
and every recursive call works on a shorter range; `fuel` bounds their depth,
and the result is `none` when it is used up. -/
def pdqsort_func {α : Type} (less : α → α → Bool) :
    Nat → List α → Nat → Nat → Nat → Bool → Bool → Option (List α)
  | 0, _, _, _, _, _, _ => none
  | fuel + 1, data, a, b, limit, wasBalanced, wasPartitioned =>
    let length := b - a
    if length ≤ 12 then some (insertionSort_func less data a b)
    else if limit = 0 then some (heapSort_func less data a b)
    else
      let data := if !wasBalanced then breakPatterns_func data a b else data
      let limit := if !wasBalanced then limit - 1 else limit
      match choosePivot_func less data a b with
      | (pivot0, hint0) =>
        let data :=
          if hint0 = SortedHint.decreasingHint then reverseRange_func data a b else data
        let pivot :=
          if hint0 = SortedHint.decreasingHint then (b - 1) - (pivot0 - a) else pivot0
        let hint :=
          if hint0 = SortedHint.decreasingHint then SortedHint.increasingHint else hint0
        let tried : List α × Bool :=
          if wasBalanced ∧ wasPartitioned ∧ hint = SortedHint.increasingHint then
            partialInsertionSort_func less a b 5 (a + 1) data
          else (data, false)
        if tried.2 then some tried.1
        else if a > 0 ∧ !lessAt less tried.1 (a - 1) pivot then
          match partitionEqual_func less tried.1 a b pivot with
          | (data, mid) => pdqsort_func less fuel data mid b limit wasBalanced wasPartitioned
        else
          match partition_func less tried.1 a b pivot with
          | (data, mid, alreadyPartitioned) =>
            if mid - a < b - mid then
              match pdqsort_func less fuel data a mid limit true true with
              | none => none
              | some data =>
                pdqsort_func less fuel data (mid + 1) b limit
                  (decide (mid - a ≥ length / 8)) alreadyPartitioned
            else
              match pdqsort_func less fuel data (mid + 1) b limit true true with
              | none => none
              | some data =>
                pdqsort_func less fuel data a mid limit
                  (decide (b - mid ≥ length / 8)) alreadyPartitioned

/-- The function `sort.Slice`: `pdqsort_func` on the whole slice, with the
limit `bits.Len(length)`. -/
def Slice {α : Type} (less : α → α → Bool) (data : List α) : List α :=
  (pdqsort_func less (data.length + 1) data 0 data.length (bitsLen data.length)
    true true).getD data

/-- The concrete runtime with `sort.Slice` on slices of any length. -/
def pdqRuntime : Runtime :=
  { ParseFloat := parseFloat64,
    unicodeToLower := fun c => c,
    mulFloat := mul64,
    addFloat := add64,
    sortSlice := fun less items => Slice less items }

/-- A language model that replays a script: each call consumes the next
entry; with the script used up every call fails. -/
def scriptedProvider : Provider (List (Except Error CompletionResponse)) :=
  { Complete := fun _ script =>
      match script with
      | [] => (Except.error "no response", [])
      | r :: rest => (r, rest) }

/-- A successful completion carrying `text`. -/
def reply (text : String) : Except Error CompletionResponse :=
  Except.ok { Content := text, FinishReason := "stop", Usage := ⟨0, 0, 0⟩ }

/-- A language model whose every call fails. -/
def failingProvider : Provider Unit :=
  { Complete := fun _ w => (Except.error "unavailable", w) }

/-! ## Concrete inputs -/

/-- A feed entry without a link. -/
def noLinkFirst : SearchResult :=
  { Title := "first", URL := "", Snippet := "", Content := "",
    PublishedAt := ⟨0⟩, Source := "feed" }

/-- Another feed entry without a link. -/
def noLinkSecond : SearchResult :=
  { Title := "second", URL := "", Snippet := "", Content := "",
    PublishedAt := ⟨0⟩, Source := "feed" }

/-- A batch of two candidates that both have an empty URL. -/
def noLinkBatch : List SearchResult := [noLinkFirst, noLinkSecond]

/-- A search candidate with a link. -/
def rustCandidate : SearchResult :=
  { Title := "Async Rust", URL := "https://example.org/async", Snippet := "async in rust",
    Content := "Futures and executors.", PublishedAt := ⟨0⟩, Source := "tavily" }

/-- A feed entry published ten days after `olderCandidate`. -/
def recentCandidate : SearchResult :=
  { Title := "Recent", URL := "https://example.org/recent", Snippet := "new",
    Content := "", PublishedAt := ⟨1700864000000000000⟩, Source := "feed" }

/-- A feed entry with a known publish time. -/
def olderCandidate : SearchResult :=
  { Title := "Older", URL := "https://example.org/older", Snippet := "old",
    Content := "", PublishedAt := ⟨1700000000000000000⟩, Source := "feed" }

/-- A search result without a publish time (the zero time). -/
def plainCandidate : SearchResult :=
  { Title := "Plain", URL := "https://example.org/plain", Snippet := "plain",
    Content := "", PublishedAt := ⟨0⟩, Source := "tavily" }

/-- A world for the examples: the replies the language model still has to
give, the source URLs stored in the database, the next row id, and the ids of
the subscriptions whose last-fetched time was updated. -/
structure World where
  script : List (Except Error CompletionResponse)
  storedURLs : List String
  nextID : Int
  updated : List Int

/-- A language model that replays the script of the world. -/
def worldProvider : Provider World :=
  { Complete := fun _ w =>
      match w.script with
      | [] => (Except.error "no response", w)
      | r :: rest => (r, { w with script := rest }) }

/-- A database kept in the world: it counts the stored URLs, stores the URL
of an inserted item under the next row id, and records the updates. -/
def memoryDatabase : Database World :=
  { countBySourceURL := fun url w => (((w.storedURLs.count url : Nat), none), w),
    insertFeedItem := fun item w =>
      (Except.ok (w.nextID, none),
        { w with storedURLs := w.storedURLs ++ [item.SourceURL], nextID := w.nextID + 1 }),
    updateLastFetched := fun id w => (none, { w with updated := w.updated ++ [id] }) }

/-- A scheduler whose search finds `rustCandidate`; its feeds cannot be
fetched. -/
def exampleScheduler : Scheduler World :=
  { llmProvider := worldProvider,
    searchProvider := some
      { Search := fun _ w => (Except.ok [rustCandidate], w),
        Available := fun _ => true },
    rssProvider := { ParseURLWithContext := fun _ w => (Except.error "unreachable", w) },
    curator := { llmProvider := worldProvider } }

/-- A daily subscription to the topic "rust-lang". -/
def rustSubscription : Subscription :=
  { ID := 7, Topic := "rust-lang", Category := "rust-lang", Frequency := "daily",
    Sources := [], CreatedAt := ⟨0⟩, UpdatedAt := ⟨0⟩, LastFetchedAt := none,
    IsActive := true }

/-- A world in which the URL of `rustCandidate` is already stored. -/
def storedWorld : World :=
  { script := [reply "0.9", reply "X", reply "rust, async"],
    storedURLs := ["https://example.org/async"], nextID := 2, updated := [] }

/-- A world with an empty database. -/
def freshWorld : World :=
  { script := [reply "0.9", reply "X", reply "rust, async"],
    storedURLs := [], nextID := 1, updated := [] }

/-- A search result without a publish time, named by its title. -/
def untimedCandidate (title : String) : SearchResult :=
  { Title := title, URL := "https://example.org/" ++ title, Snippet := "",
    Content := "", PublishedAt := ⟨0⟩, Source := "tavily" }

/-- Thirteen search results without publish time. -/
def thirteenCandidates : List SearchResult :=
  ["c0", "c1", "c2", "c3", "c4", "c5", "c6", "c7", "c8", "c9", "c10", "c11", "c12"].map
    untimedCandidate

/-- The replies for `thirteenCandidates`: the first twelve are scored `0.5`,
the last one is scored `1.0` and gets a summary and tags. -/
def thirteenScript : List (Except Error CompletionResponse) :=
  List.replicate 12 (reply "0.5") ++ [reply "1.0", reply "S", reply "t"]

/-- Six search results without publish time. -/
def sixCandidates : List SearchResult :=
  ["c0", "c1", "c2", "c3", "c4", "c5"].map untimedCandidate

/-- The replies for `sixCandidates`: the scores "NaN", "inf" (then a summary
and tags), "-3", "7" (then a summary and tags) and "abc"; the call for the
last candidate fails. -/
def sixScript : List (Except Error CompletionResponse) :=
  [reply "NaN", reply "inf", reply "S", reply "t", reply "-3", reply "7", reply "S",
    reply "t", reply "abc"]

/-- A feed of three entries: one published at instant 50, one without
publish time, one published at instant 100. -/
def exampleFeed : Feed :=
  { Title := "Example",
    Items :=
      [{ Title := "old", Link := "https://example.org/1", Description := "", Content := "",
         PublishedParsed := some ⟨50⟩ },
       { Title := "undated", Link := "https://example.org/2", Description := "", Content := "",
         PublishedParsed := none },
       { Title := "current", Link := "https://example.org/3", Description := "", Content := "",
         PublishedParsed := some ⟨100⟩ }] }

/-- A feed parser that yields `exampleFeed` for every URL. -/
def exampleFeedProvider : RSSProvider Unit :=
  { ParseURLWithContext := fun _ w => (Except.ok exampleFeed, w) }

/-- A scheduler under a cancelled context: every search, every feed fetch
and every language-model call fails. -/
def cancelledScheduler : Scheduler World :=
  { llmProvider := { Complete := fun _ w => (Except.error "context canceled", w) },
    searchProvider := some
      { Search := fun _ w => (Except.error "context canceled", w),
        Available := fun _ => true },
    rssProvider := { ParseURLWithContext := fun _ w => (Except.error "context canceled", w) },
    curator := { llmProvider := { Complete := fun _ w => (Except.error "context canceled", w) } } }

/-- A daily subscription to the topic "silicon-chips", a category that has
default feeds. -/
def chipsSubscription : Subscription :=
  { ID := 3, Topic := "silicon-chips", Category := "silicon-chips", Frequency := "daily",
    Sources := [], CreatedAt := ⟨0⟩, UpdatedAt := ⟨0⟩, LastFetchedAt := some ⟨0⟩,
    IsActive := true }

/-- A world with an empty database in which the language model no longer
answers. -/
def silentWorld : World :=
  { script := [], storedURLs := [], nextID := 1, updated := [] }

/-- A source for a prompt, named by its title. -/
def promptSource (title : String) : SearchResult :=
  { Title := title, URL := "u", Snippet := "", Content := "", PublishedAt := ⟨0⟩,
    Source := "tavily" }

/-- Ten sources for a prompt. -/
def tenSources : List SearchResult :=
  ["a", "b", "c", "d", "e", "f", "g", "h", "i", "j"].map promptSource

/-- A database like `memoryDatabase` in which the update of the last-fetched
time fails for the subscription with id 3. -/
def flakyDatabase : Database World :=
  { countBySourceURL := memoryDatabase.countBySourceURL,
    insertFeedItem := memoryDatabase.insertFeedItem,
    updateLastFetched := fun id w =>
      if id = 3 then (some "database is locked", w)
      else (none, { w with updated := w.updated ++ [id] }) }

/-- Three rows of active subscriptions: one never fetched (id 3), one fetched
at instant 1000 (id 7), one never fetched (id 9) whose sources are stored as a
JSON text. -/
def exampleRows : SubscriptionRows :=
  { scans :=
      [Except.ok
         { ID := 3, Topic := "silicon-chips", category := some "silicon-chips",
           Frequency := "daily", sources := none, CreatedAt := ⟨0⟩, UpdatedAt := ⟨0⟩,
           lastFetched := none, IsActive := true },
       Except.ok
         { ID := 7, Topic := "rust-lang", category := none,
           Frequency := "daily", sources := some "", CreatedAt := ⟨0⟩, UpdatedAt := ⟨0⟩,
           lastFetched := some ⟨1000⟩, IsActive := true },
       Except.ok
         { ID := 9, Topic := "webgpu", category := some "webgpu",
           Frequency := "hourly", sources := some "[\"https://example.org/feed\"]",
           CreatedAt := ⟨0⟩, UpdatedAt := ⟨0⟩, lastFetched := none, IsActive := true }],
    err := none }

/-- A query that yields `exampleRows`. -/
def exampleQuery : World → Except Error SubscriptionRows × World :=
  fun w => (Except.ok exampleRows, w)

/-- A clock that stands at instant 2000. -/
def stoppedClock : World → Time := fun _ => ⟨2000⟩

/-- A database like `memoryDatabase` whose existence query reads the count
and then fails, as `Row.Scan` does when closing the rows fails after the
scan. -/
def failingCountDatabase : Database World :=
  { countBySourceURL := fun url w =>
      (((w.storedURLs.count url : Nat), some "driver: bad connection"), w),
    insertFeedItem := memoryDatabase.insertFeedItem,
    updateLastFetched := memoryDatabase.updateLastFetched }

/-! ## Auxiliary definitions -/

/-- Deduplication with URLs already seen, written as a structural recursion
that does not carry the output accumulator. -/
def dedupFrom (seen : String → Bool) : List SearchResult → List SearchResult
  | [] => []
  | r :: rest =>
    if !seen r.URL then r :: dedupFrom (Function.update seen r.URL true) rest
    else dedupFrom seen rest

/-- The items `CurateResults` has built when its loop ends, one per candidate,
before filtering and sorting. -/
def scoredItems {σ : Type} (rt : Runtime) (provider : Provider σ) (topic : String)
    (results : List SearchResult) (w : σ) : List FeedItem :=
  (curateLoop rt provider topic [] results w).1

/-- The loop of `CurateResults` written without the accumulator. -/
def curateAll {σ : Type} (rt : Runtime) (provider : Provider σ) (topic : String) :
    List SearchResult → σ → List FeedItem × σ
  | [], w => ([], w)
  | result :: rest, w =>
    ((curateOne rt provider topic result w).1 ::
        (curateAll rt provider topic rest (curateOne rt provider topic result w).2).1,
      (curateAll rt provider topic rest (curateOne rt provider topic result w).2).2)

/-- The turns of the loop of `RefreshAllSubscriptions`: each subscription of
the list with the world in which its turn begins. -/
def refreshTurns {σ : Type} (rt : Runtime) (db : Database σ) (now : σ → Time)
    (s : Scheduler σ) : List Subscription → σ → List (Subscription × σ)
  | [], _ => []
  | sub :: rest, w =>
    (sub, w) :: refreshTurns rt db now s rest
      (if shouldRefresh (now w) sub then (RefreshSubscription rt db s sub w).2 else w)

/-- The score `CurateResults` assigns from what `ScoreRelevance` returned. -/
def assignedScore (scored : F64 × Option Error) : F64 :=
  if scored.2 ≠ none then F64.half else scored.1

/-- The tag the loop of `ExtractTags` makes of one comma-separated fragment;
an empty result is dropped by the loop. -/
def cleanTag (rt : Runtime) (fragment : String) : String :=
  TrimPrefixHash (TrimSpace (ToLower rt fragment))

/-- Whether the first rune of `s` is white space. -/
def startsWithSpace (s : String) : Bool :=
  match s.data.head? with
  | some c => IsSpace c
  | none => false

/-- Whether the last rune of `s` is white space. -/
def endsWithSpace (s : String) : Bool :=
  match s.data.getLast? with
  | some c => IsSpace c
  | none => false

/-! ## Lemmas on deduplication -/

theorem deduplicateLoop_eq (seen : String → Bool) (unique xs : List SearchResult) :
    deduplicateLoop seen unique xs = unique ++ dedupFrom seen xs := by
  induction xs generalizing seen unique with
  | nil => simp [deduplicateLoop, dedupFrom]
  | cons r rest ih =>
    unfold deduplicateLoop dedupFrom
    split
    · rw [ih]; simp
    · exact ih _ _

theorem deduplicateByURL_eq (xs : List SearchResult) :
    deduplicateByURL xs = dedupFrom (fun _ => false) xs := by
  simp [deduplicateByURL, deduplicateLoop_eq]

theorem dedupFrom_sublist (seen : String → Bool) (xs : List SearchResult) :
    (dedupFrom seen xs).Sublist xs := by
  induction xs generalizing seen with
  | nil => simp [dedupFrom]
  | cons r rest ih =>
    unfold dedupFrom
    split
    · exact (ih _).cons₂ r
    · exact (ih _).cons r

theorem dedupFrom_not_seen (seen : String → Bool) (xs : List SearchResult) :
    ∀ r ∈ dedupFrom seen xs, seen r.URL = false := by
  induction xs generalizing seen with
  | nil => simp [dedupFrom]
  | cons r rest ih =>
    intro a ha
    unfold dedupFrom at ha
    split at ha
    · rename_i h
      rcases List.mem_cons.1 ha with rfl | ha
      · simpa using h
      · have := ih _ a ha
        by_cases hu : a.URL = r.URL
        · rw [hu] at this; simp at this
        · simpa [Function.update, hu] using this
    · exact ih _ a ha

/-- Elements of the deduplicated list with URL `u`: nothing when `u` was seen
before, else the first element of the input with that URL. -/
theorem withURL_dedupFrom (seen : String → Bool) (u : String) (xs : List SearchResult) :
    withURL u (dedupFrom seen xs) = if seen u then [] else firstWithURL u xs := by
  induction xs generalizing seen with
  | nil => simp [dedupFrom, withURL, firstWithURL]
  | cons r rest ih =>
    unfold dedupFrom
    by_cases hs : seen r.URL = true
    · simp only [hs, Bool.not_true, Bool.false_eq_true, ↓reduceIte]
      rw [ih]
      by_cases hu : r.URL = u
      · subst hu; simp [hs]
      · simp [firstWithURL, List.find?, hu]
    · simp only [Bool.not_eq_true] at hs
      simp only [hs, Bool.not_false, ↓reduceIte]
      have ih2 := ih (Function.update seen r.URL true)
      unfold withURL at ih2 ⊢
      rw [List.filter_cons]
      by_cases hu : r.URL = u
      · subst hu
        simp [hs, ih2, firstWithURL, List.find?]
      · have hu2 : ¬ u = r.URL := fun h => hu h.symm
        simp [hu, ih2, firstWithURL, List.find?, Function.update, hu2]

theorem dedupFrom_pairwise (seen : String → Bool) (xs : List SearchResult) :
    (dedupFrom seen xs).Pairwise (fun a b => a.URL ≠ b.URL) := by
  induction xs generalizing seen with
  | nil => simp [dedupFrom]
  | cons r rest ih =>
    unfold dedupFrom
    split
    · refine List.pairwise_cons.2 ⟨?_, ih _⟩
      intro a ha hEq
      have := dedupFrom_not_seen _ _ a ha
      rw [← hEq] at this
      simp at this
    · exact ih _

/-- Deduplicating a list whose URLs are pairwise distinct and unseen changes
nothing. -/
theorem dedupFrom_of_pairwise (seen : String → Bool) (xs : List SearchResult)
    (hseen : ∀ r ∈ xs, seen r.URL = false)
    (hp : xs.Pairwise (fun a b => a.URL ≠ b.URL)) :
    dedupFrom seen xs = xs := by
  induction xs generalizing seen with
  | nil => simp [dedupFrom]
  | cons r rest ih =>
    have hr : seen r.URL = false := hseen r (List.mem_cons_self _ _)
    rw [List.pairwise_cons] at hp
    unfold dedupFrom
    simp only [hr, Bool.not_false, ↓reduceIte]
    congr 1
    apply ih _ _ hp.2
    intro a ha
    have hne : a.URL ≠ r.URL := fun h => hp.1 a ha h.symm
    simpa [Function.update, hne] using hseen a (List.mem_cons_of_mem _ ha)

/-! ## Lemmas on `float64` comparisons -/

theorem F64.gt_half_half : F64.gt F64.half F64.half = false := by
  simp [F64.gt, F64.lt, F64.half]

theorem F64.ge_half_half : F64.ge F64.half F64.half = true := by
  simp [F64.ge, F64.le, F64.half]

theorem F64.lt_eq_false_of_ge (a b : F64) (h : F64.ge a b = true) : F64.lt a b = false := by
  cases a <;> cases b <;> simp_all [F64.ge, F64.le, F64.lt]

theorem F64.ge_of_gt (a b : F64) (h : F64.gt a b = true) : F64.ge a b = true := by
  cases a <;> cases b <;> simp_all [F64.ge, F64.le, F64.gt, F64.lt]
  exact le_of_lt h

/-! ## Lemmas on the curator -/

theorem filterByRelevanceLoop_eq (threshold : F64) (filtered items : List FeedItem) :
    filterByRelevanceLoop threshold filtered items =
      filtered ++ items.filter (fun item => F64.ge item.RelevanceScore threshold) := by
  induction items generalizing filtered with
  | nil => simp [filterByRelevanceLoop]
  | cons item rest ih =>
    unfold filterByRelevanceLoop
    by_cases h : F64.ge item.RelevanceScore threshold = true
    · simp [h, ih]
    · simp [h, ih]

theorem filterByRelevance_eq (items : List FeedItem) (threshold : F64) :
    filterByRelevance items threshold =
      items.filter (fun item => F64.ge item.RelevanceScore threshold) := by
  simp [filterByRelevance, filterByRelevanceLoop_eq]

theorem curateLoop_eq {σ : Type} (rt : Runtime) (provider : Provider σ) (topic : String)
    (items : List FeedItem) (results : List SearchResult) (w : σ) :
    curateLoop rt provider topic items results w =
      (items ++ (curateAll rt provider topic results w).1,
        (curateAll rt provider topic results w).2) := by
  induction results generalizing items w with
  | nil => simp [curateLoop, curateAll]
  | cons r rest ih =>
    unfold curateLoop curateAll
    simp only [ih, List.append_assoc, List.singleton_append]

theorem scoredItems_eq {σ : Type} (rt : Runtime) (provider : Provider σ) (topic : String)
    (results : List SearchResult) (w : σ) :
    scoredItems rt provider topic results w = (curateAll rt provider topic results w).1 := by
  simp [scoredItems, curateLoop_eq]

theorem CurateResults_eq {σ : Type} (rt : Runtime) (provider : Provider σ) (topic : String)
    (results : List SearchResult) (w : σ) :
    CurateResults rt provider topic results w =
      ((rt.sortSlice (lessByRelevanceAndRecency rt)
          ((scoredItems rt provider topic results w).filter
            (fun item => F64.ge item.RelevanceScore F64.half)), none),
        (curateAll rt provider topic results w).2) := by
  simp [CurateResults, scoredItems, curateLoop_eq, filterByRelevance_eq,
    sortByRelevanceAndRecency]

theorem curateAll_forall₂ {σ : Type} (rt : Runtime) (provider : Provider σ) (topic : String)
    (results : List SearchResult) (w : σ) :
    List.Forall₂ (fun r item => ∃ w0, item = (curateOne rt provider topic r w0).1)
      results (curateAll rt provider topic results w).1 := by
  induction results generalizing w with
  | nil => simp [curateAll]
  | cons r rest ih =>
    unfold curateAll
    exact List.Forall₂.cons ⟨w, rfl⟩ (ih _)

theorem mem_curateAll {σ : Type} (rt : Runtime) (provider : Provider σ) (topic : String)
    (results : List SearchResult) (w : σ) (item : FeedItem)
    (h : item ∈ (curateAll rt provider topic results w).1) :
    ∃ r ∈ results, ∃ w0, item = (curateOne rt provider topic r w0).1 := by
  induction results generalizing w with
  | nil => simp [curateAll] at h
  | cons r rest ih =>
    unfold curateAll at h
    rcases List.mem_cons.1 h with h | h
    · exact ⟨r, List.mem_cons_self _ _, w, h⟩
    · obtain ⟨r', hr', w0, h0⟩ := ih _ h
      exact ⟨r', List.mem_cons_of_mem _ hr', w0, h0⟩

theorem curateAll_append {σ : Type} (rt : Runtime) (provider : Provider σ) (topic : String)
    (xs ys : List SearchResult) (w : σ) :
    curateAll rt provider topic (xs ++ ys) w =
      ((curateAll rt provider topic xs w).1 ++
          (curateAll rt provider topic ys (curateAll rt provider topic xs w).2).1,
        (curateAll rt provider topic ys (curateAll rt provider topic xs w).2).2) := by
  induction xs generalizing w with
  | nil => simp [curateAll]
  | cons r rest ih =>
    simp only [List.cons_append, curateAll, List.append_eq, ih]

/-- The score of the item built for a candidate is the assigned score. -/
theorem curateOne_score {σ : Type} (rt : Runtime) (provider : Provider σ) (topic : String)
    (r : SearchResult) (w : σ) :
    (curateOne rt provider topic r w).1.RelevanceScore =
      assignedScore (ScoreRelevance rt provider topic r.Title r.Snippet w).1 := by
  unfold curateOne assignedScore
  rcases hs : ScoreRelevance rt provider topic r.Title r.Snippet w with ⟨⟨s0, err⟩, w1⟩
  simp only
  split_ifs <;> rfl

/-- At or below the threshold the item is the scored skeleton and no further
call is made. -/
theorem curateOne_of_not_gt {σ : Type} (rt : Runtime) (provider : Provider σ)
    (topic : String) (r : SearchResult) (w : σ)
    (h : F64.gt (assignedScore (ScoreRelevance rt provider topic r.Title r.Snippet w).1)
      F64.half = false) :
    curateOne rt provider topic r w =
      ({ itemSkeleton r with
          RelevanceScore :=
            assignedScore (ScoreRelevance rt provider topic r.Title r.Snippet w).1 },
        (ScoreRelevance rt provider topic r.Title r.Snippet w).2) := by
  unfold curateOne
  unfold assignedScore at h ⊢
  rcases hs : ScoreRelevance rt provider topic r.Title r.Snippet w with ⟨⟨s0, err⟩, w1⟩
  rw [hs] at h
  simp only at h ⊢
  rw [if_neg (by rw [h]; simp)]

/-- Above the threshold, with both calls succeeding, the item carries the
score, the trimmed summary and the parsed tags. -/
theorem curateOne_of_gt {σ : Type} (rt : Runtime) (provider : Provider σ)
    (topic : String) (r : SearchResult) (w w1 w2 w3 : σ) (s : F64)
    (summary tags : CompletionResponse)
    (hscore : ScoreRelevance rt provider topic r.Title r.Snippet w = ((s, none), w1))
    (hgt : F64.gt s F64.half = true)
    (hsum : provider.Complete (summarizeRequest topic r.Title r.Content) w1 =
      (Except.ok summary, w2))
    (htags : provider.Complete (tagsRequest r.Title r.Content) w2 = (Except.ok tags, w3)) :
    curateOne rt provider topic r w =
      ({ itemSkeleton r with
          RelevanceScore := s,
          Summary := TrimSpace summary.Content,
          Tags := parseTags rt tags.Content }, w3) := by
  unfold curateOne
  simp [hscore, hgt, Summarize, hsum, ExtractTags, htags]

/-- When the language-model call fails the assigned score is `0.5`. -/
theorem assignedScore_of_call_failure {σ : Type} (rt : Runtime) (provider : Provider σ)
    (topic title snippet : String) (w : σ) (err : Error)
    (h : (provider.Complete (scoreRequest topic title snippet) w).1 = Except.error err) :
    assignedScore (ScoreRelevance rt provider topic title snippet w).1 = F64.half := by
  unfold ScoreRelevance assignedScore
  rcases hc : provider.Complete (scoreRequest topic title snippet) w with ⟨res, w1⟩
  rw [hc] at h
  simp only at h
  subst h
  simp

/-- The item built for a candidate, in full: the skeleton with the assigned
score and, above the threshold, the summary and the tags of the calls that
succeeded. -/
theorem curateOne_eq {σ : Type} (rt : Runtime) (provider : Provider σ) (topic : String)
    (r : SearchResult) (w : σ) :
    curateOne rt provider topic r w =
      if F64.gt (assignedScore (ScoreRelevance rt provider topic r.Title r.Snippet w).1)
          F64.half then
        ({ itemSkeleton r with
            RelevanceScore :=
              assignedScore (ScoreRelevance rt provider topic r.Title r.Snippet w).1,
            Summary :=
              if (Summarize provider topic r.Title r.Content
                  (ScoreRelevance rt provider topic r.Title r.Snippet w).2).1.2 = none then
                (Summarize provider topic r.Title r.Content
                  (ScoreRelevance rt provider topic r.Title r.Snippet w).2).1.1
              else "",
            Tags :=
              if (ExtractTags rt provider r.Title r.Content
                  (Summarize provider topic r.Title r.Content
                    (ScoreRelevance rt provider topic r.Title r.Snippet w).2).2).1.2 = none then
                (ExtractTags rt provider r.Title r.Content
                  (Summarize provider topic r.Title r.Content
                    (ScoreRelevance rt provider topic r.Title r.Snippet w).2).2).1.1
              else [] },
          (ExtractTags rt provider r.Title r.Content
            (Summarize provider topic r.Title r.Content
              (ScoreRelevance rt provider topic r.Title r.Snippet w).2).2).2)
      else
        ({ itemSkeleton r with
            RelevanceScore :=
              assignedScore (ScoreRelevance rt provider topic r.Title r.Snippet w).1 },
          (ScoreRelevance rt provider topic r.Title r.Snippet w).2) := by
  unfold curateOne assignedScore
  rcases ScoreRelevance rt provider topic r.Title r.Snippet w with ⟨⟨s0, err⟩, w1⟩
  simp only
  by_cases hgt : F64.gt (if err ≠ none then F64.half else s0) F64.half = true
  · rw [if_pos hgt, if_pos hgt]
    rcases Summarize provider topic r.Title r.Content w1 with ⟨⟨summary, serr⟩, w2⟩
    simp only
    rcases ExtractTags rt provider r.Title r.Content w2 with ⟨⟨tags, terr⟩, w3⟩
    simp only
    by_cases h1 : serr = none <;> by_cases h2 : terr = none <;> simp [h1, h2, itemSkeleton]
  · rw [if_neg hgt, if_neg hgt]

/-- The fields the item takes over from its own candidate. -/
theorem curateOne_fields {σ : Type} (rt : Runtime) (provider : Provider σ) (topic : String)
    (r : SearchResult) (w : σ) :
    (curateOne rt provider topic r w).1.Title = r.Title ∧
    (curateOne rt provider topic r w).1.SourceName = r.Source ∧
    (curateOne rt provider topic r w).1.SourceURL = r.URL ∧
    (curateOne rt provider topic r w).1.PublishedAt = some r.PublishedAt ∧
    (curateOne rt provider topic r w).1.Content =
      truncateContent r.Content.toUTF8.data.toList 2000 := by
  rw [curateOne_eq]
  split <;> exact ⟨rfl, rfl, rfl, rfl, rfl⟩

/-- Filtering the right-hand list of a pointwise relation keeps it related to
a sublist of the left-hand list. -/
theorem forall₂_filter_right {α β : Type} (R : α → β → Prop) (p : β → Bool)
    (xs : List α) (ys : List β) (h : List.Forall₂ R xs ys) :
    ∃ kept : List α, kept.Sublist xs ∧ List.Forall₂ R kept (ys.filter p) := by
  induction h with
  | nil => exact ⟨[], List.Sublist.slnil, by simp⟩
  | @cons x y xs ys hxy _ ih =>
    obtain ⟨kept, hsub, hrel⟩ := ih
    by_cases hp : p y = true
    · refine ⟨x :: kept, hsub.cons₂ x, ?_⟩
      rw [List.filter_cons_of_pos hp]
      exact List.Forall₂.cons hxy hrel
    · refine ⟨kept, hsub.cons x, ?_⟩
      rw [List.filter_cons_of_neg hp]
      exact hrel

/-- Every element of the right-hand list of a pointwise relation is related to
an element of the left-hand list. -/
theorem forall₂_mem_right {α β : Type} (R : α → β → Prop) (xs : List α) (ys : List β)
    (h : List.Forall₂ R xs ys) : ∀ y ∈ ys, ∃ x ∈ xs, R x y := by
  induction h with
  | nil => intro y hy; simp at hy
  | @cons x y xs ys hxy _ ih =>
    intro z hz
    rcases List.mem_cons.1 hz with rfl | hz
    · exact ⟨x, List.mem_cons_self _ _, hxy⟩
    · obtain ⟨x', hx', hr⟩ := ih z hz
      exact ⟨x', List.mem_cons_of_mem _ hx', hr⟩

/-- Every item built by the loop carries the fields of the candidate at the
same position. -/
theorem curateAll_fields {σ : Type} (rt : Runtime) (provider : Provider σ) (topic : String)
    (results : List SearchResult) (w : σ) :
    List.Forall₂
      (fun r item => item.Title = r.Title ∧ item.SourceName = r.Source ∧
        item.SourceURL = r.URL ∧ item.PublishedAt = some r.PublishedAt)
      results (curateAll rt provider topic results w).1 := by
  induction results generalizing w with
  | nil => simp [curateAll]
  | cons r rest ih =>
    unfold curateAll
    have hf := curateOne_fields rt provider topic r w
    exact List.Forall₂.cons ⟨hf.1, hf.2.1, hf.2.2.1, hf.2.2.2.1⟩ (ih _)

/-! ## Lemmas on strings and tags -/

theorem trimRightSpace_eq (cs : List Char) : trimRightSpace cs = cs.rdropWhile IsSpace := rfl

theorem trimLeftSpace_head (cs : List Char) (c : Char) (rest : List Char)
    (h : trimLeftSpace cs = c :: rest) : IsSpace c = false := by
  have := List.head?_dropWhile_not IsSpace cs
  unfold trimLeftSpace at h
  rw [h] at this
  simpa using this

theorem trimRightSpace_getLast (cs : List Char) (c : Char)
    (h : (trimRightSpace cs).getLast? = some c) : IsSpace c = false := by
  rw [trimRightSpace_eq] at h
  have hne : cs.rdropWhile IsSpace ≠ [] := by
    intro h0; rw [h0] at h; simp at h
  have := List.rdropWhile_last_not (p := IsSpace) (l := cs) hne
  rw [List.getLast?_eq_getLast _ hne] at h
  simp only [Option.some.injEq] at h
  rw [h] at this
  simpa using this

theorem trimRightSpace_cons (c : Char) (rest : List Char) (hc : IsSpace c = false) :
    ∃ rest', trimRightSpace (c :: rest) = c :: rest' := by
  rw [trimRightSpace_eq]
  induction rest using List.reverseRecOn with
  | nil =>
    refine ⟨[], ?_⟩
    have := List.rdropWhile_concat_neg (p := IsSpace) (l := []) c (by simp [hc])
    simpa using this
  | append_singleton l x ih =>
    by_cases hx : IsSpace x = true
    · obtain ⟨r, hr⟩ := ih
      refine ⟨r, ?_⟩
      rw [← List.cons_append, List.rdropWhile_concat_pos _ _ _ hx]
      exact hr
    · refine ⟨l ++ [x], ?_⟩
      rw [← List.cons_append, List.rdropWhile_concat_neg _ _ _ hx]

/-- The text left by `TrimSpace` does not begin with white space. -/
theorem TrimSpace_head (s : String) (c : Char) (rest : List Char)
    (h : (TrimSpace s).data = c :: rest) : IsSpace c = false := by
  unfold TrimSpace at h
  simp only at h
  cases hl : trimLeftSpace s.data with
  | nil => rw [hl] at h; simp [trimRightSpace] at h
  | cons c0 rest0 =>
    have hc0 := trimLeftSpace_head _ _ _ hl
    obtain ⟨rest', hr⟩ := trimRightSpace_cons c0 rest0 hc0
    rw [hl, hr] at h
    cases h
    exact hc0

/-- The text left by `TrimSpace` does not end with white space. -/
theorem TrimSpace_getLast (s : String) (c : Char)
    (h : (TrimSpace s).data.getLast? = some c) : IsSpace c = false :=
  trimRightSpace_getLast _ c h

/-- Every rune of the trimmed text is a rune of the text. -/
theorem TrimSpace_subset (s : String) : ∀ c ∈ (TrimSpace s).data, c ∈ s.data := by
  intro c hc
  have h1 : c ∈ trimLeftSpace s.data := by
    have hp : (trimLeftSpace s.data).rdropWhile IsSpace <+: trimLeftSpace s.data :=
      List.rdropWhile_prefix _ _
    exact hp.subset hc
  exact (List.dropWhile_sublist _).subset h1

theorem splitComma_ne_nil (cs : List Char) : splitComma cs ≠ [] := by
  cases cs with
  | nil => simp [splitComma]
  | cons c rest =>
    unfold splitComma
    split
    · simp
    · split <;> simp

theorem splitComma_no_comma (cs : List Char) : ∀ piece ∈ splitComma cs, ',' ∉ piece := by
  induction cs with
  | nil => simp [splitComma]
  | cons c rest ih =>
    intro piece hp
    unfold splitComma at hp
    split at hp
    · rcases List.mem_cons.1 hp with rfl | hp
      · simp
      · exact ih piece hp
    · rename_i hc
      split at hp
      · rename_i h0
        exact absurd h0 (splitComma_ne_nil rest)
      · rename_i p ps hsplit
        rcases List.mem_cons.1 hp with rfl | hp
        · intro hmem
          rcases List.mem_cons.1 hmem with h | h
          · exact hc h.symm
          · exact ih p (by rw [hsplit]; exact List.mem_cons_self _ _) h
        · exact ih piece (by rw [hsplit]; exact List.mem_cons_of_mem _ hp)

theorem toNat_ofNat_of_valid (n : Nat) (h : n.isValidChar) : (Char.ofNat n).toNat = n := by
  unfold Char.ofNat
  rw [dif_pos h]
  simp [Char.ofNatAux, Char.toNat, UInt32.toNat]

theorem toLower_ne_comma (c : Char) (h : c ≠ ',') : c.toLower ≠ ',' := by
  unfold Char.toLower
  simp only
  split
  · rename_i hu
    intro hc
    have : (Char.ofNat (c.toNat + 32)).toNat = 44 := by rw [hc]; rfl
    have hv : (c.toNat + 32).isValidChar := by
      left; omega
    rw [toNat_ofNat_of_valid _ hv] at this
    omega
  · exact h

/-- Lower-casing brings no comma into a text, the Unicode tables mapping no
rune above ASCII to a comma. -/
theorem ToLower_no_comma (rt : Runtime)
    (hlower : ∀ c : Char, 128 ≤ c.toNat → rt.unicodeToLower c ≠ ',')
    (s : String) (h : ',' ∉ s.data) : ',' ∉ (ToLower rt s).data := by
  unfold ToLower
  simp only [List.mem_map, not_exists, not_and]
  intro c hc
  split
  · exact toLower_ne_comma c (fun h0 => h (h0 ▸ hc))
  · rename_i hlt
    exact hlower c (by omega)

theorem cleanTagsLoop_eq (rt : Runtime) (cleanTags fragments : List String) :
    cleanTagsLoop rt cleanTags fragments =
      cleanTags ++ (fragments.map (cleanTag rt)).filter (fun tag => decide (tag ≠ "")) := by
  induction fragments generalizing cleanTags with
  | nil => simp [cleanTagsLoop]
  | cons f rest ih =>
    unfold cleanTagsLoop
    simp only [List.map_cons]
    by_cases h : TrimPrefixHash (TrimSpace (ToLower rt f)) ≠ ""
    · rw [if_pos h, ih, List.filter_cons_of_pos (by simpa [cleanTag] using h)]
      simp [cleanTag]
    · rw [if_neg h, ih, List.filter_cons_of_neg (by simpa [cleanTag] using h)]

theorem parseTags_eq (rt : Runtime) (content : String) :
    parseTags rt content =
      ((SplitComma (TrimSpace content)).map (cleanTag rt)).filter
        (fun tag => decide (tag ≠ "")) := by
  simp [parseTags, cleanTagsLoop_eq]

/-! ## Lemmas on sorting -/

theorem F64.lt_asymm (a b : F64) (h : F64.lt a b = true) : F64.lt b a = false := by
  cases a <;> cases b <;> simp_all [F64.lt]
  exact le_of_lt h

theorem insertionSortLessFunc_pair {α : Type} (less : α → α → Bool) (x y : α) :
    insertionSortLessFunc less [x, y] = if less y x then [y, x] else [x, y] := by
  unfold insertionSortLessFunc
  simp only [List.foldl_cons, List.foldl_nil, insertionStep]
  split <;> rfl

theorem Time.After_of_ne (t u : Time) (h : t ≠ u) : u.After t = !t.After u := by
  have hn : t.nsec ≠ u.nsec := by
    intro hc
    apply h
    cases t; cases u
    simp only at hc
    rw [hc]
  unfold Time.After
  by_cases h1 : u.nsec < t.nsec
  · have h2 : ¬ t.nsec < u.nsec := by omega
    simp [h1, h2]
  · have h2 : t.nsec < u.nsec := by omega
    simp [h1, h2]

/-- The comparison of two items of equal score with publish times: the first
is less exactly when it was published after the second. -/
theorem lessByRelevanceAndRecency_equal_score (rt : Runtime) (s : F64)
    (hbonus : rt.BonusRaises s) (x y : FeedItem) (tx ty : Time)
    (hx : x.RelevanceScore = s) (hy : y.RelevanceScore = s)
    (htx : x.PublishedAt = some tx) (hty : y.PublishedAt = some ty) :
    lessByRelevanceAndRecency rt x y = tx.After ty := by
  unfold lessByRelevanceAndRecency
  rw [hx, hy, htx, hty]
  simp only
  unfold Runtime.BonusRaises at hbonus
  by_cases h : tx.After ty = true
  · rw [if_pos h, h]; exact hbonus
  · rw [if_neg h]
    have hf : tx.After ty = false := by simpa using h
    rw [hf]
    unfold F64.gt at hbonus ⊢
    exact F64.lt_asymm _ _ hbonus

theorem goRuntime_sortsShortByInsertion : goRuntime.SortsShortByInsertion :=
  fun _ _ _ => rfl

/-! ## Lemmas on the scheduler -/

theorem createCalls_append (xs ys : List DBCall) :
    createCalls (xs ++ ys) = createCalls xs ++ createCalls ys := by
  simp [createCalls, List.filterMap_append]

theorem updateCalls_append (xs ys : List DBCall) :
    updateCalls (xs ++ ys) = updateCalls xs ++ updateCalls ys := by
  simp [updateCalls, List.filterMap_append]

/-- The calls of one iteration of the saving loop: the existence check, then
the insert when the check did not report the URL. -/
theorem persistOne_calls {σ : Type} (db : Database σ) (subID : Int) (item : FeedItem)
    (w : σ) :
    (persistOne db subID item w).1.2 =
      DBCall.itemExistsByURL item.SourceURL ::
        (if (ItemExistsByURL db item.SourceURL w).1.1 then []
         else [DBCall.createFeedItem { item with SubscriptionID := subID }]) := by
  unfold persistOne
  simp only
  rcases ItemExistsByURL db item.SourceURL w with ⟨⟨found, err⟩, w1⟩
  cases found <;> simp

theorem persistItems_append {σ : Type} (db : Database σ) (subID : Int)
    (xs ys : List FeedItem) (w : σ) :
    persistItems db subID (xs ++ ys) w =
      (((persistItems db subID xs w).1.1 ++
          (persistItems db subID ys (persistItems db subID xs w).2).1.1,
        (persistItems db subID xs w).1.2 ++
          (persistItems db subID ys (persistItems db subID xs w).2).1.2),
        (persistItems db subID ys (persistItems db subID xs w).2).2) := by
  induction xs generalizing w with
  | nil => simp [persistItems]
  | cons x rest ih =>
    simp only [List.cons_append, persistItems, List.append_eq, ih, List.append_assoc]

theorem persistItems_cons {σ : Type} (db : Database σ) (subID : Int) (item : FeedItem)
    (rest : List FeedItem) (w : σ) :
    persistItems db subID (item :: rest) w =
      (((persistOne db subID item w).1.1 ::
          (persistItems db subID rest (persistOne db subID item w).2).1.1,
        (persistOne db subID item w).1.2 ++
          (persistItems db subID rest (persistOne db subID item w).2).1.2),
        (persistItems db subID rest (persistOne db subID item w).2).2) := by
  simp only [persistItems]

theorem persistItems_updateCalls {σ : Type} (db : Database σ) (subID : Int)
    (items : List FeedItem) (w : σ) :
    updateCalls (persistItems db subID items w).1.2 = [] := by
  induction items generalizing w with
  | nil => simp [persistItems, updateCalls]
  | cons item rest ih =>
    rw [persistItems_cons]
    simp only
    rw [updateCalls_append, ih, persistOne_calls]
    split <;> simp [updateCalls]

theorem persistItems_createCalls_of_existing {σ : Type} (db : Database σ) (subID : Int)
    (items : List FeedItem) (w : σ) (h : allReportedExisting db subID items w = true) :
    createCalls (persistItems db subID items w).1.2 = [] := by
  induction items generalizing w with
  | nil => simp [persistItems, createCalls]
  | cons item rest ih =>
    unfold allReportedExisting at h
    rw [Bool.and_eq_true] at h
    rw [persistItems_cons]
    simp only
    rw [createCalls_append, ih _ h.2, persistOne_calls, h.1]
    simp [createCalls]

theorem CreateFeedItem_item {σ : Type} (db : Database σ) (item : FeedItem) (w : σ) :
    ∃ id : Int, (CreateFeedItem db item w).1.1 = { item with ID := id } := by
  unfold CreateFeedItem
  rcases db.insertFeedItem item w with ⟨res, w1⟩
  cases res with
  | error err => exact ⟨item.ID, rfl⟩
  | ok r =>
    rcases r with ⟨id, err⟩
    cases err with
    | none => exact ⟨id, rfl⟩
    | some e => exact ⟨item.ID, rfl⟩

theorem CreateFeedItem_item_of_error {σ : Type} (db : Database σ) (item : FeedItem) (w : σ)
    (h : (CreateFeedItem db item w).1.2 ≠ none) : (CreateFeedItem db item w).1.1 = item := by
  unfold CreateFeedItem at h ⊢
  rcases hin : db.insertFeedItem item w with ⟨res, w1⟩
  rw [hin] at h
  cases res with
  | error err => rfl
  | ok r =>
    rcases r with ⟨id, err⟩
    cases err with
    | none => simp at h
    | some e => rfl

/-- The item one iteration of the saving loop leaves: the subscription id is
set, and the row id when the insert succeeded. -/
theorem persistOne_item {σ : Type} (db : Database σ) (subID : Int) (item : FeedItem)
    (w : σ) :
    ∃ id : Int, (persistOne db subID item w).1.1 =
      { item with SubscriptionID := subID, ID := id } := by
  unfold persistOne
  simp only
  rcases ItemExistsByURL db item.SourceURL w with ⟨⟨found, err⟩, w1⟩
  cases found with
  | true => exact ⟨item.ID, rfl⟩
  | false =>
    simp only [Bool.not_false, if_true]
    obtain ⟨id, hid⟩ := CreateFeedItem_item db { item with SubscriptionID := subID } w1
    refine ⟨id, ?_⟩
    rcases hc : CreateFeedItem db { item with SubscriptionID := subID } w1 with ⟨⟨item1, e⟩, w2⟩
    rw [hc] at hid
    simp only at hid ⊢
    rw [hid]

theorem persistOne_item_unsaved {σ : Type} (db : Database σ) (subID : Int) (item : FeedItem)
    (w : σ)
    (h : (ItemExistsByURL db item.SourceURL w).1.1 = true ∨
      (CreateFeedItem db { item with SubscriptionID := subID }
        (ItemExistsByURL db item.SourceURL w).2).1.2 ≠ none) :
    (persistOne db subID item w).1.1 = { item with SubscriptionID := subID } := by
  unfold persistOne
  simp only
  rcases hex : ItemExistsByURL db item.SourceURL w with ⟨⟨found, err⟩, w1⟩
  rw [hex] at h
  simp only at h
  cases found with
  | true => rfl
  | false =>
    simp only [Bool.not_false, if_true]
    rcases h with h | h
    · exact absurd h (by decide)
    · have := CreateFeedItem_item_of_error db { item with SubscriptionID := subID } w1 h
      rcases hc : CreateFeedItem db { item with SubscriptionID := subID } w1 with
        ⟨⟨item1, e⟩, w2⟩
      rw [hc] at this
      exact this

theorem persistItems_forall₂ {σ : Type} (db : Database σ) (subID : Int)
    (items : List FeedItem) (w : σ) :
    List.Forall₂
      (fun curated returned =>
        ∃ id : Int, returned = { curated with SubscriptionID := subID, ID := id })
      items (persistItems db subID items w).1.1 := by
  induction items generalizing w with
  | nil => exact List.Forall₂.nil
  | cons item rest ih =>
    rw [persistItems_cons]
    exact List.Forall₂.cons (persistOne_item db subID item w) (ih _)

/-- When no feed can be fetched the loop of `FetchMultipleFeeds` adds
nothing. -/
theorem fetchMultipleLoop_of_failing {σ : Type} (p : RSSProvider σ) (since : Option Time)
    (hfail : ∀ (url : String) (w0 : σ),
      ∃ err, (p.ParseURLWithContext url w0).1 = Except.error err)
    (urls : List String) (allResults : List SearchResult) (w : σ) :
    (fetchMultipleLoop p since allResults urls w).1 = allResults := by
  induction urls generalizing w with
  | nil => rfl
  | cons url rest ih =>
    unfold fetchMultipleLoop
    obtain ⟨err, herr⟩ := hfail url w
    have hfetch : ∃ w1, FetchFeed p url since w = (([], some err), w1) := by
      unfold FetchFeed
      rcases hp : p.ParseURLWithContext url w with ⟨res, w1⟩
      rw [hp] at herr
      simp only at herr
      subst herr
      exact ⟨w1, rfl⟩
    obtain ⟨w1, hw1⟩ := hfetch
    rw [hw1]
    exact ih w1

theorem curatedFor_no_error {σ : Type} (rt : Runtime) (s : Scheduler σ) (sub : Subscription)
    (w : σ) : (curatedFor rt s sub w).1.2 = none := by
  unfold curatedFor
  simp only
  rw [CurateResults_eq]

/-- The function `RefreshSubscription` as the sequence of its stages. -/
theorem RefreshSubscription_eq {σ : Type} (rt : Runtime) (db : Database σ) (s : Scheduler σ)
    (sub : Subscription) (w : σ) :
    RefreshSubscription rt db s sub w =
      (((if (UpdateLastFetched db sub.ID
              (persistItems db sub.ID (curatedFor rt s sub w).1.1
                (curatedFor rt s sub w).2).2).1 = none then
            (persistItems db sub.ID (curatedFor rt s sub w).1.1
              (curatedFor rt s sub w).2).1.1
          else [],
          (UpdateLastFetched db sub.ID
            (persistItems db sub.ID (curatedFor rt s sub w).1.1
              (curatedFor rt s sub w).2).2).1),
        (persistItems db sub.ID (curatedFor rt s sub w).1.1 (curatedFor rt s sub w).2).1.2 ++
          [DBCall.updateLastFetched sub.ID]),
        (UpdateLastFetched db sub.ID
          (persistItems db sub.ID (curatedFor rt s sub w).1.1
            (curatedFor rt s sub w).2).2).2) := by
  unfold RefreshSubscription
  have hc := curatedFor_no_error rt s sub w
  rcases hcur : curatedFor rt s sub w with ⟨⟨items, cerr⟩, w1⟩
  rw [hcur] at hc
  simp only at hc
  subst hc
  simp only
  rcases persistItems db sub.ID items w1 with ⟨⟨items1, calls⟩, w2⟩
  simp only
  rcases UpdateLastFetched db sub.ID w2 with ⟨uerr, w3⟩
  cases uerr <;> simp

/-! ## Lemmas on the concrete runtime -/

theorem insertionStep_perm {α : Type} (less : α → α → Bool) (x : α) (before : List α) :
    (insertionStep less x before).Perm (x :: before) := by
  induction before with
  | nil => simp [insertionStep]
  | cons y ys ih =>
    unfold insertionStep
    split
    · exact ((List.Perm.cons y ih).trans (List.Perm.swap x y ys))
    · exact List.Perm.refl _

theorem insertionFold_perm {α : Type} (less : α → α → Bool) (data before : List α) :
    (data.foldl (fun before x => insertionStep less x before) before).Perm
      (data.reverse ++ before) := by
  induction data generalizing before with
  | nil => simp
  | cons x xs ih =>
    simp only [List.foldl_cons, List.reverse_cons, List.append_assoc, List.singleton_append]
    exact (ih _).trans (List.Perm.append_left _ (insertionStep_perm less x before))

theorem insertionSortLessFunc_perm {α : Type} (less : α → α → Bool) (data : List α) :
    (insertionSortLessFunc less data).Perm data := by
  unfold insertionSortLessFunc
  refine (List.reverse_perm _).trans ?_
  have h := insertionFold_perm less data []
  simp only [List.append_nil] at h
  exact h.trans (List.reverse_perm _)

theorem goRuntime_sortPermutes : goRuntime.SortPermutes :=
  fun less items => insertionSortLessFunc_perm less items

theorem Slice_short {α : Type} (less : α → α → Bool) (data : List α)
    (h : data.length ≤ 12) : Slice less data = insertionSortLessFunc less data := by
  unfold Slice pdqsort_func
  simp [h, insertionSort_func]

theorem pdqRuntime_sortsShortByInsertion : pdqRuntime.SortsShortByInsertion :=
  fun less items h => Slice_short less items h

theorem insertionStep_sublist {α : Type} (less : α → α → Bool) (x : α) (before : List α) :
    before.Sublist (insertionStep less x before) := by
  induction before with
  | nil => exact List.nil_sublist _
  | cons y ys ih =>
    unfold insertionStep
    split
    · exact ih.cons₂ y
    · exact List.sublist_cons_self _ _

theorem insertionFold_sublist {α : Type} (less : α → α → Bool) (data before : List α) :
    before.Sublist (data.foldl (fun before x => insertionStep less x before) before) := by
  induction data generalizing before with
  | nil => exact List.Sublist.refl _
  | cons x xs ih =>
    exact (insertionStep_sublist less x before).trans (ih _)

/-- An element moved by the inner loop stays behind every element it is not
less than. -/
theorem insertionStep_keeps_behind {α : Type} (less : α → α → Bool) (x p : α)
    (before : List α) (hp : p ∈ before) (h : less x p = false) :
    [x, p].Sublist (insertionStep less x before) := by
  induction before with
  | nil => simp at hp
  | cons y ys ih =>
    unfold insertionStep
    by_cases hxy : less x y = true
    · rw [if_pos hxy]
      have hne : p ≠ y := by
        intro hpy
        rw [hpy, hxy] at h
        exact Bool.noConfusion h
      have hmem : p ∈ ys := by
        rcases List.mem_cons.1 hp with hpy | hys
        · exact absurd hpy hne
        · exact hys
      exact (ih hmem).cons y
    · rw [if_neg hxy]
      exact (List.singleton_sublist.2 hp).cons₂ x

theorem insertionFold_keeps_behind {α : Type} (less : α → α → Bool) (p q : α)
    (hless : less q p = false) (data before : List α) (hp : p ∈ before) (hq : q ∈ data) :
    [q, p].Sublist (data.foldl (fun before x => insertionStep less x before) before) := by
  induction data generalizing before with
  | nil => simp at hq
  | cons x xs ih =>
    simp only [List.foldl_cons]
    by_cases hx : x = q
    · subst hx
      exact (insertionStep_keeps_behind less x p before hp hless).trans
        (insertionFold_sublist less xs _)
    · have hq1 : q ∈ xs := by
        rcases List.mem_cons.1 hq with hqx | hxs
        · exact absurd hqx.symm hx
        · exact hxs
      exact ih _ ((insertionStep_sublist less x before).subset hp) hq1

theorem insertionFold_stable {α : Type} (less : α → α → Bool) (p q : α)
    (hless : less q p = false) (data before : List α) (h : [p, q].Sublist data) :
    [q, p].Sublist (data.foldl (fun before x => insertionStep less x before) before) := by
  induction data generalizing before with
  | nil => simp at h
  | cons x xs ih =>
    simp only [List.foldl_cons]
    cases h with
    | cons _ h1 => exact ih _ h1
    | cons₂ _ h1 =>
      have hq : q ∈ xs := List.singleton_sublist.1 h1
      have hp : p ∈ insertionStep less p before :=
        (insertionStep_perm less p before).mem_iff.2 (List.mem_cons_self _ _)
      exact insertionFold_keeps_behind less p q hless xs _ hp hq

/-- Insertion sort keeps two elements in their order when the later one is not
less than the earlier one. -/
theorem insertionSortLessFunc_stable {α : Type} (less : α → α → Bool) (p q : α)
    (hless : less q p = false) (data : List α) (h : [p, q].Sublist data) :
    [p, q].Sublist (insertionSortLessFunc less data) := by
  unfold insertionSortLessFunc
  have := (insertionFold_stable less p q hless data [] h).reverse
  simpa using this

/-! ## Lemmas on the JSON text of string slices -/

theorem hex4_of_byte : ∀ n : Nat, n < 128 →
    hex4 '0' '0' (hexDigit (n / 16)) (hexDigit (n % 16)) = some n := by
  decide

theorem runeChar_toNat (c : Char) : runeChar c.toNat = c := by
  unfold runeChar
  have h : c.toNat.isValidChar := c.valid
  rw [if_pos h]
  exact Char.ofNat_toNat c

theorem unquoteAux_plain (c : Char) (tail : List Char) (hq : c ≠ '"') (hb : c ≠ '\\')
    (hc : ¬ c.toNat < 32) :
    unquoteAux 0 (c :: tail) = (unquoteAux 0 tail).map (fun r => (c :: r.1, r.2)) := by
  rw [unquoteAux.eq_def]
  simp only [hq, hb, hc, if_false]

theorem unquoteAux_short (e : Char) (tail : List Char) (hu : e ≠ 'u') :
    unquoteAux 0 ('\\' :: e :: tail) =
      (if e = '"' ∨ e = '\\' ∨ e = '/' then
          (unquoteAux 0 tail).map (fun r => (e :: r.1, r.2))
        else if e = 'b' then (unquoteAux 0 tail).map (fun r => ('\x08' :: r.1, r.2))
        else if e = 'f' then (unquoteAux 0 tail).map (fun r => ('\x0c' :: r.1, r.2))
        else if e = 'n' then (unquoteAux 0 tail).map (fun r => ('\n' :: r.1, r.2))
        else if e = 'r' then (unquoteAux 0 tail).map (fun r => ('\r' :: r.1, r.2))
        else if e = 't' then (unquoteAux 0 tail).map (fun r => ('\t' :: r.1, r.2))
        else none) := by
  rw [unquoteAux.eq_def]
  simp only [hu, if_false, if_true, Char.reduceEq]

theorem unquoteAux_hex (a b c d : Char) (tail : List Char) (rr : Nat)
    (hhex : hex4 a b c d = some rr) (hlow : ¬ (0xD800 ≤ rr ∧ rr < 0xE000)) :
    unquoteAux 0 ('\\' :: 'u' :: a :: b :: c :: d :: tail) =
      (unquoteAux 0 tail).map (fun r => (runeChar rr :: r.1, r.2)) := by
  rw [unquoteAux.eq_def]
  simp only [if_false, if_true, Char.reduceEq, hhex, hlow]

theorem unquoteAux_escapeRune_valid (c : Char) (tail : List Char) :
    unquoteAux 0 (escapeRune (Rune.valid c) ++ tail) =
      (unquoteAux 0 tail).map (fun r => (c :: r.1, r.2)) := by
  simp only [escapeRune]
  by_cases h128 : c.toNat < 128
  · rw [if_pos h128]
    by_cases hsafe : htmlSafe c = true
    · rw [if_pos hsafe]
      simp only [htmlSafe, Bool.and_eq_true, decide_eq_true_eq, Bool.not_eq_true',
        beq_eq_false_iff_ne, ne_eq] at hsafe
      exact unquoteAux_plain c tail hsafe.1.1.1.1.2 hsafe.1.1.1.2 (by omega)
    · rw [if_neg hsafe]
      by_cases hq : c = '\\' ∨ c = '"'
      · rw [if_pos hq]
        rcases hq with rfl | rfl
        · rw [List.cons_append, List.cons_append, List.nil_append,
            unquoteAux_short _ _ (by decide)]
          rw [if_pos (by decide)]
        · rw [List.cons_append, List.cons_append, List.nil_append,
            unquoteAux_short _ _ (by decide)]
          rw [if_pos (by decide)]
      · rw [if_neg hq]
        by_cases h1 : c = '\x08'
        · rw [if_pos h1, h1, List.cons_append, List.cons_append, List.nil_append,
            unquoteAux_short _ _ (by decide)]
          rw [if_neg (by decide), if_pos rfl]
        · rw [if_neg h1]
          by_cases h2 : c = '\x0c'
          · rw [if_pos h2, h2, List.cons_append, List.cons_append, List.nil_append,
              unquoteAux_short _ _ (by decide)]
            rw [if_neg (by decide), if_neg (by decide), if_pos rfl]
          · rw [if_neg h2]
            by_cases h3 : c = '\n'
            · rw [if_pos h3, h3, List.cons_append, List.cons_append, List.nil_append,
                unquoteAux_short _ _ (by decide)]
              rw [if_neg (by decide), if_neg (by decide), if_neg (by decide), if_pos rfl]
            · rw [if_neg h3]
              by_cases h4 : c = '\r'
              · rw [if_pos h4, h4, List.cons_append, List.cons_append, List.nil_append,
                  unquoteAux_short _ _ (by decide)]
                rw [if_neg (by decide), if_neg (by decide), if_neg (by decide),
                  if_neg (by decide), if_pos rfl]
              · rw [if_neg h4]
                by_cases h5 : c = '\t'
                · rw [if_pos h5, h5, List.cons_append, List.cons_append, List.nil_append,
                    unquoteAux_short _ _ (by decide)]
                  rw [if_neg (by decide), if_neg (by decide), if_neg (by decide),
                    if_neg (by decide), if_neg (by decide), if_pos rfl]
                · rw [if_neg h5]
                  simp only [List.cons_append, List.nil_append]
                  rw [unquoteAux_hex _ _ _ _ tail c.toNat (hex4_of_byte c.toNat h128)
                    (by omega), runeChar_toNat]
  · rw [if_neg h128]
    by_cases h2 : c = '\u2028' ∨ c = '\u2029'
    · rw [if_pos h2]
      rcases h2 with rfl | rfl
      · simp only [List.cons_append, List.nil_append]
        rw [unquoteAux_hex _ _ _ _ tail 0x2028 (by decide) (by decide)]
        rfl
      · simp only [List.cons_append, List.nil_append]
        rw [unquoteAux_hex _ _ _ _ tail 0x2029 (by decide) (by decide)]
        rfl
    · rw [if_neg h2]
      have hq : c ≠ '"' := by
        intro h; rw [h] at h128; exact h128 (by decide)
      have hb : c ≠ '\\' := by
        intro h; rw [h] at h128; exact h128 (by decide)
      exact unquoteAux_plain c tail hq hb (by omega)

/-- Reading back what `appendString` wrote for one decoding step gives the
code point of the step, U+FFFD for an invalid byte. -/
theorem unquoteAux_escapeRune (r : Rune) (tail : List Char) :
    unquoteAux 0 (escapeRune r ++ tail) =
      (unquoteAux 0 tail).map (fun p => (r.char :: p.1, p.2)) := by
  cases r with
  | valid c => exact unquoteAux_escapeRune_valid c tail
  | invalid b =>
    simp only [escapeRune, List.cons_append, List.nil_append]
    rw [unquoteAux_hex _ _ _ _ tail 0xFFFD (by decide) (by decide)]
    rfl

/-- Reading back the body `appendString` wrote gives the text of the string
and stops behind the closing quote. -/
theorem unquoteAux_body (x : GoString) (tail : List Char) :
    unquoteAux 0 (x.flatMap escapeRune ++ '"' :: tail) = some (x.map Rune.char, tail) := by
  induction x with
  | nil =>
    simp only [List.flatMap_nil, List.nil_append, List.map_nil]
    rw [unquoteAux.eq_def]
    simp
  | cons r rest ih =>
    simp only [List.flatMap_cons, List.append_assoc, List.map_cons]
    rw [unquoteAux_escapeRune, ih]
    rfl

theorem appendString_append (x : GoString) (tail : List Char) :
    appendString x ++ tail = '"' :: (x.flatMap escapeRune ++ '"' :: tail) := by
  simp [appendString]

theorem parseValue_appendString (budget : Nat) (x : GoString) (tail : List Char) :
    parseValue budget (appendString x ++ tail) =
      Except.ok (JSONKind.string x.text, tail) := by
  rw [appendString_append]
  cases budget with
  | zero => simp [parseValue, parseScalar, unquoteAux_body, GoString.text]
  | succ n => simp [parseValue, parseScalar, unquoteAux_body, GoString.text]

theorem skipSpace_appendString (x : GoString) (tail : List Char) :
    skipSpace (appendString x ++ tail) = appendString x ++ tail := by
  simp [appendString, skipSpace, isSpace]

/-- Reading the elements `json.Marshal` wrote gives the texts of the strings
as JSON strings; the fuel needed is the number of elements. -/
theorem parseElements_marshal (budget : Nat) (x : GoString) (xs : List GoString) (fuel : Nat)
    (hfuel : xs.length < fuel) :
    parseElements (parseValue budget) fuel (appendString x ++ marshalRest xs) =
      Except.ok ((x :: xs).map (fun y => JSONKind.string y.text), []) := by
  induction xs generalizing x fuel with
  | nil =>
    cases fuel with
    | zero => simp at hfuel
    | succ n =>
      rw [parseElements, parseValue_appendString]
      simp [marshalRest, skipSpace, isSpace]
  | cons y ys ih =>
    cases fuel with
    | zero => simp at hfuel
    | succ n =>
      rw [parseElements, parseValue_appendString]
      simp only [marshalRest]
      have h1 : skipSpace (',' :: (appendString y ++ marshalRest ys)) =
          ',' :: (appendString y ++ marshalRest ys) := by
        simp [skipSpace, isSpace]
      rw [h1]
      simp only
      rw [skipSpace_appendString, ih y n (by simpa using hfuel)]
      simp

theorem marshalRest_length (xs : List GoString) : xs.length < (marshalRest xs).length := by
  induction xs with
  | nil => simp [marshalRest]
  | cons x rest ih =>
    simp only [marshalRest, List.length_cons, List.length_append]
    omega

/-- Decoding the text `json.Marshal` wrote for a non-empty slice gives the
texts of its strings, without error. -/
theorem jsonUnmarshalStrings_marshal (x : GoString) (rest : List GoString) :
    jsonUnmarshalStrings (jsonMarshalStrings (x :: rest)) =
      ((x :: rest).map GoString.text, none) := by
  unfold jsonUnmarshalStrings
  have hdata : (jsonMarshalStrings (x :: rest)).data =
      '[' :: (appendString x ++ marshalRest rest) := rfl
  rw [hdata]
  have h1 : skipSpace ('[' :: (appendString x ++ marshalRest rest)) =
      '[' :: (appendString x ++ marshalRest rest) := by
    simp [skipSpace, isSpace]
  rw [h1]
  simp only [if_true]
  rw [skipSpace_appendString]
  have h2 : appendString x ++ marshalRest rest =
      '"' :: ((x.flatMap escapeRune ++ ['"']) ++ marshalRest rest) := by
    simp [appendString]
  have hlen : rest.length <
      ('"' :: ((x.flatMap escapeRune ++ ['"']) ++ marshalRest rest)).length := by
    have := marshalRest_length rest
    simp only [List.length_cons, List.length_append]
    omega
  have hparse := parseElements_marshal 9999 x rest _ hlen
  rw [h2] at hparse ⊢
  simp only [Char.reduceEq, if_false]
  rw [hparse]
  simp [skipSpace, elementText, elementMistyped, Function.comp_def]

theorem jsonMarshalStrings_ne (x : GoString) (rest : List GoString) :
    jsonMarshalStrings (x :: rest) ≠ "" ∧ jsonMarshalStrings (x :: rest) ≠ "null" := by
  have hdata : (jsonMarshalStrings (x :: rest)).data =
      '[' :: (appendString x ++ marshalRest rest) := rfl
  constructor
  · intro h
    have := congrArg String.data h
    rw [hdata] at this
    simp at this
  · intro h
    have := congrArg String.data h
    rw [hdata] at this
    have hn : "null".data = ['n', 'u', 'l', 'l'] := rfl
    rw [hn] at this
    simp at this

theorem text_ofString (s : String) : (GoString.ofString s).text = s := by
  simp [GoString.text, GoString.ofString, Function.comp_def, Rune.char]

/-! ### The reader never runs out of fuel -/

theorem skipSpace_length (input : List Char) : (skipSpace input).length ≤ input.length := by
  induction input with
  | nil => simp [skipSpace]
  | cons c rest ih =>
    unfold skipSpace
    split_ifs
    · simp only [List.length_cons]; omega
    · exact le_refl _

theorem skipDigits_length (input : List Char) : (skipDigits input).length ≤ input.length := by
  induction input with
  | nil => simp [skipDigits]
  | cons c rest ih =>
    unfold skipDigits
    split_ifs
    · simp only [List.length_cons]; omega
    · exact le_refl _

theorem afterLiteral_length (lit input rest : List Char)
    (h : afterLiteral lit input = some rest) : rest.length ≤ input.length := by
  induction lit generalizing input with
  | nil =>
    simp only [afterLiteral, Option.some.injEq] at h
    rw [h]
  | cons l lit ih =>
    cases input with
    | nil => simp [afterLiteral] at h
    | cons c input =>
      simp only [afterLiteral] at h
      split_ifs at h
      have := ih input h
      simp only [List.length_cons]; omega

theorem afterLiteral_length_lt (l : Char) (lit input rest : List Char)
    (h : afterLiteral (l :: lit) input = some rest) : rest.length < input.length := by
  cases input with
  | nil => simp [afterLiteral] at h
  | cons c input =>
    simp only [afterLiteral] at h
    split_ifs at h
    have := afterLiteral_length lit input rest h
    simp only [List.length_cons]; omega

theorem skipDigits1_length (input rest : List Char) (h : skipDigits1 input = some rest) :
    rest.length < input.length := by
  cases input with
  | nil => simp [skipDigits1] at h
  | cons c input =>
    simp only [skipDigits1] at h
    split_ifs at h
    simp only [Option.some.injEq] at h
    rw [← h]
    have := skipDigits_length input
    simp only [List.length_cons]; omega

theorem skipExponent_length (input rest : List Char) (h : skipExponent input = some rest) :
    rest.length ≤ input.length := by
  cases input with
  | nil =>
    simp only [skipExponent, Option.some.injEq] at h
    rw [← h]
  | cons e input =>
    simp only [skipExponent] at h
    split_ifs at h
    · cases input with
      | nil => simp at h
      | cons s input =>
        simp only at h
        split_ifs at h
        · have := skipDigits1_length _ _ h
          simp only [List.length_cons]; omega
        · have := skipDigits1_length _ _ h
          simp only [List.length_cons] at this ⊢; omega
    · simp only [Option.some.injEq] at h
      rw [← h]

theorem skipFraction_length (input rest : List Char) (h : skipFraction input = some rest) :
    rest.length ≤ input.length := by
  cases input with
  | nil =>
    simp only [skipFraction, Option.some.injEq] at h
    rw [← h]
  | cons c input =>
    simp only [skipFraction] at h
    split_ifs at h
    · cases hd : skipDigits1 input with
      | none => rw [hd] at h; simp at h
      | some rest1 =>
        rw [hd] at h
        simp only at h
        have h1 := skipDigits1_length _ _ hd
        have h2 := skipExponent_length _ _ h
        simp only [List.length_cons]; omega
    · exact skipExponent_length _ _ h

theorem skipInteger_length (input rest : List Char) (h : skipInteger input = some rest) :
    rest.length < input.length := by
  cases input with
  | nil => simp [skipInteger] at h
  | cons c input =>
    simp only [skipInteger] at h
    split_ifs at h
    · simp only [Option.some.injEq] at h
      rw [← h]; simp
    · simp only [Option.some.injEq] at h
      rw [← h]
      have := skipDigits_length input
      simp only [List.length_cons]; omega

theorem skipNumber_length (input rest : List Char) (h : skipNumber input = some rest) :
    rest.length < input.length := by
  cases input with
  | nil => simp [skipNumber] at h
  | cons c input =>
    simp only [skipNumber] at h
    by_cases hc : c = '-'
    · rw [if_pos hc] at h
      cases hi : skipInteger input with
      | none => rw [hi] at h; simp at h
      | some rest1 =>
        rw [hi] at h
        simp only at h
        have h1 := skipInteger_length _ _ hi
        have h2 := skipFraction_length _ _ h
        simp only [List.length_cons]; omega
    · rw [if_neg hc] at h
      cases hi : skipInteger (c :: input) with
      | none => rw [hi] at h; simp at h
      | some rest1 =>
        rw [hi] at h
        simp only at h
        have h1 := skipInteger_length _ _ hi
        have h2 := skipFraction_length _ _ h
        omega

theorem map_cons_eq_some (x : Char) (o : Option (List Char × List Char))
    (s rest : List Char) (h : o.map (fun r => (x :: r.1, r.2)) = some (s, rest)) :
    ∃ s0, o = some (s0, rest) := by
  cases o with
  | none => simp at h
  | some r =>
    simp only [Option.map_some', Option.some.injEq, Prod.mk.injEq] at h
    exact ⟨r.1, by rw [← h.2]⟩

theorem unquoteAux_length_aux (n : Nat) : ∀ (skip : Nat) (input s rest : List Char),
    input.length ≤ n → unquoteAux skip input = some (s, rest) →
    rest.length < input.length := by
  induction n with
  | zero =>
    intro skip input s rest hn h
    have : input = [] := List.length_eq_zero.1 (Nat.le_zero.1 hn)
    subst this
    simp [unquoteAux] at h
  | succ n ih =>
    intro skip input s rest hn h
    cases input with
    | nil => simp [unquoteAux] at h
    | cons c input =>
      have hlen : input.length ≤ n := by simpa using hn
      cases skip with
      | succ skip =>
        simp only [unquoteAux] at h
        have := ih skip input s rest hlen h
        simp only [List.length_cons]; omega
      | zero =>
        rw [unquoteAux.eq_def] at h
        simp only at h
        split_ifs at h with h1 h2 h3
        · simp only [Option.some.injEq, Prod.mk.injEq] at h
          rw [← h.2]; simp
        · cases input with
          | nil => simp at h
          | cons e input =>
            simp only at h
            have hlen1 : input.length ≤ n := by
              simp only [List.length_cons] at hlen; omega
            have hstep : ∀ (x : Char) (k : Nat) (tail : List Char),
                tail.length ≤ input.length →
                (unquoteAux k tail).map (fun r => (x :: r.1, r.2)) = some (s, rest) →
                rest.length < (c :: e :: input).length := by
              intro x k tail htail hm
              obtain ⟨s0, hs0⟩ := map_cons_eq_some x _ s rest hm
              have := ih k tail s0 rest (le_trans htail hlen1) hs0
              simp only [List.length_cons]; omega
            split_ifs at h
            · match input, h, hstep with
              | a :: b :: c1 :: d :: rest2, h, hstep =>
                simp only at h
                have htail : rest2.length ≤ (a :: b :: c1 :: d :: rest2).length := by
                  simp only [List.length_cons]; omega
                cases hh : hex4 a b c1 d with
                | none => rw [hh] at h; simp at h
                | some rr =>
                  rw [hh] at h
                  simp only at h
                  split_ifs at h
                  · cases hg : getu4 rest2 with
                    | none =>
                      rw [hg] at h
                      exact hstep _ _ _ htail h
                    | some rr1 =>
                      rw [hg] at h
                      simp only at h
                      split_ifs at h
                      · exact hstep _ _ _ htail h
                      · exact hstep _ _ _ htail h
                  · exact hstep _ _ _ htail h
              | [], h, _ => simp at h
              | [_], h, _ => simp at h
              | [_, _], h, _ => simp at h
              | [_, _, _], h, _ => simp at h
            · exact hstep _ _ _ (le_refl _) h
            · exact hstep _ _ _ (le_refl _) h
            · exact hstep _ _ _ (le_refl _) h
            · exact hstep _ _ _ (le_refl _) h
            · exact hstep _ _ _ (le_refl _) h
            · exact hstep _ _ _ (le_refl _) h
        · obtain ⟨s0, hs0⟩ := map_cons_eq_some c _ s rest h
          have := ih 0 input s0 rest hlen hs0
          simp only [List.length_cons]; omega

/-- A string literal that can be read is longer than the text left behind
it. -/
theorem unquoteAux_length (skip : Nat) (input s rest : List Char)
    (h : unquoteAux skip input = some (s, rest)) : rest.length < input.length :=
  unquoteAux_length_aux input.length skip input s rest (le_refl _) h

theorem parseScalar_length (c : Char) (input : List Char) :
    parseScalar c input ≠ Except.error ParseFailure.outOfFuel ∧
    ∀ k rest, parseScalar c input = Except.ok (k, rest) → rest.length < (c :: input).length := by
  unfold parseScalar
  split_ifs
  · cases hu : unquoteAux 0 input with
    | none => simp
    | some r =>
      rcases r with ⟨s, rest1⟩
      simp only [ne_eq, reduceCtorEq, not_false_eq_true, Except.ok.injEq, Prod.mk.injEq,
        and_imp, true_and]
      intro k rest _ hr
      have := unquoteAux_length 0 input s rest1 hu
      rw [← hr]; simp only [List.length_cons]; omega
  · cases hl : afterLiteral ['r', 'u', 'e'] input with
    | none => simp
    | some rest1 =>
      simp only [ne_eq, reduceCtorEq, not_false_eq_true, Except.ok.injEq, Prod.mk.injEq,
        and_imp, true_and]
      intro k rest _ hr
      have := afterLiteral_length _ _ _ hl
      rw [← hr]; simp only [List.length_cons]; omega
  · cases hl : afterLiteral ['a', 'l', 's', 'e'] input with
    | none => simp
    | some rest1 =>
      simp only [ne_eq, reduceCtorEq, not_false_eq_true, Except.ok.injEq, Prod.mk.injEq,
        and_imp, true_and]
      intro k rest _ hr
      have := afterLiteral_length _ _ _ hl
      rw [← hr]; simp only [List.length_cons]; omega
  · cases hl : afterLiteral ['u', 'l', 'l'] input with
    | none => simp
    | some rest1 =>
      simp only [ne_eq, reduceCtorEq, not_false_eq_true, Except.ok.injEq, Prod.mk.injEq,
        and_imp, true_and]
      intro k rest _ hr
      have := afterLiteral_length _ _ _ hl
      rw [← hr]; simp only [List.length_cons]; omega
  · cases hl : skipNumber (c :: input) with
    | none => simp
    | some rest1 =>
      simp only [ne_eq, reduceCtorEq, not_false_eq_true, Except.ok.injEq, Prod.mk.injEq,
        and_imp, true_and]
      intro k rest _ hr
      have := skipNumber_length _ _ hl
      rw [← hr]; exact this

theorem parseElements_length (value : List Char → Parsed JSONKind)
    (hvalue : ∀ input, value input ≠ Except.error ParseFailure.outOfFuel ∧
      ∀ k rest, value input = Except.ok (k, rest) → rest.length < input.length) :
    ∀ (fuel : Nat) (input : List Char), 0 < fuel → input.length ≤ fuel →
      parseElements value fuel input ≠ Except.error ParseFailure.outOfFuel ∧
      ∀ ks rest, parseElements value fuel input = Except.ok (ks, rest) →
        rest.length < input.length := by
  intro fuel
  induction fuel with
  | zero => intro input h0; exact absurd h0 (by decide)
  | succ fuel ih =>
    intro input _ hlen
    rw [parseElements]
    cases hv : value input with
    | error e =>
      have := (hvalue input).1
      rw [hv] at this
      simp only
      exact ⟨fun h => this (by rw [Except.error.inj h]), by intro ks rest h; cases h⟩
    | ok r =>
      rcases r with ⟨k, rest0⟩
      have hk := (hvalue input).2 k rest0 hv
      simp only
      have hsp := skipSpace_length rest0
      cases hs : skipSpace rest0 with
      | nil => simp
      | cons d rest1 =>
        rw [hs] at hsp
        simp only [List.length_cons] at hsp
        simp only
        by_cases hd : d = ','
        · rw [if_pos hd]
          have hsp1 := skipSpace_length rest1
          have hfuel : 0 < fuel := by omega
          have hrec := ih (skipSpace rest1) hfuel (by omega)
          cases hp : parseElements value fuel (skipSpace rest1) with
          | error e =>
            rw [hp] at hrec
            simp only
            exact ⟨fun h => hrec.1 (by rw [Except.error.inj h]), by intro ks rest h; cases h⟩
          | ok r1 =>
            rcases r1 with ⟨ks1, rest2⟩
            rw [hp] at hrec
            simp only [ne_eq, reduceCtorEq, not_false_eq_true, Except.ok.injEq,
              Prod.mk.injEq, and_imp, true_and]
            intro ks rest _ hr
            have := hrec.2 ks1 rest2 rfl
            rw [← hr]; omega
        · rw [if_neg hd]
          split_ifs
          · simp only [ne_eq, reduceCtorEq, not_false_eq_true, Except.ok.injEq,
              Prod.mk.injEq, and_imp, true_and]
            intro ks rest _ hr
            rw [← hr]; omega
          · simp

theorem parseMembers_length (value : List Char → Parsed JSONKind)
    (hvalue : ∀ input, value input ≠ Except.error ParseFailure.outOfFuel ∧
      ∀ k rest, value input = Except.ok (k, rest) → rest.length < input.length) :
    ∀ (fuel : Nat) (input : List Char), 0 < fuel → input.length ≤ fuel →
      parseMembers value fuel input ≠ Except.error ParseFailure.outOfFuel ∧
      ∀ u rest, parseMembers value fuel input = Except.ok (u, rest) →
        rest.length < input.length := by
  intro fuel
  induction fuel with
  | zero => intro input h0; exact absurd h0 (by decide)
  | succ fuel ih =>
    intro input _ hlen
    rw [parseMembers]
    cases hq : afterLiteral ['"'] input with
    | none => simp
    | some rest =>
      have hq1 := afterLiteral_length_lt _ _ _ _ hq
      simp only
      cases hu : unquoteAux 0 rest with
      | none => simp
      | some r =>
        rcases r with ⟨key, rest1⟩
        have hu1 := unquoteAux_length 0 rest key rest1 hu
        simp only
        have hsp1 := skipSpace_length rest1
        cases hc : afterLiteral [':'] (skipSpace rest1) with
        | none => simp
        | some rest2 =>
          have hc1 := afterLiteral_length_lt _ _ _ _ hc
          simp only
          have hsp2 := skipSpace_length rest2
          cases hv : value (skipSpace rest2) with
          | error e =>
            have := (hvalue (skipSpace rest2)).1
            rw [hv] at this
            simp only
            exact ⟨fun h => this (by rw [Except.error.inj h]), by intro u rest h; cases h⟩
          | ok r3 =>
            rcases r3 with ⟨k, rest3⟩
            have hk := (hvalue (skipSpace rest2)).2 k rest3 hv
            simp only
            have hsp3 := skipSpace_length rest3
            cases hs : skipSpace rest3 with
            | nil => simp
            | cons d rest4 =>
              rw [hs] at hsp3
              simp only [List.length_cons] at hsp3
              simp only
              by_cases hd : d = ','
              · rw [if_pos hd]
                have hsp4 := skipSpace_length rest4
                have hrec := ih (skipSpace rest4) (by omega) (by omega)
                refine ⟨hrec.1, ?_⟩
                intro u rest5 h5
                have := hrec.2 u rest5 h5
                omega
              · rw [if_neg hd]
                split_ifs
                · simp only [ne_eq, reduceCtorEq, not_false_eq_true, Except.ok.injEq,
                    Prod.mk.injEq, and_imp, true_and]
                  intro u rest5 hr
                  rw [← hr]; omega
                · simp

/-- The value reader never runs out of fuel, and a value that can be read is
longer than the text left behind it. -/
theorem parseValue_length (budget : Nat) : ∀ input : List Char,
    parseValue budget input ≠ Except.error ParseFailure.outOfFuel ∧
    ∀ k rest, parseValue budget input = Except.ok (k, rest) → rest.length < input.length := by
  induction budget with
  | zero =>
    intro input
    cases input with
    | nil => simp [parseValue]
    | cons c rest => rw [parseValue]; exact parseScalar_length c rest
  | succ inner ih =>
    intro input
    cases input with
    | nil => simp [parseValue]
    | cons c rest0 =>
      rw [parseValue]
      have hsp := skipSpace_length rest0
      by_cases hb : c = '['
      · rw [if_pos hb]
        cases hs : skipSpace rest0 with
        | nil => simp
        | cons d rest1 =>
          rw [hs] at hsp
          simp only
          split_ifs
          · simp only [ne_eq, reduceCtorEq, not_false_eq_true, Except.ok.injEq,
              Prod.mk.injEq, and_imp, true_and]
            intro k rest _ hr
            rw [← hr]
            simp only [List.length_cons] at hsp ⊢; omega
          · have hrec := parseElements_length (parseValue inner) ih (d :: rest1).length
              (d :: rest1) (by simp) (le_refl _)
            cases hp : parseElements (parseValue inner) (d :: rest1).length (d :: rest1) with
            | error e =>
              rw [hp] at hrec
              simp only
              exact ⟨fun h => hrec.1 (by rw [Except.error.inj h]), by intro k rest h; cases h⟩
            | ok r =>
              rcases r with ⟨ks, rest2⟩
              rw [hp] at hrec
              simp only [ne_eq, reduceCtorEq, not_false_eq_true, Except.ok.injEq,
                Prod.mk.injEq, and_imp, true_and]
              intro k rest _ hr
              have := hrec.2 ks rest2 rfl
              rw [← hr]
              simp only [List.length_cons] at hsp this ⊢; omega
      · rw [if_neg hb]
        by_cases hc : c = '{'
        · rw [if_pos hc]
          cases hs : skipSpace rest0 with
          | nil => simp
          | cons d rest1 =>
            rw [hs] at hsp
            simp only
            split_ifs
            · simp only [ne_eq, reduceCtorEq, not_false_eq_true, Except.ok.injEq,
                Prod.mk.injEq, and_imp, true_and]
              intro k rest _ hr
              rw [← hr]
              simp only [List.length_cons] at hsp ⊢; omega
            · have hrec := parseMembers_length (parseValue inner) ih (d :: rest1).length
                (d :: rest1) (by simp) (le_refl _)
              cases hp : parseMembers (parseValue inner) (d :: rest1).length (d :: rest1) with
              | error e =>
                rw [hp] at hrec
                simp only
                exact ⟨fun h => hrec.1 (by rw [Except.error.inj h]), by intro k rest h; cases h⟩
              | ok r =>
                rcases r with ⟨u, rest2⟩
                rw [hp] at hrec
                simp only [ne_eq, reduceCtorEq, not_false_eq_true, Except.ok.injEq,
                  Prod.mk.injEq, and_imp, true_and]
                intro k rest _ hr
                have := hrec.2 u rest2 rfl
                rw [← hr]
                simp only [List.length_cons] at hsp this ⊢; omega
        · rw [if_neg hc]
          exact parseScalar_length c rest0

/-- The two reads `jsonUnmarshalStrings` makes never run out of fuel: a text
it rejects is rejected as invalid JSON. -/
theorem jsonUnmarshalStrings_fuel (budget : Nat) (d : Char) (rest : List Char) :
    parseElements (parseValue budget) (d :: rest).length (d :: rest) ≠
      Except.error ParseFailure.outOfFuel ∧
    parseValue budget (d :: rest) ≠ Except.error ParseFailure.outOfFuel :=
  ⟨(parseElements_length (parseValue budget) (parseValue_length budget) (d :: rest).length
      (d :: rest) (by simp) (le_refl _)).1,
    (parseValue_length budget (d :: rest)).1⟩

/-! ## Scheduler: theorems -/

/-- C1: `shouldRefresh` is true exactly when `last_fetched_at` is unset or
`now - last_fetched_at` is at least the tier threshold (1 hour for hourly,
24 hours for daily, 168 hours for weekly, 24 hours for any other frequency);
an hourly subscription fetched 59 minutes ago is not due and one fetched 61
minutes ago is due. -/
theorem shouldRefresh_iff_due (now last : Time) (sub : Subscription) :
    (shouldRefresh now sub = true ↔
      (sub.LastFetchedAt = none ∨
        ∃ t, sub.LastFetchedAt = some t ∧
          now.nsec - t.nsec ≥ dueThreshold sub.Frequency)) ∧
    shouldRefresh ⟨last.nsec + 59 * Minute⟩
      { sub with Frequency := "hourly", LastFetchedAt := some last } = false ∧
    shouldRefresh ⟨last.nsec + 61 * Minute⟩
      { sub with Frequency := "hourly", LastFetchedAt := some last } = true := by
  refine ⟨?_, ?_, ?_⟩
  · unfold shouldRefresh dueThreshold
    cases h : sub.LastFetchedAt with
    | none => simp
    | some t =>
      simp only [reduceCtorEq, Option.some.injEq, exists_eq_left', false_or]
      simp only [Time.Sub, Hour, Minute, Second, Nanosecond, minDuration, maxDuration]
      split_ifs <;> simp only [decide_eq_true_eq] <;> omega
  · simp only [shouldRefresh, Time.Sub, Hour, Minute, Second, Nanosecond, minDuration,
      maxDuration]
    simp only [↓reduceIte, decide_eq_false_iff_not]
    split_ifs <;> omega
  · simp only [shouldRefresh, Time.Sub, Hour, Minute, Second, Nanosecond, minDuration,
      maxDuration]
    simp only [↓reduceIte, decide_eq_true_eq]
    split_ifs <;> omega

/-- C2: `deduplicateByURL` is idempotent. -/
theorem deduplicateByURL_idempotent (xs : List SearchResult) :
    deduplicateByURL (deduplicateByURL xs) = deduplicateByURL xs := by
  rw [deduplicateByURL_eq xs, deduplicateByURL_eq]
  exact dedupFrom_of_pairwise _ _ (fun _ _ => rfl) (dedupFrom_pairwise _ _)

/-- C3: the output of `deduplicateByURL` holds no two elements, at different
positions, with the same non-empty URL (the URLs of the output are in fact
pairwise distinct). -/
theorem deduplicateByURL_distinct_nonempty_URL (xs : List SearchResult) :
    (deduplicateByURL xs).Pairwise (fun a b => ¬ (a.URL = b.URL ∧ a.URL ≠ "")) ∧
    ((deduplicateByURL xs).map (fun r => r.URL)).Nodup := by
  rw [deduplicateByURL_eq]
  have h := dedupFrom_pairwise (fun _ => false) xs
  refine ⟨h.imp (fun hne hc => hne hc.1), ?_⟩
  rw [List.Nodup, List.pairwise_map]
  exact h

/-- C4: `deduplicateByURL xs` is a subsequence of `xs` that keeps, for each
URL, exactly the first element of `xs` with that URL; on the concatenation of
search results and RSS results the element kept for a URL is the first search
candidate with that URL when there is one, else the first RSS candidate. -/
theorem deduplicateByURL_first_occurrence (xs search rss : List SearchResult)
    (u : String) :
    (deduplicateByURL xs).Sublist xs ∧
    withURL u (deduplicateByURL xs) = firstWithURL u xs ∧
    withURL u (deduplicateByURL (search ++ rss)) =
      (match search.find? (fun r => decide (r.URL = u)) with
       | some a => [a]
       | none => firstWithURL u rss) := by
  refine ⟨?_, ?_, ?_⟩
  · rw [deduplicateByURL_eq]; exact dedupFrom_sublist _ _
  · rw [deduplicateByURL_eq, withURL_dedupFrom]; simp
  · rw [deduplicateByURL_eq, withURL_dedupFrom]
    simp only [Bool.false_eq_true, ↓reduceIte, firstWithURL, List.find?_append]
    cases search.find? (fun r => decide (r.URL = u)) <;> simp

/-- C5 (as amended): empty-URL candidates are deduplicated like any other
URL; the output keeps exactly the first empty-URL element of the input, when
there is one, and so holds at most one. -/
theorem deduplicateByURL_empty_URL_first_only (xs : List SearchResult) :
    withURL "" (deduplicateByURL xs) = firstWithURL "" xs ∧
    (withURL "" (deduplicateByURL xs)).length = min 1 (withURL "" xs).length := by
  have h : withURL "" (deduplicateByURL xs) = firstWithURL "" xs := by
    rw [deduplicateByURL_eq, withURL_dedupFrom]; simp
  refine ⟨h, ?_⟩
  rw [h]
  unfold firstWithURL withURL
  induction xs with
  | nil => simp
  | cons r rest ih =>
    by_cases hr : r.URL = ""
    · simp [List.find?, hr]
    · simp only [List.find?, hr, decide_False, List.filter_cons, Bool.false_eq_true,
        ↓reduceIte]
      exact ih (by rw [deduplicateByURL_eq, withURL_dedupFrom]; simp)

/-- C5 (counterexample): of two feed entries that both lack a link, the
second is dropped by `deduplicateByURL` and the number of empty-URL elements
falls from two to one. -/
theorem deduplicateByURL_drops_second_empty_URL :
    noLinkSecond ∈ noLinkBatch ∧ noLinkSecond.URL = "" ∧
    noLinkSecond ∉ deduplicateByURL noLinkBatch ∧
    (withURL "" noLinkBatch).length = 2 ∧
    (withURL "" (deduplicateByURL noLinkBatch)).length = 1 := by
  decide

/-! ## Curator: theorems -/

/-- C6: the list returned by `CurateResults` holds, each exactly once, the
items built from the candidates (one per candidate, in order) whose assigned
relevance score is at least `0.5`, and no item whose score is below `0.5`;
sorting only rearranges the filtered list. -/
theorem CurateResults_filters_by_relevance {σ : Type} (rt : Runtime)
    (hsort : rt.SortPermutes) (provider : Provider σ) (topic : String)
    (results : List SearchResult) (w : σ) :
    List.Forall₂ (fun r item => ∃ w0, item = (curateOne rt provider topic r w0).1)
      results (scoredItems rt provider topic results w) ∧
    (CurateResults rt provider topic results w).1.1.Perm
      ((scoredItems rt provider topic results w).filter
        (fun item => F64.ge item.RelevanceScore F64.half)) ∧
    (∀ item ∈ (CurateResults rt provider topic results w).1.1,
      F64.ge item.RelevanceScore F64.half = true ∧
        F64.lt item.RelevanceScore F64.half = false) := by
  have hperm : (CurateResults rt provider topic results w).1.1.Perm
      ((scoredItems rt provider topic results w).filter
        (fun item => F64.ge item.RelevanceScore F64.half)) := by
    rw [CurateResults_eq]
    exact hsort _ _
  refine ⟨?_, hperm, ?_⟩
  · rw [scoredItems_eq]
    exact curateAll_forall₂ rt provider topic results w
  · intro item hitem
    have hmem := (hperm.mem_iff).1 hitem
    have hge : F64.ge item.RelevanceScore F64.half = true := by
      simpa using (List.mem_filter.1 hmem).2
    exact ⟨hge, F64.lt_eq_false_of_ge _ _ hge⟩

/-- C6 (witness): a batch of two candidates scored `0.9` and `0.2` on the
concrete runtime. -/
theorem CurateResults_filters_by_relevance_witness :
    goRuntime.SortPermutes ∧
    (List.Forall₂
        (fun r item => ∃ w0, item = (curateOne goRuntime scriptedProvider "rust-lang" r w0).1)
        [rustCandidate, noLinkFirst]
        (scoredItems goRuntime scriptedProvider "rust-lang" [rustCandidate, noLinkFirst]
          [reply "0.9", reply "X", reply "rust, async", reply "0.2"]) ∧
      (CurateResults goRuntime scriptedProvider "rust-lang" [rustCandidate, noLinkFirst]
          [reply "0.9", reply "X", reply "rust, async", reply "0.2"]).1.1.Perm
        ((scoredItems goRuntime scriptedProvider "rust-lang" [rustCandidate, noLinkFirst]
            [reply "0.9", reply "X", reply "rust, async", reply "0.2"]).filter
          (fun item => F64.ge item.RelevanceScore F64.half)) ∧
      (∀ item ∈ (CurateResults goRuntime scriptedProvider "rust-lang"
          [rustCandidate, noLinkFirst]
          [reply "0.9", reply "X", reply "rust, async", reply "0.2"]).1.1,
        F64.ge item.RelevanceScore F64.half = true ∧
          F64.lt item.RelevanceScore F64.half = false)) :=
  ⟨goRuntime_sortPermutes,
    CurateResults_filters_by_relevance goRuntime goRuntime_sortPermutes scriptedProvider
      "rust-lang" [rustCandidate, noLinkFirst]
      [reply "0.9", reply "X", reply "rust, async", reply "0.2"]⟩

/-- C7: a candidate whose assigned relevance score is exactly `0.5` is retained
in the output of `CurateResults`, and its item has an empty summary and no
tags: only the scoring call is made for it. `w1` is the state of the world
when the candidate's turn comes, after the candidates `before` it. More
generally every item built with score `0.5` is retained, without summary and
without tags. -/
theorem CurateResults_retains_half_unsummarized {σ : Type} (rt : Runtime)
    (hsort : rt.SortPermutes) (provider : Provider σ) (topic : String)
    (before after : List SearchResult) (r : SearchResult) (w w1 : σ)
    (hbefore : (curateLoop rt provider topic [] before w).2 = w1)
    (hscore : assignedScore (ScoreRelevance rt provider topic r.Title r.Snippet w1).1 =
      F64.half) :
    curateOne rt provider topic r w1 =
      ({ itemSkeleton r with RelevanceScore := F64.half },
        (ScoreRelevance rt provider topic r.Title r.Snippet w1).2) ∧
    ({ itemSkeleton r with RelevanceScore := F64.half } : FeedItem) ∈
      (CurateResults rt provider topic (before ++ r :: after) w).1.1 ∧
    ({ itemSkeleton r with RelevanceScore := F64.half } : FeedItem).Summary = "" ∧
    ({ itemSkeleton r with RelevanceScore := F64.half } : FeedItem).Tags = [] ∧
    (∀ item ∈ scoredItems rt provider topic (before ++ r :: after) w,
      item.RelevanceScore = F64.half →
        item ∈ (CurateResults rt provider topic (before ++ r :: after) w).1.1 ∧
          item.Summary = "" ∧ item.Tags = []) := by
  have hgt : F64.gt (assignedScore
      (ScoreRelevance rt provider topic r.Title r.Snippet w1).1) F64.half = false := by
    rw [hscore]; exact F64.gt_half_half
  have hone := curateOne_of_not_gt rt provider topic r w1 hgt
  rw [hscore] at hone
  have hkeep : ∀ item ∈ scoredItems rt provider topic (before ++ r :: after) w,
      item.RelevanceScore = F64.half →
        item ∈ (CurateResults rt provider topic (before ++ r :: after) w).1.1 := by
    intro item hitem hhalf
    rw [CurateResults_eq]
    refine ((hsort _ _).mem_iff).2 (List.mem_filter.2 ⟨hitem, ?_⟩)
    simp [hhalf, F64.ge_half_half]
  have hmem : ({ itemSkeleton r with RelevanceScore := F64.half } : FeedItem) ∈
      scoredItems rt provider topic (before ++ r :: after) w := by
    rw [scoredItems_eq, curateAll_append]
    rw [curateLoop_eq] at hbefore
    simp only at hbefore
    rw [hbefore]
    refine List.mem_append_right _ ?_
    unfold curateAll
    rw [hone]
    exact List.mem_cons_self _ _
  refine ⟨hone, hkeep _ hmem rfl, rfl, rfl, ?_⟩
  intro item hitem hhalf
  refine ⟨hkeep item hitem hhalf, ?_⟩
  rw [scoredItems_eq] at hitem
  obtain ⟨r0, _, w0, h0⟩ := mem_curateAll rt provider topic _ w item hitem
  have hs : assignedScore (ScoreRelevance rt provider topic r0.Title r0.Snippet w0).1 =
      F64.half := by
    rw [← curateOne_score, ← h0, hhalf]
  have hgt0 : F64.gt (assignedScore
      (ScoreRelevance rt provider topic r0.Title r0.Snippet w0).1) F64.half = false := by
    rw [hs]; exact F64.gt_half_half
  rw [curateOne_of_not_gt rt provider topic r0 w0 hgt0] at h0
  rw [h0]
  exact ⟨rfl, rfl⟩

/-- C7 (witness): one candidate scored exactly `0.5` on the concrete runtime;
the summary and tag responses that are on offer are left unread. -/
theorem CurateResults_retains_half_unsummarized_witness :
    (goRuntime.SortPermutes ∧
      (curateLoop goRuntime scriptedProvider "rust-lang" [] []
        [reply "0.5", reply "X", reply "rust, async"]).2 =
          [reply "0.5", reply "X", reply "rust, async"] ∧
      assignedScore (ScoreRelevance goRuntime scriptedProvider "rust-lang"
        rustCandidate.Title rustCandidate.Snippet
        [reply "0.5", reply "X", reply "rust, async"]).1 = F64.half) ∧
    (curateOne goRuntime scriptedProvider "rust-lang" rustCandidate
        [reply "0.5", reply "X", reply "rust, async"] =
      ({ itemSkeleton rustCandidate with RelevanceScore := F64.half },
        (ScoreRelevance goRuntime scriptedProvider "rust-lang" rustCandidate.Title
          rustCandidate.Snippet [reply "0.5", reply "X", reply "rust, async"]).2) ∧
    ({ itemSkeleton rustCandidate with RelevanceScore := F64.half } : FeedItem) ∈
      (CurateResults goRuntime scriptedProvider "rust-lang" ([] ++ rustCandidate :: [])
        [reply "0.5", reply "X", reply "rust, async"]).1.1 ∧
    ({ itemSkeleton rustCandidate with RelevanceScore := F64.half } : FeedItem).Summary = "" ∧
    ({ itemSkeleton rustCandidate with RelevanceScore := F64.half } : FeedItem).Tags = [] ∧
    (∀ item ∈ scoredItems goRuntime scriptedProvider "rust-lang"
        ([] ++ rustCandidate :: []) [reply "0.5", reply "X", reply "rust, async"],
      item.RelevanceScore = F64.half →
        item ∈ (CurateResults goRuntime scriptedProvider "rust-lang"
            ([] ++ rustCandidate :: [])
            [reply "0.5", reply "X", reply "rust, async"]).1.1 ∧
          item.Summary = "" ∧ item.Tags = [])) :=
  ⟨⟨goRuntime_sortPermutes, rfl, rfl⟩,
    CurateResults_retains_half_unsummarized goRuntime goRuntime_sortPermutes scriptedProvider
      "rust-lang" [] [] rustCandidate
      [reply "0.5", reply "X", reply "rust, async"]
      [reply "0.5", reply "X", reply "rust, async"] rfl rfl⟩

/-- C8: a candidate whose relevance score `s` is above `0.5` and whose summary
and tag calls succeed gives, in the output of `CurateResults`, an item with
relevance score `s`, the trimmed summary response as summary and the parsed
tag list as tags. `w1` is the state of the world when the candidate's turn
comes, after the candidates `before` it. -/
theorem CurateResults_summarizes_above_half {σ : Type} (rt : Runtime)
    (hsort : rt.SortPermutes) (provider : Provider σ) (topic : String)
    (before after : List SearchResult) (r : SearchResult) (w w1 w2 w3 w4 : σ) (s : F64)
    (summary tags : CompletionResponse)
    (hbefore : (curateLoop rt provider topic [] before w).2 = w1)
    (hscore : ScoreRelevance rt provider topic r.Title r.Snippet w1 = ((s, none), w2))
    (hgt : F64.gt s F64.half = true)
    (hsum : provider.Complete (summarizeRequest topic r.Title r.Content) w2 =
      (Except.ok summary, w3))
    (htags : provider.Complete (tagsRequest r.Title r.Content) w3 = (Except.ok tags, w4)) :
    ({ itemSkeleton r with
        RelevanceScore := s,
        Summary := TrimSpace summary.Content,
        Tags := parseTags rt tags.Content } : FeedItem) ∈
      (CurateResults rt provider topic (before ++ r :: after) w).1.1 := by
  rw [CurateResults_eq]
  refine ((hsort _ _).mem_iff).2 (List.mem_filter.2 ⟨?_, ?_⟩)
  · rw [scoredItems_eq, curateAll_append]
    rw [curateLoop_eq] at hbefore
    simp only at hbefore
    rw [hbefore]
    refine List.mem_append_right _ ?_
    unfold curateAll
    rw [curateOne_of_gt rt provider topic r w1 w2 w3 w4 s summary tags hscore hgt hsum htags]
    exact List.mem_cons_self _ _
  · simpa using F64.ge_of_gt _ _ hgt

/-- C8 (witness): one candidate scored `0.9`, with summary response "X" and
tag response "rust, async", gives exactly one item, with score `0.9`, summary
"X" and tags "rust" and "async". -/
theorem CurateResults_summarizes_above_half_witness :
    (goRuntime.SortPermutes ∧
      (curateLoop goRuntime scriptedProvider "rust-lang" [] []
        [reply "0.9", reply "X", reply "rust, async"]).2 =
          [reply "0.9", reply "X", reply "rust, async"] ∧
      ScoreRelevance goRuntime scriptedProvider "rust-lang" rustCandidate.Title
        rustCandidate.Snippet [reply "0.9", reply "X", reply "rust, async"] =
          ((F64.lit09, none), [reply "X", reply "rust, async"]) ∧
      F64.gt F64.lit09 F64.half = true ∧
      scriptedProvider.Complete
        (summarizeRequest "rust-lang" rustCandidate.Title rustCandidate.Content)
        [reply "X", reply "rust, async"] =
          (Except.ok { Content := "X", FinishReason := "stop", Usage := ⟨0, 0, 0⟩ },
            [reply "rust, async"]) ∧
      scriptedProvider.Complete (tagsRequest rustCandidate.Title rustCandidate.Content)
        [reply "rust, async"] =
          (Except.ok { Content := "rust, async", FinishReason := "stop", Usage := ⟨0, 0, 0⟩ },
            [])) ∧
    ({ itemSkeleton rustCandidate with
        RelevanceScore := F64.lit09,
        Summary := TrimSpace "X",
        Tags := parseTags goRuntime "rust, async" } : FeedItem) ∈
      (CurateResults goRuntime scriptedProvider "rust-lang" ([] ++ rustCandidate :: [])
        [reply "0.9", reply "X", reply "rust, async"]).1.1 ∧
    (CurateResults goRuntime scriptedProvider "rust-lang" [rustCandidate]
        [reply "0.9", reply "X", reply "rust, async"]).1.1 =
      [{ itemSkeleton rustCandidate with
          RelevanceScore := F64.lit09, Summary := "X", Tags := ["rust", "async"] }] :=
  ⟨⟨goRuntime_sortPermutes, rfl, rfl, by decide, rfl, rfl⟩,
    CurateResults_summarizes_above_half goRuntime goRuntime_sortPermutes scriptedProvider
      "rust-lang" [] [] rustCandidate
      [reply "0.9", reply "X", reply "rust, async"]
      [reply "0.9", reply "X", reply "rust, async"]
      [reply "X", reply "rust, async"] [reply "rust, async"] [] F64.lit09
      { Content := "X", FinishReason := "stop", Usage := ⟨0, 0, 0⟩ }
      { Content := "rust, async", FinishReason := "stop", Usage := ⟨0, 0, 0⟩ }
      rfl rfl (by decide) rfl rfl,
    rfl⟩

/-- C9: when every language-model call fails, `CurateResults` returns no
error and one item per candidate, each the candidate's skeleton with relevance
score exactly `0.5`. -/
theorem CurateResults_fail_open {σ : Type} (rt : Runtime) (hsort : rt.SortPermutes)
    (provider : Provider σ) (topic : String) (results : List SearchResult) (w : σ)
    (hfail : ∀ (req : CompletionRequest) (w0 : σ),
      ∃ err, (provider.Complete req w0).1 = Except.error err) :
    (CurateResults rt provider topic results w).1.2 = none ∧
    (CurateResults rt provider topic results w).1.1.length = results.length ∧
    (∀ item ∈ (CurateResults rt provider topic results w).1.1,
      item.RelevanceScore = F64.half) ∧
    (CurateResults rt provider topic results w).1.1.Perm
      (results.map (fun r => { itemSkeleton r with RelevanceScore := F64.half })) := by
  have hall : ∀ (rs : List SearchResult) (w0 : σ),
      (curateAll rt provider topic rs w0).1 =
        rs.map (fun r => { itemSkeleton r with RelevanceScore := F64.half }) := by
    intro rs
    induction rs with
    | nil => intro w0; simp [curateAll]
    | cons r rest ih =>
      intro w0
      obtain ⟨err, herr⟩ := hfail (scoreRequest topic r.Title r.Snippet) w0
      have hs := assignedScore_of_call_failure rt provider topic r.Title r.Snippet w0 err herr
      have hgt : F64.gt (assignedScore
          (ScoreRelevance rt provider topic r.Title r.Snippet w0).1) F64.half = false := by
        rw [hs]; exact F64.gt_half_half
      unfold curateAll
      rw [ih, curateOne_of_not_gt rt provider topic r w0 hgt, hs]
      simp
  have hperm : (CurateResults rt provider topic results w).1.1.Perm
      (results.map (fun r => { itemSkeleton r with RelevanceScore := F64.half })) := by
    rw [CurateResults_eq, scoredItems_eq, hall]
    refine (hsort _ _).trans ?_
    rw [List.filter_eq_self.2]
    intro item hitem
    obtain ⟨r, _, hr⟩ := List.mem_map.1 hitem
    subst hr
    simpa using F64.ge_half_half
  refine ⟨?_, ?_, ?_, hperm⟩
  · rw [CurateResults_eq]
  · rw [hperm.length_eq, List.length_map]
  · intro item hitem
    obtain ⟨r, _, hr⟩ := List.mem_map.1 ((hperm.mem_iff).1 hitem)
    subst hr
    rfl

/-- C9 (witness): two candidates curated against a language model whose
every call fails. -/
theorem CurateResults_fail_open_witness :
    (goRuntime.SortPermutes ∧
      ∀ (req : CompletionRequest) (w0 : Unit),
        ∃ err, (failingProvider.Complete req w0).1 = Except.error err) ∧
    ((CurateResults goRuntime failingProvider "rust-lang" [rustCandidate, noLinkFirst]
        ()).1.2 = none ∧
      (CurateResults goRuntime failingProvider "rust-lang" [rustCandidate, noLinkFirst]
        ()).1.1.length = [rustCandidate, noLinkFirst].length ∧
      (∀ item ∈ (CurateResults goRuntime failingProvider "rust-lang"
          [rustCandidate, noLinkFirst] ()).1.1,
        item.RelevanceScore = F64.half) ∧
      (CurateResults goRuntime failingProvider "rust-lang" [rustCandidate, noLinkFirst]
        ()).1.1.Perm
          ([rustCandidate, noLinkFirst].map
            (fun r => { itemSkeleton r with RelevanceScore := F64.half }))) :=
  ⟨⟨goRuntime_sortPermutes, fun _ _ => ⟨"unavailable", rfl⟩⟩,
    CurateResults_fail_open goRuntime goRuntime_sortPermutes failingProvider "rust-lang"
      [rustCandidate, noLinkFirst] () (fun _ _ => ⟨"unavailable", rfl⟩)⟩

/-- Outside the NaN case the clamp of `ScoreRelevance` works: the score it
returns is NaN or lies in `[0.0, 1.0]`. -/
theorem ScoreRelevance_nan_or_in_unit_interval {σ : Type} (rt : Runtime)
    (provider : Provider σ) (topic title snippet : String) (w : σ) :
    (ScoreRelevance rt provider topic title snippet w).1.1 = F64.nan ∨
      F64.inUnitInterval (ScoreRelevance rt provider topic title snippet w).1.1 = true := by
  unfold ScoreRelevance
  rcases provider.Complete (scoreRequest topic title snippet) w with ⟨res, w1⟩
  cases res with
  | error err => right; simp [F64.inUnitInterval, F64.le, F64.zero, F64.one]
  | ok resp =>
    simp only
    rcases rt.ParseFloat (TrimSpace resp.Content) with ⟨score, perr⟩
    cases perr with
    | some e =>
      right
      simp [F64.inUnitInterval, F64.le, F64.zero, F64.one, F64.half]
      norm_num
    | none =>
      cases score with
      | nan => left; simp [F64.lt, F64.gt, F64.zero, F64.one]
      | negInf => right; simp [F64.lt, F64.gt, F64.inUnitInterval, F64.le, F64.zero, F64.one]
      | posInf => right; simp [F64.lt, F64.gt, F64.inUnitInterval, F64.le, F64.zero, F64.one]
      | fin q =>
        right
        simp only [F64.lt, F64.gt, F64.zero, F64.one]
        by_cases h0 : q < 0
        · simp [h0, F64.inUnitInterval, F64.le, F64.zero, F64.one]
        · by_cases h1 : 1 < q
          · simp [h0, h1, F64.inUnitInterval, F64.le, F64.zero, F64.one]
          · simp only [h0, h1, decide_False, Bool.false_eq_true, ↓reduceIte]
            simp only [F64.inUnitInterval, F64.le, F64.zero, F64.one, Bool.and_eq_true,
              decide_eq_true_eq]
            exact ⟨not_lt.1 h0, not_lt.1 h1⟩

/-- C10 (evaluation at the failing input): when the language model answers
"NaN" the parser accepts it, neither test of the clamp fires, and
`ScoreRelevance` returns NaN without error, a score outside `[0.0, 1.0]`. -/
theorem ScoreRelevance_returns_NaN :
    (ScoreRelevance goRuntime scriptedProvider "rust-lang" "Async Rust" "async in rust"
      [reply "NaN"]).1 = (F64.nan, none) ∧
    F64.inUnitInterval F64.nan = false ∧
    F64.lt F64.nan F64.zero = false ∧ F64.gt F64.nan F64.one = false := by
  decide

/-! ## Scorer, truncation and provenance: theorems -/

/-- C11 (as amended): `ScoreRelevance` returns the neutral score `0.5` and no
error when the trimmed response text does not parse as a floating point
number; when the language-model call fails it returns the score `0` together
with the error of the call, and it is `CurateResults`, its caller, that then
assigns the score `0.5` and itself returns no error. -/
theorem ScoreRelevance_error_handling {σ : Type} (rt : Runtime) (provider : Provider σ)
    (topic title snippet : String) (results : List SearchResult) (w : σ) :
    (∀ (err : Error) (w1 : σ),
      provider.Complete (scoreRequest topic title snippet) w = (Except.error err, w1) →
        ScoreRelevance rt provider topic title snippet w = ((F64.zero, some err), w1) ∧
          assignedScore (ScoreRelevance rt provider topic title snippet w).1 = F64.half) ∧
    (∀ (resp : CompletionResponse) (w1 : σ) (v : F64) (perr : Error),
      provider.Complete (scoreRequest topic title snippet) w = (Except.ok resp, w1) →
        rt.ParseFloat (TrimSpace resp.Content) = (v, some perr) →
          ScoreRelevance rt provider topic title snippet w = ((F64.half, none), w1)) ∧
    (CurateResults rt provider topic results w).1.2 = none := by
  refine ⟨?_, ?_, ?_⟩
  · intro err w1 h
    have hs : ScoreRelevance rt provider topic title snippet w = ((F64.zero, some err), w1) := by
      unfold ScoreRelevance
      rw [h]
    refine ⟨hs, ?_⟩
    rw [hs]
    simp [assignedScore]
  · intro resp w1 v perr h hp
    unfold ScoreRelevance
    rw [h]
    simp only
    rw [hp]
  · rw [CurateResults_eq]

/-- C11 (witness): a failing call and an unparseable answer, on the concrete
runtime. -/
theorem ScoreRelevance_error_handling_witness :
    (ScoreRelevance goRuntime failingProvider "rust-lang" "Async Rust" "async in rust" () =
        ((F64.zero, some "unavailable"), ()) ∧
      assignedScore (ScoreRelevance goRuntime failingProvider "rust-lang" "Async Rust"
        "async in rust" ()).1 = F64.half) ∧
    ScoreRelevance goRuntime scriptedProvider "rust-lang" "Async Rust" "async in rust"
        [reply "high"] = ((F64.half, none), []) :=
  ⟨(ScoreRelevance_error_handling goRuntime failingProvider "rust-lang" "Async Rust"
      "async in rust" [] ()).1 "unavailable" () rfl,
    (ScoreRelevance_error_handling goRuntime scriptedProvider "rust-lang" "Async Rust"
      "async in rust" [] [reply "high"]).2.1
      { Content := "high", FinishReason := "stop", Usage := ⟨0, 0, 0⟩ } [] F64.zero
      "invalid syntax" rfl rfl⟩

/-- C11 (counterexample): with a language model whose call fails,
`ScoreRelevance` returns the score `0` and the error, not `0.5` and no
error. -/
theorem ScoreRelevance_propagates_call_error :
    (ScoreRelevance goRuntime failingProvider "rust-lang" "Async Rust" "async in rust"
      ()).1 = (F64.zero, some "unavailable") ∧
    (ScoreRelevance goRuntime failingProvider "rust-lang" "Async Rust" "async in rust"
      ()).1 ≠ (F64.half, none) := by
  decide

/-- C15: the content of the item built from a candidate is `truncateContent`
of the candidate's content at 2000: a prefix of it, of length the smaller of
2000 and its length, the whole content when that is at most 2000 bytes long
and its first 2000 bytes otherwise; `truncateContent` is idempotent for a
fixed limit. -/
theorem curateOne_content_truncated {σ : Type} (rt : Runtime) (provider : Provider σ)
    (topic : String) (r : SearchResult) (w : σ) (content : List UInt8) (maxLen : Nat) :
    (curateOne rt provider topic r w).1.Content =
      truncateContent r.Content.toUTF8.data.toList 2000 ∧
    (curateOne rt provider topic r w).1.Content <+: r.Content.toUTF8.data.toList ∧
    (curateOne rt provider topic r w).1.Content.length =
      min r.Content.toUTF8.data.toList.length 2000 ∧
    (curateOne rt provider topic r w).1.Content =
      (if r.Content.toUTF8.data.toList.length ≤ 2000 then r.Content.toUTF8.data.toList
       else r.Content.toUTF8.data.toList.take 2000) ∧
    truncateContent content maxLen <+: content ∧
    (truncateContent content maxLen).length = min content.length maxLen ∧
    truncateContent (truncateContent content maxLen) maxLen = truncateContent content maxLen := by
  have hpre : ∀ (c : List UInt8) (n : Nat), truncateContent c n <+: c := by
    intro c n
    unfold truncateContent
    split
    · exact List.prefix_refl _
    · exact List.take_prefix _ _
  have hlen : ∀ (c : List UInt8) (n : Nat), (truncateContent c n).length = min c.length n := by
    intro c n
    unfold truncateContent
    split
    · omega
    · rw [List.length_take]; omega
  have hcontent := (curateOne_fields rt provider topic r w).2.2.2.2
  refine ⟨hcontent, ?_, ?_, ?_, hpre _ _, hlen _ _, ?_⟩
  · rw [hcontent]; exact hpre _ _
  · rw [hcontent]; exact hlen _ _
  · rw [hcontent]; rfl
  · have h := hlen content maxLen
    have hle : (truncateContent content maxLen).length ≤ maxLen := by omega
    have hidem : ∀ (c : List UInt8), c.length ≤ maxLen → truncateContent c maxLen = c := by
      intro c hc
      unfold truncateContent
      rw [if_pos hc]
    exact hidem _ hle

/-- C16: the items `CurateResults` builds carry, position by position, the
title, source name, source URL and publish time of their own candidate; the
output is a rearrangement of the items built for a subsequence of the
candidates, so every output item carries the fields of one candidate, and the
output is never longer than the candidate list. -/
theorem CurateResults_items_from_own_candidates {σ : Type} (rt : Runtime)
    (hsort : rt.SortPermutes) (provider : Provider σ) (topic : String)
    (results : List SearchResult) (w : σ) :
    List.Forall₂
      (fun r item => item.Title = r.Title ∧ item.SourceName = r.Source ∧
        item.SourceURL = r.URL ∧ item.PublishedAt = some r.PublishedAt)
      results (scoredItems rt provider topic results w) ∧
    (∃ kept : List SearchResult, ∃ items : List FeedItem,
      kept.Sublist results ∧
      List.Forall₂
        (fun r item => item.Title = r.Title ∧ item.SourceName = r.Source ∧
          item.SourceURL = r.URL ∧ item.PublishedAt = some r.PublishedAt)
        kept items ∧
      (CurateResults rt provider topic results w).1.1.Perm items) ∧
    (∀ item ∈ (CurateResults rt provider topic results w).1.1,
      ∃ r ∈ results, item.Title = r.Title ∧ item.SourceName = r.Source ∧
        item.SourceURL = r.URL ∧ item.PublishedAt = some r.PublishedAt) ∧
    (CurateResults rt provider topic results w).1.1.length ≤ results.length := by
  have hall : List.Forall₂
      (fun r item => item.Title = r.Title ∧ item.SourceName = r.Source ∧
        item.SourceURL = r.URL ∧ item.PublishedAt = some r.PublishedAt)
      results (scoredItems rt provider topic results w) := by
    rw [scoredItems_eq]
    exact curateAll_fields rt provider topic results w
  have hperm : (CurateResults rt provider topic results w).1.1.Perm
      ((scoredItems rt provider topic results w).filter
        (fun item => F64.ge item.RelevanceScore F64.half)) := by
    rw [CurateResults_eq]
    exact hsort _ _
  obtain ⟨kept, hsub, hrel⟩ := forall₂_filter_right _
    (fun item => F64.ge item.RelevanceScore F64.half) _ _ hall
  refine ⟨hall, ⟨kept, _, hsub, hrel, hperm⟩, ?_, ?_⟩
  · intro item hitem
    have hmem := (hperm.mem_iff).1 hitem
    obtain ⟨r, hr, hfields⟩ := forall₂_mem_right _ _ _ hrel item hmem
    exact ⟨r, hsub.subset hr, hfields⟩
  · rw [hperm.length_eq, ← hrel.length_eq]
    exact hsub.length_le

/-- C16 (witness): two candidates, one retained, on the concrete runtime. -/
theorem CurateResults_items_from_own_candidates_witness :
    goRuntime.SortPermutes ∧
    (∀ item ∈ (CurateResults goRuntime scriptedProvider "rust-lang"
        [rustCandidate, noLinkFirst]
        [reply "0.9", reply "X", reply "rust, async", reply "0.2"]).1.1,
      ∃ r ∈ [rustCandidate, noLinkFirst], item.Title = r.Title ∧ item.SourceName = r.Source ∧
        item.SourceURL = r.URL ∧ item.PublishedAt = some r.PublishedAt) ∧
    (CurateResults goRuntime scriptedProvider "rust-lang" [rustCandidate, noLinkFirst]
        [reply "0.9", reply "X", reply "rust, async", reply "0.2"]).1.1.length ≤
      [rustCandidate, noLinkFirst].length :=
  ⟨goRuntime_sortPermutes,
    (CurateResults_items_from_own_candidates goRuntime goRuntime_sortPermutes
      scriptedProvider "rust-lang" [rustCandidate, noLinkFirst]
      [reply "0.9", reply "X", reply "rust, async", reply "0.2"]).2.2⟩

/-- C18: a candidate whose relevance score `s` is above `0.5` is in the output
of `CurateResults` with its score whatever the outcome of the summary call and
of the tag call; a field whose call failed is left empty (empty summary, no
tags), and `CurateResults` returns no error. `w1` is the state of the world
when the candidate's turn comes, after the candidates `before` it. -/
theorem CurateResults_tolerates_summary_and_tag_failure {σ : Type} (rt : Runtime)
    (hsort : rt.SortPermutes) (provider : Provider σ) (topic : String)
    (before after : List SearchResult) (r : SearchResult) (w w1 w2 w3 w4 : σ) (s : F64)
    (summary tags : Except Error CompletionResponse)
    (hbefore : (curateLoop rt provider topic [] before w).2 = w1)
    (hscore : ScoreRelevance rt provider topic r.Title r.Snippet w1 = ((s, none), w2))
    (hgt : F64.gt s F64.half = true)
    (hsum : provider.Complete (summarizeRequest topic r.Title r.Content) w2 = (summary, w3))
    (htags : provider.Complete (tagsRequest r.Title r.Content) w3 = (tags, w4)) :
    ({ itemSkeleton r with
        RelevanceScore := s,
        Summary :=
          (match summary with
           | Except.ok resp => TrimSpace resp.Content
           | Except.error _ => ""),
        Tags :=
          (match tags with
           | Except.ok resp => parseTags rt resp.Content
           | Except.error _ => []) } : FeedItem) ∈
      (CurateResults rt provider topic (before ++ r :: after) w).1.1 ∧
    (CurateResults rt provider topic (before ++ r :: after) w).1.2 = none := by
  refine ⟨?_, by rw [CurateResults_eq]⟩
  rw [CurateResults_eq]
  refine ((hsort _ _).mem_iff).2 (List.mem_filter.2 ⟨?_, ?_⟩)
  · rw [scoredItems_eq, curateAll_append]
    rw [curateLoop_eq] at hbefore
    simp only at hbefore
    rw [hbefore]
    refine List.mem_append_right _ ?_
    unfold curateAll
    have hone : (curateOne rt provider topic r w1).1 =
        { itemSkeleton r with
          RelevanceScore := s,
          Summary :=
            (match summary with
             | Except.ok resp => TrimSpace resp.Content
             | Except.error _ => ""),
          Tags :=
            (match tags with
             | Except.ok resp => parseTags rt resp.Content
             | Except.error _ => []) } := by
      rw [curateOne_eq, hscore]
      have hs : assignedScore (s, (none : Option Error)) = s := by simp [assignedScore]
      simp only [hs, hgt, ↓reduceIte]
      cases summary <;> cases tags <;> simp [Summarize, ExtractTags, hsum, htags]
    rw [hone]
    exact List.mem_cons_self _ _
  · simpa using F64.ge_of_gt _ _ hgt

/-- C18 (witness): a candidate scored `0.9` whose summary call fails and whose
tag call succeeds is returned with an empty summary and its tags. -/
theorem CurateResults_tolerates_summary_and_tag_failure_witness :
    (goRuntime.SortPermutes ∧
      (curateLoop goRuntime scriptedProvider "rust-lang" [] []
        [reply "0.9", Except.error "timeout", reply "rust, async"]).2 =
          [reply "0.9", Except.error "timeout", reply "rust, async"] ∧
      ScoreRelevance goRuntime scriptedProvider "rust-lang" rustCandidate.Title
        rustCandidate.Snippet [reply "0.9", Except.error "timeout", reply "rust, async"] =
          ((F64.lit09, none), [Except.error "timeout", reply "rust, async"]) ∧
      F64.gt F64.lit09 F64.half = true ∧
      scriptedProvider.Complete
        (summarizeRequest "rust-lang" rustCandidate.Title rustCandidate.Content)
        [Except.error "timeout", reply "rust, async"] =
          (Except.error "timeout", [reply "rust, async"]) ∧
      scriptedProvider.Complete (tagsRequest rustCandidate.Title rustCandidate.Content)
        [reply "rust, async"] = (reply "rust, async", [])) ∧
    (({ itemSkeleton rustCandidate with
        RelevanceScore := F64.lit09,
        Summary := "",
        Tags := parseTags goRuntime "rust, async" } : FeedItem) ∈
      (CurateResults goRuntime scriptedProvider "rust-lang" ([] ++ rustCandidate :: [])
        [reply "0.9", Except.error "timeout", reply "rust, async"]).1.1 ∧
    (CurateResults goRuntime scriptedProvider "rust-lang" ([] ++ rustCandidate :: [])
        [reply "0.9", Except.error "timeout", reply "rust, async"]).1.2 = none) :=
  ⟨⟨goRuntime_sortPermutes, rfl, rfl, by decide, rfl, rfl⟩,
    CurateResults_tolerates_summary_and_tag_failure goRuntime goRuntime_sortPermutes
      scriptedProvider "rust-lang" [] [] rustCandidate
      [reply "0.9", Except.error "timeout", reply "rust, async"]
      [reply "0.9", Except.error "timeout", reply "rust, async"]
      [Except.error "timeout", reply "rust, async"] [reply "rust, async"] [] F64.lit09
      (Except.error "timeout") (reply "rust, async")
      rfl rfl (by decide) rfl rfl⟩

/-! ## Tags: theorems -/

/-- C17 (as amended): the tags `ExtractTags` returns for a successful call
are, in the order of the comma-separated fragments of the trimmed response,
the fragments lower-cased, trimmed and stripped of one leading `#`, those that
are then empty being dropped; every tag is non-empty, does not end with white
space and holds no comma, and it begins with white space only when its trimmed
fragment began with `#` (the Unicode tables map no rune above ASCII to a
comma). -/
theorem ExtractTags_tags {σ : Type} (rt : Runtime)
    (hlower : ∀ c : Char, 128 ≤ c.toNat → rt.unicodeToLower c ≠ ',')
    (provider : Provider σ) (title body : String) (w : σ) (content : String) :
    (∀ (resp : CompletionResponse) (w1 : σ),
      provider.Complete (tagsRequest title body) w = (Except.ok resp, w1) →
        ExtractTags rt provider title body w = ((parseTags rt resp.Content, none), w1)) ∧
    parseTags rt content =
      ((SplitComma (TrimSpace content)).map (cleanTag rt)).filter
        (fun tag => decide (tag ≠ "")) ∧
    (∀ tag ∈ parseTags rt content,
      tag ≠ "" ∧ endsWithSpace tag = false ∧ ',' ∉ tag.data ∧
      (startsWithSpace tag = true →
        ∃ fragment ∈ SplitComma (TrimSpace content),
          (TrimSpace (ToLower rt fragment)).data = '#' :: tag.data)) := by
  refine ⟨?_, parseTags_eq rt content, ?_⟩
  · intro resp w1 h
    unfold ExtractTags
    rw [h]
  · intro tag htag
    rw [parseTags_eq] at htag
    obtain ⟨hmem, hne⟩ := List.mem_filter.1 htag
    have hne' : tag ≠ "" := by simpa using hne
    obtain ⟨fragment, hfrag, hclean⟩ := List.mem_map.1 hmem
    have hfrag_comma : ',' ∉ fragment.data := by
      unfold SplitComma at hfrag
      obtain ⟨piece, hpiece, rfl⟩ := List.mem_map.1 hfrag
      exact splitComma_no_comma _ piece hpiece
    have hlow_comma : ',' ∉ (TrimSpace (ToLower rt fragment)).data := fun hc =>
      ToLower_no_comma rt hlower fragment hfrag_comma (TrimSpace_subset _ _ hc)
    -- the tag is the trimmed fragment, or its tail after a leading `#`
    have hcases : tag = TrimSpace (ToLower rt fragment) ∧
          (∀ rest, (TrimSpace (ToLower rt fragment)).data ≠ '#' :: rest) ∨
        (TrimSpace (ToLower rt fragment)).data = '#' :: tag.data := by
      rw [← hclean]
      unfold cleanTag TrimPrefixHash
      split
      · rename_i rest hrest
        right; exact hrest
      · rename_i hno
        left
        exact ⟨rfl, fun rest hrest => hno rest hrest⟩
    refine ⟨hne', ?_, ?_, ?_⟩
    · -- no trailing white space
      unfold endsWithSpace
      cases hlast : tag.data.getLast? with
      | none => rfl
      | some c =>
        simp only
        rcases hcases with ⟨heq, _⟩ | hhash
        · rw [heq] at hlast
          exact TrimSpace_getLast _ c hlast
        · have hdata : tag.data ≠ [] := by
            intro h0; rw [h0] at hlast; simp at hlast
          have : (TrimSpace (ToLower rt fragment)).data.getLast? = some c := by
            rw [hhash]
            cases hd : tag.data with
            | nil => exact absurd hd hdata
            | cons c0 rest0 =>
              rw [hd] at hlast
              rw [List.getLast?_cons_cons]
              exact hlast
          exact TrimSpace_getLast _ c this
    · -- no comma
      rcases hcases with ⟨heq, _⟩ | hhash
      · rw [heq]; exact hlow_comma
      · intro hc
        exact hlow_comma (by rw [hhash]; exact List.mem_cons_of_mem _ hc)
    · -- leading white space only after a `#`
      intro hstart
      rcases hcases with ⟨heq, _⟩ | hhash
      · exfalso
        unfold startsWithSpace at hstart
        cases hd : tag.data with
        | nil => rw [hd] at hstart; simp at hstart
        | cons c rest =>
          rw [hd] at hstart
          simp only [List.head?_cons] at hstart
          rw [heq] at hd
          rw [TrimSpace_head _ c rest hd] at hstart
          exact Bool.false_ne_true hstart
      · exact ⟨fragment, hfrag, hhash⟩

/-- C17 (witness): the tags read from the response "Rust, #Async ,, # x" on
the concrete runtime. -/
theorem ExtractTags_tags_witness :
    (∀ c : Char, 128 ≤ c.toNat → goRuntime.unicodeToLower c ≠ ',') ∧
    parseTags goRuntime " Rust, #Async ,, # x" = ["rust", "async", " x"] ∧
    (∀ tag ∈ parseTags goRuntime " Rust, #Async ,, # x",
      tag ≠ "" ∧ endsWithSpace tag = false ∧ ',' ∉ tag.data ∧
      (startsWithSpace tag = true →
        ∃ fragment ∈ SplitComma (TrimSpace " Rust, #Async ,, # x"),
          (TrimSpace (ToLower goRuntime fragment)).data = '#' :: tag.data)) :=
  ⟨fun c hc h => by
      have h44 : c.toNat = 44 := by
        have : goRuntime.unicodeToLower c = c := rfl
        rw [this] at h; rw [h]; rfl
      omega,
    by decide,
    (ExtractTags_tags goRuntime
      (fun c hc h => by
        have h44 : c.toNat = 44 := by
          have : goRuntime.unicodeToLower c = c := rfl
          rw [this] at h; rw [h]; rfl
        omega)
      scriptedProvider "Async Rust" "Futures and executors." []
      " Rust, #Async ,, # x").2.2⟩

/-- C17 (counterexample): for the response "rust, # async" the second tag
returned by `ExtractTags` begins with a space. -/
theorem ExtractTags_tag_with_leading_space :
    (ExtractTags goRuntime scriptedProvider "Async Rust" "Futures and executors."
      [reply "rust, # async"]).1 = (["rust", " async"], none) ∧
    " async" ∈ (ExtractTags goRuntime scriptedProvider "Async Rust" "Futures and executors."
      [reply "rust, # async"]).1.1 ∧
    startsWithSpace " async" = true := by
  decide

/-! ## Ordering: theorems -/

/-- C12: for two candidates with the same relevance score `s >= 0.5` and
different publish times, `CurateResults` on the two-element list returns the
item of the more recently published candidate first, whichever of the two
comes first in the input (`sort.Slice` sorting a short slice by insertion, and
the bonus `0.3` raising the weighted score). -/
theorem CurateResults_recent_first {σ : Type} (rt : Runtime)
    (hshort : rt.SortsShortByInsertion) (provider : Provider σ) (topic : String)
    (a b : SearchResult) (w : σ) (s : F64)
    (hbonus : rt.BonusRaises s)
    (hscoreA : assignedScore (ScoreRelevance rt provider topic a.Title a.Snippet w).1 = s)
    (hscoreB : assignedScore (ScoreRelevance rt provider topic b.Title b.Snippet
      (curateOne rt provider topic a w).2).1 = s)
    (hge : F64.ge s F64.half = true)
    (hne : a.PublishedAt ≠ b.PublishedAt) :
    (CurateResults rt provider topic [a, b] w).1.1 =
      (if a.PublishedAt.After b.PublishedAt then
        [(curateOne rt provider topic a w).1,
          (curateOne rt provider topic b (curateOne rt provider topic a w).2).1]
       else
        [(curateOne rt provider topic b (curateOne rt provider topic a w).2).1,
          (curateOne rt provider topic a w).1]) ∧
    (curateOne rt provider topic a w).1.PublishedAt = some a.PublishedAt ∧
    (curateOne rt provider topic b (curateOne rt provider topic a w).2).1.PublishedAt =
      some b.PublishedAt ∧
    (a.PublishedAt.After b.PublishedAt = false → b.PublishedAt.After a.PublishedAt = true) := by
  have hfa := curateOne_fields rt provider topic a w
  have hfb := curateOne_fields rt provider topic b (curateOne rt provider topic a w).2
  have hsa : (curateOne rt provider topic a w).1.RelevanceScore = s := by
    rw [curateOne_score, hscoreA]
  have hsb : (curateOne rt provider topic b
      (curateOne rt provider topic a w).2).1.RelevanceScore = s := by
    rw [curateOne_score, hscoreB]
  have hafter := Time.After_of_ne a.PublishedAt b.PublishedAt hne
  refine ⟨?_, hfa.2.2.2.1, hfb.2.2.2.1, ?_⟩
  · rw [CurateResults_eq, scoredItems_eq]
    simp only [curateAll]
    rw [List.filter_cons_of_pos (by simpa [hsa] using hge),
      List.filter_cons_of_pos (by simpa [hsb] using hge), List.filter_nil]
    rw [hshort _ _ (by simp), insertionSortLessFunc_pair]
    rw [lessByRelevanceAndRecency_equal_score rt s hbonus _ _ b.PublishedAt a.PublishedAt
      hsb hsa hfb.2.2.2.1 hfa.2.2.2.1, hafter]
    cases a.PublishedAt.After b.PublishedAt <;> simp
  · intro h
    rw [hafter, h]
    rfl

set_option maxRecDepth 8000 in
/-- C12 (witness): two feed entries scored `0.6`, published ten days apart, in
both input orders; the recent one comes first each time. -/
theorem CurateResults_recent_first_witness :
    (goRuntime.SortsShortByInsertion ∧ goRuntime.BonusRaises F64.lit06 ∧
      assignedScore (ScoreRelevance goRuntime scriptedProvider "rust-lang"
        olderCandidate.Title olderCandidate.Snippet
        [reply "0.6", reply "S", reply "t", reply "0.6", reply "S", reply "t"]).1 =
          F64.lit06 ∧
      assignedScore (ScoreRelevance goRuntime scriptedProvider "rust-lang"
        recentCandidate.Title recentCandidate.Snippet
        (curateOne goRuntime scriptedProvider "rust-lang" olderCandidate
          [reply "0.6", reply "S", reply "t", reply "0.6", reply "S", reply "t"]).2).1 =
          F64.lit06 ∧
      F64.ge F64.lit06 F64.half = true ∧
      olderCandidate.PublishedAt ≠ recentCandidate.PublishedAt) ∧
    ((CurateResults goRuntime scriptedProvider "rust-lang" [olderCandidate, recentCandidate]
        [reply "0.6", reply "S", reply "t", reply "0.6", reply "S", reply "t"]).1.1.map
          (fun item => item.Title) = ["Recent", "Older"] ∧
      (CurateResults goRuntime scriptedProvider "rust-lang" [recentCandidate, olderCandidate]
        [reply "0.6", reply "S", reply "t", reply "0.6", reply "S", reply "t"]).1.1.map
          (fun item => item.Title) = ["Recent", "Older"]) :=
  have hshort := goRuntime_sortsShortByInsertion
  have hbonus : goRuntime.BonusRaises F64.lit06 := by
    unfold Runtime.BonusRaises
    decide
  have hne : olderCandidate.PublishedAt ≠ recentCandidate.PublishedAt := by decide
  ⟨⟨hshort, hbonus, rfl, rfl, by decide, hne⟩,
    by
      rw [(CurateResults_recent_first goRuntime hshort scriptedProvider "rust-lang"
        olderCandidate recentCandidate
        [reply "0.6", reply "S", reply "t", reply "0.6", reply "S", reply "t"]
        F64.lit06 hbonus rfl rfl (by decide) hne).1]
      rfl,
    by
      rw [(CurateResults_recent_first goRuntime hshort scriptedProvider "rust-lang"
        recentCandidate olderCandidate
        [reply "0.6", reply "S", reply "t", reply "0.6", reply "S", reply "t"]
        F64.lit06 hbonus rfl rfl (by decide) (fun h => hne h.symm)).1]
      rfl⟩

set_option maxRecDepth 8000 in
/-- C13 (evaluation at the failing input): two search results without publish
time, scored `0.5` and `0.9` in that order, come out of `CurateResults` in the
same order, the item with the higher score after the one with the lower score:
both items carry a non-nil `PublishedAt` (the zero time), so the comparison
adds the recency bonus to the second operand. -/
theorem CurateResults_zero_times_not_by_score :
    (CurateResults goRuntime scriptedProvider "rust-lang" [plainCandidate, rustCandidate]
        [reply "0.5", reply "0.9", reply "X", reply "rust, async"]).1.1.map
          (fun item => (item.Title, item.RelevanceScore, item.PublishedAt)) =
      [("Plain", F64.half, some ⟨0⟩), ("Async Rust", F64.lit09, some ⟨0⟩)] ∧
    F64.lt F64.half F64.lit09 = true ∧
    lessByRelevanceAndRecency goRuntime
      { itemSkeleton rustCandidate with RelevanceScore := F64.lit09 }
      { itemSkeleton plainCandidate with RelevanceScore := F64.half } = false := by
  decide

/-- C14 (amended): when at most twelve items pass the relevance filter, two of
them that have the same score and the zero publish time come out of
`CurateResults` in the order in which the loop built them, which is the order
of their candidates (`sort.Slice` sorting a short slice by insertion, and the
bonus `0.3` raising the weighted score). -/
theorem CurateResults_stable_when_short {σ : Type} (rt : Runtime)
    (hshort : rt.SortsShortByInsertion) (provider : Provider σ) (topic : String)
    (results : List SearchResult) (w : σ) (s : F64) (p q : FeedItem)
    (hbonus : rt.BonusRaises s)
    (hlen : ((scoredItems rt provider topic results w).filter
      (fun item => F64.ge item.RelevanceScore F64.half)).length ≤ 12)
    (hp : p.RelevanceScore = s) (hq : q.RelevanceScore = s)
    (hge : F64.ge s F64.half = true)
    (hpt : p.PublishedAt = some ⟨0⟩) (hqt : q.PublishedAt = some ⟨0⟩)
    (horder : [p, q].Sublist (scoredItems rt provider topic results w)) :
    [p, q].Sublist (CurateResults rt provider topic results w).1.1 := by
  rw [CurateResults_eq]
  simp only
  rw [hshort _ _ hlen]
  apply insertionSortLessFunc_stable
  · rw [lessByRelevanceAndRecency_equal_score rt s hbonus q p ⟨0⟩ ⟨0⟩ hq hp hqt hpt]
    decide
  · have hfilter := horder.filter (fun item => F64.ge item.RelevanceScore F64.half)
    have hkeep : [p, q].filter (fun item => F64.ge item.RelevanceScore F64.half) = [p, q] := by
      simp [hp, hq, hge]
    rw [hkeep] at hfilter
    exact hfilter

set_option maxRecDepth 8000 in
/-- C14 (witness): on the concrete runtime two search results without publish
time, both scored `0.5`, keep their order. -/
theorem CurateResults_stable_when_short_witness :
    (scoredItems goRuntime scriptedProvider "rust" [untimedCandidate "c0", untimedCandidate "c1"]
        [reply "0.5", reply "0.5"]).map
          (fun item => (item.Title, item.RelevanceScore, item.PublishedAt)) =
      [("c0", F64.half, some ⟨0⟩), ("c1", F64.half, some ⟨0⟩)] ∧
    [{ itemSkeleton (untimedCandidate "c0") with RelevanceScore := F64.half },
      { itemSkeleton (untimedCandidate "c1") with RelevanceScore := F64.half }].Sublist
      (CurateResults goRuntime scriptedProvider "rust"
        [untimedCandidate "c0", untimedCandidate "c1"] [reply "0.5", reply "0.5"]).1.1 :=
  ⟨by decide,
    CurateResults_stable_when_short goRuntime goRuntime_sortsShortByInsertion scriptedProvider
      "rust" [untimedCandidate "c0", untimedCandidate "c1"] [reply "0.5", reply "0.5"]
      F64.half _ _ (by unfold Runtime.BonusRaises; decide) (by decide) rfl rfl (by decide)
      rfl rfl (by
        have h : scoredItems goRuntime scriptedProvider "rust"
            [untimedCandidate "c0", untimedCandidate "c1"] [reply "0.5", reply "0.5"] =
          [{ itemSkeleton (untimedCandidate "c0") with RelevanceScore := F64.half },
            { itemSkeleton (untimedCandidate "c1") with RelevanceScore := F64.half }] := rfl
        rw [h])⟩

set_option maxRecDepth 100000 in
/-- C14 (counterexample): thirteen search results without
publish time, the first twelve scored `0.5` and the last one `1.0`. All
thirteen items pass the filter, and `sort.Slice`, which runs the
pattern-defeating quicksort on more than twelve elements, completes and
returns the item of `c6` before the items of `c2` to `c5` and of `c0`, and the
item of `c1` last: items with the same score and the zero publish time, none
of which is less than another, have changed places. -/
theorem CurateResults_reorders_equal_scores :
    (scoredItems pdqRuntime scriptedProvider "rust" thirteenCandidates thirteenScript).map
        (fun item => (item.Title, item.RelevanceScore, item.PublishedAt)) =
      [("c0", F64.half, some ⟨0⟩), ("c1", F64.half, some ⟨0⟩), ("c2", F64.half, some ⟨0⟩),
        ("c3", F64.half, some ⟨0⟩), ("c4", F64.half, some ⟨0⟩), ("c5", F64.half, some ⟨0⟩),
        ("c6", F64.half, some ⟨0⟩), ("c7", F64.half, some ⟨0⟩), ("c8", F64.half, some ⟨0⟩),
        ("c9", F64.half, some ⟨0⟩), ("c10", F64.half, some ⟨0⟩), ("c11", F64.half, some ⟨0⟩),
        ("c12", F64.one, some ⟨0⟩)] ∧
    (CurateResults pdqRuntime scriptedProvider "rust" thirteenCandidates thirteenScript).1.1.map
        (fun item => (item.Title, item.RelevanceScore, item.PublishedAt)) =
      [("c12", F64.one, some ⟨0⟩), ("c6", F64.half, some ⟨0⟩), ("c2", F64.half, some ⟨0⟩),
        ("c3", F64.half, some ⟨0⟩), ("c4", F64.half, some ⟨0⟩), ("c5", F64.half, some ⟨0⟩),
        ("c0", F64.half, some ⟨0⟩), ("c7", F64.half, some ⟨0⟩), ("c8", F64.half, some ⟨0⟩),
        ("c9", F64.half, some ⟨0⟩), ("c10", F64.half, some ⟨0⟩), ("c11", F64.half, some ⟨0⟩),
        ("c1", F64.half, some ⟨0⟩)] ∧
    (CurateResults pdqRuntime scriptedProvider "rust" thirteenCandidates thirteenScript).1.2 =
      none ∧
    (pdqsort_func (lessByRelevanceAndRecency pdqRuntime) 14
      (scoredItems pdqRuntime scriptedProvider "rust" thirteenCandidates thirteenScript)
      0 13 (bitsLen 13) true true).isSome = true ∧
    lessByRelevanceAndRecency pdqRuntime
      { itemSkeleton (untimedCandidate "c2") with RelevanceScore := F64.half }
      { itemSkeleton (untimedCandidate "c1") with RelevanceScore := F64.half } = false ∧
    lessByRelevanceAndRecency pdqRuntime
      { itemSkeleton (untimedCandidate "c1") with RelevanceScore := F64.half }
      { itemSkeleton (untimedCandidate "c2") with RelevanceScore := F64.half } = false := by
  decide

/-! ## Scheduler: saving and the last-fetched update -/

/-- C19 (amended): in the saving loop of `RefreshSubscription`,
`CreateFeedItem` is called for an item (stamped with the subscription id)
exactly when the flag `ItemExistsByURL` returns is false, the error of the
check being dropped; the calls of the loop are those of its iterations in
sequence, and a run makes no other `CreateFeedItem` call. When every existence
check of the run reports the URL as existing there is no `CreateFeedItem`
call at all. The flag is `count > 0` whether or not the check failed: a check
that fails with its count left at zero reports the URL as not existing and the
insert is attempted, a check that fails after a positive count was read
reports it as existing and no insert is made. -/
theorem RefreshSubscription_creates_unless_exists {σ : Type} (rt : Runtime)
    (db : Database σ) (s : Scheduler σ) (sub : Subscription) (w : σ)
    (subID : Int) (before after : List FeedItem) (item : FeedItem) (w0 : σ) :
    createCalls (persistOne db subID item w0).1.2 =
      (if (ItemExistsByURL db item.SourceURL w0).1.1 then []
       else [{ item with SubscriptionID := subID }]) ∧
    (persistItems db subID (before ++ item :: after) w0).1.2 =
      (persistItems db subID before w0).1.2 ++
        (persistOne db subID item (persistItems db subID before w0).2).1.2 ++
        (persistItems db subID after
          (persistOne db subID item (persistItems db subID before w0).2).2).1.2 ∧
    createCalls (RefreshSubscription rt db s sub w).1.2 =
      createCalls (persistItems db sub.ID (curatedFor rt s sub w).1.1
        (curatedFor rt s sub w).2).1.2 ∧
    (allReportedExisting db sub.ID (curatedFor rt s sub w).1.1 (curatedFor rt s sub w).2 = true →
      createCalls (RefreshSubscription rt db s sub w).1.2 = []) ∧
    (∀ (url : String) (w1 w2 : σ) (err : Error),
      db.countBySourceURL url w1 = ((0, some err), w2) →
        ItemExistsByURL db url w1 = ((false, some err), w2)) ∧
    (∀ (url : String) (w1 w2 : σ) (count : Int) (err : Option Error),
      db.countBySourceURL url w1 = ((count, err), w2) →
        ItemExistsByURL db url w1 = ((decide (count > 0), err), w2)) ∧
    (∀ (w2 : σ) (count : Int) (err : Option Error),
      db.countBySourceURL item.SourceURL w0 = ((count, err), w2) →
        createCalls (persistOne db subID item w0).1.2 =
          (if count > 0 then [] else [{ item with SubscriptionID := subID }])) := by
  have hflag : ∀ (url : String) (w1 w2 : σ) (count : Int) (err : Option Error),
      db.countBySourceURL url w1 = ((count, err), w2) →
        ItemExistsByURL db url w1 = ((decide (count > 0), err), w2) := by
    intro url w1 w2 count err h
    unfold ItemExistsByURL
    rw [h]
  have hone : createCalls (persistOne db subID item w0).1.2 =
      (if (ItemExistsByURL db item.SourceURL w0).1.1 then []
       else [{ item with SubscriptionID := subID }]) := by
    rw [persistOne_calls]
    split <;> simp [createCalls]
  have hrun : createCalls (RefreshSubscription rt db s sub w).1.2 =
      createCalls (persistItems db sub.ID (curatedFor rt s sub w).1.1
        (curatedFor rt s sub w).2).1.2 := by
    rw [RefreshSubscription_eq]
    simp only
    rw [createCalls_append]
    simp [createCalls]
  refine ⟨hone, ?_, hrun, ?_, ?_, hflag, ?_⟩
  · rw [persistItems_append, persistItems_cons]
    simp only [List.append_assoc]
  · intro h
    rw [hrun]
    exact persistItems_createCalls_of_existing db sub.ID _ _ h
  · intro url w1 w2 err h
    unfold ItemExistsByURL
    rw [h]
    simp
  · intro w2 count err h
    rw [hone, hflag _ _ _ _ _ h]
    by_cases hc : count > 0
    · simp [hc]
    · simp [hc]

/-- C19 (witness): the only curated item's URL is already stored; the run
checks it, inserts nothing and updates the last-fetched time once. With an
empty database the same run inserts the item. -/
theorem RefreshSubscription_creates_unless_exists_witness :
    allReportedExisting memoryDatabase rustSubscription.ID
      (curatedFor goRuntime exampleScheduler rustSubscription storedWorld).1.1
      (curatedFor goRuntime exampleScheduler rustSubscription storedWorld).2 = true ∧
    createCalls (RefreshSubscription goRuntime memoryDatabase exampleScheduler
      rustSubscription storedWorld).1.2 = [] ∧
    (RefreshSubscription goRuntime memoryDatabase exampleScheduler rustSubscription
      storedWorld).1.2 =
        [DBCall.itemExistsByURL "https://example.org/async", DBCall.updateLastFetched 7] ∧
    (createCalls (RefreshSubscription goRuntime memoryDatabase exampleScheduler
      rustSubscription freshWorld).1.2).map (fun item => (item.SourceURL, item.SubscriptionID)) =
        [("https://example.org/async", 7)] :=
  have h : allReportedExisting memoryDatabase rustSubscription.ID
      (curatedFor goRuntime exampleScheduler rustSubscription storedWorld).1.1
      (curatedFor goRuntime exampleScheduler rustSubscription storedWorld).2 = true := by
    decide
  ⟨h,
    (RefreshSubscription_creates_unless_exists goRuntime memoryDatabase exampleScheduler
      rustSubscription storedWorld 0 [] [] (itemSkeleton rustCandidate) storedWorld).2.2.2.1 h,
    by decide, by decide⟩

set_option maxRecDepth 8000 in
/-- C19 (counterexample): the URL of the only curated item is stored, and the
existence query reads the count 1 and then fails. `ItemExistsByURL` returns
true beside the error, so the failing check counts as existing: the run makes
no `CreateFeedItem` call. On the empty database the same failing check leaves
the count at zero and the item is inserted. -/
theorem RefreshSubscription_failed_check_counts_as_existing :
    ItemExistsByURL failingCountDatabase "https://example.org/async" storedWorld =
      ((true, some "driver: bad connection"), storedWorld) ∧
    (curatedFor goRuntime exampleScheduler rustSubscription storedWorld).1.1.map
        (fun item => item.SourceURL) = ["https://example.org/async"] ∧
    createCalls (RefreshSubscription goRuntime failingCountDatabase exampleScheduler
      rustSubscription storedWorld).1.2 = [] ∧
    (RefreshSubscription goRuntime failingCountDatabase exampleScheduler rustSubscription
      storedWorld).1.2 =
        [DBCall.itemExistsByURL "https://example.org/async", DBCall.updateLastFetched 7] ∧
    (ItemExistsByURL failingCountDatabase "https://example.org/async" freshWorld).1 =
      (false, some "driver: bad connection") ∧
    (createCalls (RefreshSubscription goRuntime failingCountDatabase exampleScheduler
      rustSubscription freshWorld).1.2).map (fun item => (item.SourceURL, item.SubscriptionID)) =
        [("https://example.org/async", 7)] := by
  refine ⟨rfl, by decide, by decide, by decide, by decide, by decide⟩

/-- C20: every run of `RefreshSubscription` calls `UpdateLastFetched` exactly
once, for the subscription's id, as its last call to the package `db`, after
the saving loop over the curated items whatever the fetches, checks and
inserts gave; the error the run returns is the error of that call, so the run
fails exactly when that call fails. -/
theorem RefreshSubscription_updates_once {σ : Type} (rt : Runtime) (db : Database σ)
    (s : Scheduler σ) (sub : Subscription) (w : σ) :
    updateCalls (RefreshSubscription rt db s sub w).1.2 = [sub.ID] ∧
    (RefreshSubscription rt db s sub w).1.2 =
      (persistItems db sub.ID (curatedFor rt s sub w).1.1 (curatedFor rt s sub w).2).1.2 ++
        [DBCall.updateLastFetched sub.ID] ∧
    (RefreshSubscription rt db s sub w).1.1.2 =
      (UpdateLastFetched db sub.ID
        (persistItems db sub.ID (curatedFor rt s sub w).1.1 (curatedFor rt s sub w).2).2).1 ∧
    ((RefreshSubscription rt db s sub w).1.1.2 ≠ none ↔
      (UpdateLastFetched db sub.ID
        (persistItems db sub.ID (curatedFor rt s sub w).1.1
          (curatedFor rt s sub w).2).2).1 ≠ none) := by
  have herr : (RefreshSubscription rt db s sub w).1.1.2 =
      (UpdateLastFetched db sub.ID
        (persistItems db sub.ID (curatedFor rt s sub w).1.1 (curatedFor rt s sub w).2).2).1 := by
    rw [RefreshSubscription_eq]
  refine ⟨?_, ?_, herr, by rw [herr]⟩
  · rw [RefreshSubscription_eq]
    simp only
    rw [updateCalls_append, persistItems_updateCalls]
    simp [updateCalls]
  · rw [RefreshSubscription_eq]

/-! ## Refresh policy over time -/

/-- C29: due-ness is monotone in time. For every subscription and instants
`t1 <= t2`, if `shouldRefresh` holds at `now = t1` it holds at `now = t2`;
the saturation of `Sub` keeps the elapsed duration monotone. -/
theorem shouldRefresh_monotone (t1 t2 : Time) (sub : Subscription)
    (hle : t1.nsec ≤ t2.nsec) (hdue : shouldRefresh t1 sub = true) :
    shouldRefresh t2 sub = true := by
  unfold shouldRefresh at hdue ⊢
  cases hlast : sub.LastFetchedAt with
  | none => rfl
  | some last =>
    rw [hlast] at hdue
    simp only at hdue ⊢
    have hsub : t1.Sub last ≤ t2.Sub last := by
      unfold Time.Sub minDuration maxDuration
      simp only
      split_ifs <;> omega
    split_ifs at hdue ⊢ <;>
      (simp only [decide_eq_true_eq, ge_iff_le] at hdue ⊢; omega)

/-- C29 (witness): a daily subscription fetched at the zero instant is due
after 24 hours and still due after 48 hours. -/
theorem shouldRefresh_monotone_witness :
    (⟨86400000000000⟩ : Time).nsec ≤ (⟨172800000000000⟩ : Time).nsec ∧
    shouldRefresh ⟨86400000000000⟩ { rustSubscription with LastFetchedAt := some ⟨0⟩ } = true ∧
    shouldRefresh ⟨172800000000000⟩ { rustSubscription with LastFetchedAt := some ⟨0⟩ } = true :=
  ⟨by decide, by decide,
    shouldRefresh_monotone ⟨86400000000000⟩ ⟨172800000000000⟩
      { rustSubscription with LastFetchedAt := some ⟨0⟩ } (by decide) (by decide)⟩

/-! ## Scores of the curated items -/

/-- C28: whatever the candidates are and whatever the language model does
(any response text, any parsed value, NaN and the infinities included, or a
failed call), every item in the output of `CurateResults` has a relevance
score `s` with `0.5 <= s` and `s <= 1.0`, and none has the score NaN. -/
theorem CurateResults_scores_in_range {σ : Type} (rt : Runtime)
    (hsort : rt.SortPermutes) (provider : Provider σ) (topic : String)
    (results : List SearchResult) (w : σ) :
    ∀ item ∈ (CurateResults rt provider topic results w).1.1,
      F64.ge item.RelevanceScore F64.half = true ∧
      F64.le item.RelevanceScore F64.one = true ∧
      item.RelevanceScore ≠ F64.nan := by
  intro item hitem
  have hperm : (CurateResults rt provider topic results w).1.1.Perm
      ((scoredItems rt provider topic results w).filter
        (fun item => F64.ge item.RelevanceScore F64.half)) := by
    rw [CurateResults_eq]
    exact hsort _ _
  have hmem := List.mem_filter.1 ((hperm.mem_iff).1 hitem)
  have hge : F64.ge item.RelevanceScore F64.half = true := by simpa using hmem.2
  have hnan : item.RelevanceScore ≠ F64.nan := by
    intro h
    rw [h] at hge
    simp [F64.ge, F64.le, F64.half] at hge
  refine ⟨hge, ?_, hnan⟩
  have hscored := hmem.1
  rw [scoredItems_eq] at hscored
  obtain ⟨r, _, w0, hr⟩ := mem_curateAll rt provider topic results w item hscored
  have hscore : item.RelevanceScore =
      assignedScore (ScoreRelevance rt provider topic r.Title r.Snippet w0).1 := by
    rw [hr, curateOne_score]
  unfold assignedScore at hscore
  by_cases herr : (ScoreRelevance rt provider topic r.Title r.Snippet w0).1.2 ≠ none
  · rw [if_pos herr] at hscore
    rw [hscore]
    simp [F64.le, F64.half, F64.one]
    norm_num
  · rw [if_neg herr] at hscore
    rcases ScoreRelevance_nan_or_in_unit_interval rt provider topic r.Title r.Snippet w0
      with h | h
    · exact absurd (hscore.trans h) hnan
    · rw [hscore]
      unfold F64.inUnitInterval at h
      exact (Bool.and_eq_true _ _ ▸ h).2

set_option maxRecDepth 8000 in
/-- C28 (witness): on the concrete runtime, six candidates scored "NaN",
"inf", "-3", "7", "abc" and by a failed call. The items built have the scores
NaN, 1, 0, 1, 0.5 and 0.5; the output holds the four items whose score lies
between 0.5 and 1.0. -/
theorem CurateResults_scores_in_range_witness :
    goRuntime.SortPermutes ∧
    (scoredItems goRuntime scriptedProvider "rust" sixCandidates sixScript).map
        (fun item => (item.Title, item.RelevanceScore)) =
      [("c0", F64.nan), ("c1", F64.one), ("c2", F64.zero), ("c3", F64.one),
        ("c4", F64.half), ("c5", F64.half)] ∧
    (CurateResults goRuntime scriptedProvider "rust" sixCandidates sixScript).1.1.map
        (fun item => (item.Title, item.RelevanceScore)) =
      [("c1", F64.one), ("c3", F64.one), ("c4", F64.half), ("c5", F64.half)] ∧
    (∀ item ∈ (CurateResults goRuntime scriptedProvider "rust" sixCandidates sixScript).1.1,
      F64.ge item.RelevanceScore F64.half = true ∧
      F64.le item.RelevanceScore F64.one = true ∧
      item.RelevanceScore ≠ F64.nan) :=
  ⟨goRuntime_sortPermutes, by decide, by decide,
    CurateResults_scores_in_range goRuntime goRuntime_sortPermutes scriptedProvider "rust"
      sixCandidates sixScript⟩

/-! ## Categories and time ranges: theorems -/

/-- C27: `GetCategoryByName(name)` returns a category exactly when `name`
equals, case-sensitively, the `Name` of one of the six entries of
`DefaultCategories`; the category returned is the first entry of that name
and its `Name` equals `name`. For "", "RUST-LANG" and "nonexistent" it
returns nil. -/
theorem GetCategoryByName_iff (name : String) :
    ((GetCategoryByName name).isSome = true ↔
      name ∈ ["silicon-chips", "rust-lang", "llm-inference", "webgpu", "systems-programming",
        "kubernetes"]) ∧
    (∀ c : Category, GetCategoryByName name = some c →
      c ∈ DefaultCategories ∧ c.Name = name ∧
        DefaultCategories.find? (fun cat => decide (cat.Name = name)) = some c) ∧
    DefaultCategories.map (fun cat => cat.Name) =
      ["silicon-chips", "rust-lang", "llm-inference", "webgpu", "systems-programming",
        "kubernetes"] ∧
    GetCategoryByName "" = none ∧ GetCategoryByName "RUST-LANG" = none ∧
    GetCategoryByName "nonexistent" = none := by
  have hfind : ∀ cats : List Category,
      categoryByName name cats = cats.find? (fun cat => decide (cat.Name = name)) := by
    intro cats
    induction cats with
    | nil => rfl
    | cons cat rest ih =>
      unfold categoryByName
      by_cases h : cat.Name = name
      · simp [h]
      · simp [h, ih]
  have hsome : ∀ cats : List Category,
      ((categoryByName name cats).isSome = true ↔ name ∈ cats.map (fun cat => cat.Name)) := by
    intro cats
    rw [hfind]
    simp only [List.find?_isSome, decide_eq_true_eq, List.mem_map]
  have hnames : DefaultCategories.map (fun cat => cat.Name) =
      ["silicon-chips", "rust-lang", "llm-inference", "webgpu", "systems-programming",
        "kubernetes"] := by decide
  refine ⟨?_, ?_, hnames, by decide, by decide, by decide⟩
  · unfold GetCategoryByName
    rw [hsome, hnames]
  · intro c hc
    unfold GetCategoryByName at hc
    rw [hfind] at hc
    refine ⟨List.mem_of_find?_eq_some hc, ?_, hc⟩
    simpa using List.find?_some hc

/-- C27 (witness): the name "rust-lang" is found, and the category returned
is the second entry of the table. -/
theorem GetCategoryByName_iff_witness :
    (GetCategoryByName "rust-lang").isSome = true ∧
    (∀ c : Category, GetCategoryByName "rust-lang" = some c →
      c ∈ DefaultCategories ∧ c.Name = "rust-lang" ∧
        DefaultCategories.find? (fun cat => decide (cat.Name = "rust-lang")) = some c) ∧
    (GetCategoryByName "rust-lang").map (fun cat => cat.DisplayName) =
      some "Rust Programming" :=
  ⟨by decide, (GetCategoryByName_iff "rust-lang").2.1, by decide⟩

/-- C25: `GetTimeRange` returns "day" for the frequency "hourly", "week" for
"daily", "month" for "weekly" and "week" for every other frequency, the empty
one included; the result is always one of the time ranges named for
`SearchRequest.TimeRange`, and `timeRangeToDays` maps it to 1, 7 or 30 days. -/
theorem GetTimeRange_cases (s : Subscription) :
    ({ s with Frequency := "hourly" } : Subscription).GetTimeRange = "day" ∧
    ({ s with Frequency := "daily" } : Subscription).GetTimeRange = "week" ∧
    ({ s with Frequency := "weekly" } : Subscription).GetTimeRange = "month" ∧
    ({ s with Frequency := "" } : Subscription).GetTimeRange = "week" ∧
    (s.Frequency ∉ ["hourly", "daily", "weekly"] → s.GetTimeRange = "week") ∧
    s.GetTimeRange ∈ timeRanges ∧
    timeRangeToDays s.GetTimeRange =
      (if s.Frequency = "hourly" then 1 else if s.Frequency = "weekly" then 30 else 7) := by
  refine ⟨by simp [Subscription.GetTimeRange], by simp [Subscription.GetTimeRange],
    by simp [Subscription.GetTimeRange], by simp [Subscription.GetTimeRange], ?_, ?_, ?_⟩
  · intro h
    simp only [List.mem_cons, List.mem_singleton, List.not_mem_nil, or_false, not_or] at h
    unfold Subscription.GetTimeRange
    rw [if_neg h.1, if_neg h.2.1, if_neg h.2.2]
  · unfold Subscription.GetTimeRange timeRanges
    split_ifs <;> decide
  · unfold Subscription.GetTimeRange
    by_cases h1 : s.Frequency = "hourly"
    · rw [if_pos h1, if_pos h1]; decide
    · by_cases h2 : s.Frequency = "daily"
      · have h3 : s.Frequency ≠ "weekly" := by rw [h2]; decide
        rw [if_neg h1, if_pos h2, if_neg h1, if_neg h3]; decide
      · by_cases h3 : s.Frequency = "weekly"
        · rw [if_neg h1, if_neg h2, if_pos h3, if_neg h1, if_pos h3]; decide
        · rw [if_neg h1, if_neg h2, if_neg h3, if_neg h1, if_neg h3]; decide

/-- C25 (witness): a subscription with the frequency "monthly", which is none
of the three named tiers, gets the time range "week". -/
theorem GetTimeRange_cases_witness :
    ({ rustSubscription with Frequency := "monthly" } : Subscription).Frequency ∉
      ["hourly", "daily", "weekly"] ∧
    ({ rustSubscription with Frequency := "monthly" } : Subscription).GetTimeRange = "week" :=
  ⟨by decide,
    (GetTimeRange_cases { rustSubscription with Frequency := "monthly" }).2.2.2.2.1 (by decide)⟩

/-! ## Feeds: theorems -/

/-- C23: when the feed can be fetched, `FetchFeed` returns without error the
candidates of the feed's entries in feed order, minus exactly the entries that
have a publish time strictly before `since`. Entries without a publish time are
always kept, and with `since` unset nothing is dropped. -/
theorem FetchFeed_drops_older_entries {σ : Type} (p : RSSProvider σ) (feedURL : String)
    (since : Option Time) (w w1 : σ) (feed : Feed)
    (hparse : p.ParseURLWithContext feedURL w = (Except.ok feed, w1)) :
    (FetchFeed p feedURL since w).1 =
      (((feed.Items.filter (fun item => !publishedBefore since item)).map (feedResult feed)),
        none) ∧
    (∀ item ∈ feed.Items, item.PublishedParsed = none →
      feedResult feed item ∈ (FetchFeed p feedURL since w).1.1) ∧
    (∀ item ∈ feed.Items, ∀ t s : Time, item.PublishedParsed = some t → since = some s →
      s.nsec ≤ t.nsec → feedResult feed item ∈ (FetchFeed p feedURL since w).1.1) ∧
    (since = none → (FetchFeed p feedURL since w).1.1 = feed.Items.map (feedResult feed)) := by
  have hloop : ∀ (items : List FeedEntry) (results : List SearchResult),
      fetchFeedLoop feed since results items =
        results ++ (items.filter (fun item => !publishedBefore since item)).map
          (feedResult feed) := by
    intro items
    induction items with
    | nil => intro results; simp [fetchFeedLoop]
    | cons item rest ih =>
      intro results
      unfold fetchFeedLoop
      cases hs : since with
      | none =>
        have hf : publishedBefore none item = false := rfl
        rw [hs] at ih
        simp [hf, ih]
      | some s =>
        rw [hs] at ih
        cases ht : item.PublishedParsed with
        | none =>
          have hf : publishedBefore (some s) item = false := by
            unfold publishedBefore; rw [ht]
          simp [hf, ih]
        | some t =>
          have hf : publishedBefore (some s) item = t.Before s := by
            unfold publishedBefore Time.Before; rw [ht]
          by_cases hb : t.Before s = true
          · simp [hf, hb, ih]
          · have hb1 : t.Before s = false := by simpa using hb
            simp [hf, hb1, ih]
  have hresult : (FetchFeed p feedURL since w).1 =
      (((feed.Items.filter (fun item => !publishedBefore since item)).map (feedResult feed)),
        none) := by
    unfold FetchFeed
    rw [hparse]
    simp only
    rw [hloop]
    simp
  refine ⟨hresult, ?_, ?_, ?_⟩
  · intro item hitem hnone
    rw [hresult]
    refine List.mem_map.2 ⟨item, List.mem_filter.2 ⟨hitem, ?_⟩, rfl⟩
    unfold publishedBefore
    rw [hnone]
    cases since <;> rfl
  · intro item hitem t s ht hs hle
    rw [hresult]
    refine List.mem_map.2 ⟨item, List.mem_filter.2 ⟨hitem, ?_⟩, rfl⟩
    unfold publishedBefore
    rw [ht, hs]
    simp only [Bool.not_eq_true', decide_eq_false_iff_not, not_lt]
    exact hle
  · intro hnone
    rw [hresult, hnone]
    have hall : ∀ item : FeedEntry, publishedBefore none item = false := fun _ => rfl
    simp [hall]

/-- C23 (witness): a feed of three entries, the first published before
`since`, the second without publish time, the third published at `since`;
the first one is dropped. -/
theorem FetchFeed_drops_older_entries_witness :
    exampleFeedProvider.ParseURLWithContext "https://example.org/feed" () =
      (Except.ok exampleFeed, ()) ∧
    (FetchFeed exampleFeedProvider "https://example.org/feed" (some ⟨100⟩) ()).1 =
      ([{ Title := "undated", URL := "https://example.org/2", Snippet := "", Content := "",
          PublishedAt := ⟨0⟩, Source := "Example" },
        { Title := "current", URL := "https://example.org/3", Snippet := "", Content := "",
          PublishedAt := ⟨100⟩, Source := "Example" }], none) ∧
    (FetchFeed exampleFeedProvider "https://example.org/feed" (some ⟨100⟩) ()).1 =
      (((exampleFeed.Items.filter (fun item => !publishedBefore (some ⟨100⟩) item)).map
        (feedResult exampleFeed)), none) :=
  ⟨rfl, by decide,
    (FetchFeed_drops_older_entries exampleFeedProvider "https://example.org/feed"
      (some ⟨100⟩) () () exampleFeed rfl).1⟩

/-! ## Scheduler: the items returned -/

/-- C21: when `RefreshSubscription` succeeds it returns the whole list
`CurateResults` produced on the deduplicated candidates, item for item in the
same order, whether an item already existed, was inserted or failed to be
inserted. Each returned item is the curated item with `SubscriptionID` set to
the subscription's id and, when its insert succeeded, `ID` set to the new row
id; no other field differs. -/
theorem RefreshSubscription_returns_curated {σ : Type} (rt : Runtime) (db : Database σ)
    (s : Scheduler σ) (sub : Subscription) (w : σ)
    (hok : (RefreshSubscription rt db s sub w).1.1.2 = none) :
    List.Forall₂
      (fun curated returned =>
        ∃ id : Int, returned = { curated with SubscriptionID := sub.ID, ID := id })
      (CurateResults rt s.curator.llmProvider sub.Topic
        (deduplicateByURL ((fetchSearch s sub w).1 ++
          (fetchRSS s sub (fetchSearch s sub w).2).1))
        (fetchRSS s sub (fetchSearch s sub w).2).2).1.1
      (RefreshSubscription rt db s sub w).1.1.1 ∧
    (∀ item ∈ (RefreshSubscription rt db s sub w).1.1.1, item.SubscriptionID = sub.ID) ∧
    (RefreshSubscription rt db s sub w).1.1.1.length =
      (CurateResults rt s.curator.llmProvider sub.Topic
        (deduplicateByURL ((fetchSearch s sub w).1 ++
          (fetchRSS s sub (fetchSearch s sub w).2).1))
        (fetchRSS s sub (fetchSearch s sub w).2).2).1.1.length ∧
    (∀ (item : FeedItem) (w0 : σ),
      ((ItemExistsByURL db item.SourceURL w0).1.1 = true ∨
        (CreateFeedItem db { item with SubscriptionID := sub.ID }
          (ItemExistsByURL db item.SourceURL w0).2).1.2 ≠ none) →
      (persistOne db sub.ID item w0).1.1 = { item with SubscriptionID := sub.ID }) := by
  have hcur : curatedFor rt s sub w =
      CurateResults rt s.curator.llmProvider sub.Topic
        (deduplicateByURL ((fetchSearch s sub w).1 ++
          (fetchRSS s sub (fetchSearch s sub w).2).1))
        (fetchRSS s sub (fetchSearch s sub w).2).2 := by
    unfold curatedFor
    rfl
  have hitems : (RefreshSubscription rt db s sub w).1.1.1 =
      (persistItems db sub.ID (curatedFor rt s sub w).1.1 (curatedFor rt s sub w).2).1.1 := by
    have herr : (UpdateLastFetched db sub.ID
        (persistItems db sub.ID (curatedFor rt s sub w).1.1
          (curatedFor rt s sub w).2).2).1 = none := by
      rw [RefreshSubscription_eq] at hok
      exact hok
    rw [RefreshSubscription_eq]
    simp only
    rw [if_pos herr]
  have hall := persistItems_forall₂ db sub.ID (curatedFor rt s sub w).1.1
    (curatedFor rt s sub w).2
  rw [← hitems, hcur] at hall
  refine ⟨hall, ?_, hall.length_eq.symm, ?_⟩
  · intro item hitem
    obtain ⟨curated, _, id, hid⟩ := forall₂_mem_right _ _ _ hall item hitem
    rw [hid]
  · intro item w0 h
    exact persistOne_item_unsaved db sub.ID item w0 h

set_option maxRecDepth 8000 in
/-- C21 (witness): the URL of the only curated item is already stored; the
run succeeds and still returns the item, stamped with the subscription id 7
and with its row id left at zero. -/
theorem RefreshSubscription_returns_curated_witness :
    (RefreshSubscription goRuntime memoryDatabase exampleScheduler rustSubscription
      storedWorld).1.1.2 = none ∧
    (RefreshSubscription goRuntime memoryDatabase exampleScheduler rustSubscription
      storedWorld).1.1.1.map (fun item => (item.Title, item.SubscriptionID, item.ID)) =
      [("Async Rust", 7, 0)] ∧
    (∀ item ∈ (RefreshSubscription goRuntime memoryDatabase exampleScheduler rustSubscription
      storedWorld).1.1.1, item.SubscriptionID = rustSubscription.ID) :=
  ⟨by decide, by decide,
    (RefreshSubscription_returns_curated goRuntime memoryDatabase exampleScheduler
      rustSubscription storedWorld (by decide)).2.1⟩

/-! ## Scheduler: cancelled runs -/

/-- C24 (amended): a run of `RefreshSubscription` in which every source call
fails, as when the context is cancelled from the start, gathers no candidate,
curates nothing, and still calls `UpdateLastFetched` for the subscription:
that call is its only call to the package `db`, and the run returns no item
and the error of that call. In every run, whatever failed, the calls to the
package `db` end with that one call of `UpdateLastFetched`. -/
theorem RefreshSubscription_updates_though_cancelled {σ : Type} (rt : Runtime)
    (hsort : rt.SortPermutes) (db : Database σ) (s : Scheduler σ) (sub : Subscription)
    (w : σ)
    (hsearch : ∀ provider, s.searchProvider = some provider →
      ∀ (req : SearchRequest) (w0 : σ), ∃ err, (provider.Search req w0).1 = Except.error err)
    (hfeeds : ∀ (url : String) (w0 : σ),
      ∃ err, (s.rssProvider.ParseURLWithContext url w0).1 = Except.error err) :
    (fetchSearch s sub w).1 = [] ∧
    (fetchRSS s sub (fetchSearch s sub w).2).1 = [] ∧
    (curatedFor rt s sub w).1 = ([], none) ∧
    (RefreshSubscription rt db s sub w).1.2 = [DBCall.updateLastFetched sub.ID] ∧
    (RefreshSubscription rt db s sub w).1.1 =
      ([], (UpdateLastFetched db sub.ID (curatedFor rt s sub w).2).1) ∧
    (∀ (s0 : Scheduler σ) (sub0 : Subscription) (w0 : σ),
      ∃ calls, (RefreshSubscription rt db s0 sub0 w0).1.2 =
          calls ++ [DBCall.updateLastFetched sub0.ID] ∧
        updateCalls calls = []) := by
  have hfound : ∀ w0, (fetchSearch s sub w0).1 = [] := by
    intro w0
    unfold fetchSearch
    cases hp : s.searchProvider with
    | none => rfl
    | some provider =>
      simp only
      by_cases hav : provider.Available w0 = true
      · rw [if_pos hav]
        obtain ⟨err, herr⟩ := hsearch provider hp
          { Query := sub.Topic, MaxResults := 10, TimeRange := sub.GetTimeRange } w0
        rcases hs : provider.Search
          { Query := sub.Topic, MaxResults := 10, TimeRange := sub.GetTimeRange } w0 with
          ⟨res, w1⟩
        rw [hs] at herr
        simp only at herr
        subst herr
        rfl
      · rw [if_neg hav]
  have hfed : ∀ w0, (fetchRSS s sub w0).1 = [] := by
    intro w0
    unfold fetchRSS
    cases GetCategoryByName sub.Topic with
    | none => rfl
    | some category =>
      simp only
      by_cases hlen : category.DefaultRSS.length > 0
      · rw [if_pos hlen]
        have hloop := fetchMultipleLoop_of_failing s.rssProvider sub.LastFetchedAt hfeeds
          category.DefaultRSS [] w0
        unfold FetchMultipleFeeds
        rcases hl : fetchMultipleLoop s.rssProvider sub.LastFetchedAt [] category.DefaultRSS w0
          with ⟨allResults, w1⟩
        rw [hl] at hloop
        simp only at hloop ⊢
        exact hloop
      · rw [if_neg hlen]
  have hcur : (curatedFor rt s sub w).1 = ([], none) := by
    unfold curatedFor
    simp only
    rw [hfound, hfed, CurateResults_eq]
    have hnil : scoredItems rt s.curator.llmProvider sub.Topic (deduplicateByURL ([] ++ []))
        (fetchRSS s sub (fetchSearch s sub w).2).2 = [] := rfl
    rw [hnil]
    simp only [List.filter_nil]
    have := hsort (lessByRelevanceAndRecency rt) []
    rw [List.perm_nil] at this
    rw [this]
  have hitems : (curatedFor rt s sub w).1.1 = [] := by rw [hcur]
  refine ⟨hfound w, hfed _, hcur, ?_, ?_, ?_⟩
  · rw [RefreshSubscription_eq]
    simp only
    rw [hitems]
    rfl
  · rw [RefreshSubscription_eq]
    simp only
    rw [hitems]
    simp only [persistItems]
    split_ifs with h
    · rw [h]
    · rfl
  · intro s0 sub0 w0
    refine ⟨(persistItems db sub0.ID (curatedFor rt s0 sub0 w0).1.1
      (curatedFor rt s0 sub0 w0).2).1.2, ?_, persistItems_updateCalls _ _ _ _⟩
    rw [RefreshSubscription_eq]

/-- C24 (witness): with every source call failing, the run for the topic
"silicon-chips" makes the one call `UpdateLastFetched(3)` and returns no item
and no error. -/
theorem RefreshSubscription_updates_though_cancelled_witness :
    goRuntime.SortPermutes ∧
    (∀ provider, cancelledScheduler.searchProvider = some provider →
      ∀ (req : SearchRequest) (w0 : World),
        ∃ err, (provider.Search req w0).1 = Except.error err) ∧
    (∀ (url : String) (w0 : World),
      ∃ err, (cancelledScheduler.rssProvider.ParseURLWithContext url w0).1 =
        Except.error err) ∧
    (RefreshSubscription goRuntime memoryDatabase cancelledScheduler chipsSubscription
      silentWorld).1.2 = [DBCall.updateLastFetched 3] ∧
    (RefreshSubscription goRuntime memoryDatabase cancelledScheduler chipsSubscription
      silentWorld).1.1 = ([], none) :=
  ⟨goRuntime_sortPermutes,
    fun _ hp _ _ => by
      simp only [cancelledScheduler, Option.some.injEq] at hp
      subst hp
      exact ⟨"context canceled", rfl⟩,
    fun _ _ => ⟨"context canceled", rfl⟩,
    (RefreshSubscription_updates_though_cancelled goRuntime goRuntime_sortPermutes
      memoryDatabase cancelledScheduler chipsSubscription silentWorld
      (fun _ hp _ _ => by
        simp only [cancelledScheduler, Option.some.injEq] at hp
        subst hp
        exact ⟨"context canceled", rfl⟩)
      (fun _ _ => ⟨"context canceled", rfl⟩)).2.2.2.1,
    by decide⟩

set_option maxRecDepth 8000 in
/-- C24 (counterexample): two cancelled runs in which `UpdateLastFetched` is
invoked. In the first every source and language-model call fails: the run
calls `UpdateLastFetched(3)` and the database records the update. In the
second the search had answered before the language-model calls began to fail:
the item is saved with the score `0.5` and `UpdateLastFetched(7)` is called. -/
theorem RefreshSubscription_cancelled_run_updates :
    (RefreshSubscription goRuntime memoryDatabase cancelledScheduler chipsSubscription
      silentWorld).1 = (([], none), [DBCall.updateLastFetched 3]) ∧
    (RefreshSubscription goRuntime memoryDatabase cancelledScheduler chipsSubscription
      silentWorld).2.updated = [3] ∧
    updateCalls (RefreshSubscription goRuntime memoryDatabase exampleScheduler
      rustSubscription silentWorld).1.2 = [7] ∧
    (RefreshSubscription goRuntime memoryDatabase exampleScheduler rustSubscription
      silentWorld).2.updated = [7] ∧
    (RefreshSubscription goRuntime memoryDatabase exampleScheduler rustSubscription
      silentWorld).1.1.1.map (fun item => (item.Title, item.RelevanceScore)) =
      [("Async Rust", F64.half)] := by
  decide

/-! ## Prompt builders: theorems -/

/-- Up to nine sources the two prompt builders agree: the rune `'1' + i` is
the decimal digit of `i + 1` as long as `i + 1 <= 9`. -/
theorem buildPromptWithSources_eq_buildPrompt_short (question : String)
    (sources : List SearchResult) (hlen : sources.length ≤ 9) :
    buildPromptWithSources question sources = buildPrompt question sources := by
  have hdigit : ∀ i : Nat, i < 9 →
      stringOfRune (runeOfInt (49 + (i : Int))) = formatDecimal ((i : Int) + 1) := by
    intro i hi
    interval_cases i <;> decide
  have hloop : ∀ (rest : List SearchResult) (i : Nat) (text : String),
      i + rest.length ≤ 9 →
      buildPromptWithSourcesLoop text i rest = buildPromptLoop text i rest := by
    intro rest
    induction rest with
    | nil => intro i text _; rfl
    | cons src rest ih =>
      intro i text hi
      simp only [List.length_cons] at hi
      unfold buildPromptWithSourcesLoop buildPromptLoop
      simp only
      rw [hdigit i (by omega)]
      exact ih (i + 1) _ (by omega)
  unfold buildPromptWithSources buildPrompt
  simp only
  rw [hloop sources 0 _ (by omega)]
  simp [String.append_assoc]

set_option maxRecDepth 100000 in
/-- C30 (evaluation at the failing input): with ten sources the two prompt
builders differ. `buildPromptWithSources` numbers the tenth source with the
rune after `9`, a colon, where `buildPrompt` writes `10`. -/
theorem buildPromptWithSources_ten_sources :
    buildPromptWithSources "q" tenSources =
      "Use the following sources to inform your answer:\n\nSource 1: a\nURL: u\n\n" ++
      "Source 2: b\nURL: u\n\nSource 3: c\nURL: u\n\nSource 4: d\nURL: u\n\n" ++
      "Source 5: e\nURL: u\n\nSource 6: f\nURL: u\n\nSource 7: g\nURL: u\n\n" ++
      "Source 8: h\nURL: u\n\nSource 9: i\nURL: u\n\nSource :: j\nURL: u\n\n" ++
      "---\n\nQuestion: q" ∧
    buildPrompt "q" tenSources =
      "Use the following sources to inform your answer:\n\nSource 1: a\nURL: u\n\n" ++
      "Source 2: b\nURL: u\n\nSource 3: c\nURL: u\n\nSource 4: d\nURL: u\n\n" ++
      "Source 5: e\nURL: u\n\nSource 6: f\nURL: u\n\nSource 7: g\nURL: u\n\n" ++
      "Source 8: h\nURL: u\n\nSource 9: i\nURL: u\n\nSource 10: j\nURL: u\n\n" ++
      "---\n\nQuestion: q" ∧
    buildPromptWithSources "q" tenSources ≠ buildPrompt "q" tenSources := by
  decide

/-! ## Persisted string lists: theorems -/

/-- C26 (amended): decoding undoes encoding for the persisted string lists
when the strings are valid UTF-8. For every non-empty list `xs` of such
strings, `SetTagsFromJSON` on a cleared item, given `GetTagsJSON()` of an item
with `Tags = xs`, succeeds and leaves `Tags` equal to `xs`, and likewise
`SetSourcesFromJSON` with `GetSourcesJSON`. For Go strings in general the
strings that come back are the strings coerced to valid UTF-8, each invalid
byte replaced by U+FFFD. -/
theorem tags_and_sources_round_trip (xs : List String) (hne : xs ≠ []) :
    SetTagsFromJSON (GetTagsJSON (xs.map GoString.ofString)) = (xs, none) ∧
    SetSourcesFromJSON (GetSourcesJSON (xs.map GoString.ofString)) = (xs, none) ∧
    (∀ ys : List GoString, ys ≠ [] →
      SetTagsFromJSON (GetTagsJSON ys) = (ys.map GoString.text, none) ∧
      SetSourcesFromJSON (GetSourcesJSON ys) = (ys.map GoString.text, none)) := by
  have hgeneral : ∀ ys : List GoString, ys ≠ [] →
      SetTagsFromJSON (GetTagsJSON ys) = (ys.map GoString.text, none) ∧
      SetSourcesFromJSON (GetSourcesJSON ys) = (ys.map GoString.text, none) := by
    intro ys hys
    cases ys with
    | nil => exact absurd rfl hys
    | cons y rest =>
      have hne1 := jsonMarshalStrings_ne y rest
      have htags : GetTagsJSON (y :: rest) = jsonMarshalStrings (y :: rest) := by
        simp [GetTagsJSON]
      have hsources : GetSourcesJSON (y :: rest) = jsonMarshalStrings (y :: rest) := by
        simp [GetSourcesJSON]
      constructor
      · unfold SetTagsFromJSON
        rw [htags, if_neg (fun h => h.elim hne1.1 hne1.2), jsonUnmarshalStrings_marshal]
      · unfold SetSourcesFromJSON
        rw [hsources, if_neg (fun h => h.elim hne1.1 hne1.2), jsonUnmarshalStrings_marshal]
  have hmap : (xs.map GoString.ofString).map GoString.text = xs := by
    simp [Function.comp_def, text_ofString]
  have hne2 : xs.map GoString.ofString ≠ [] := by
    intro h
    exact hne (List.map_eq_nil_iff.1 h)
  have h := hgeneral (xs.map GoString.ofString) hne2
  rw [hmap] at h
  exact ⟨h.1, h.2, hgeneral⟩

/-- C26 (witness): two tags, one of them with a quote, a backslash, a line
feed, a control character, an HTML character, a line separator, and letters
outside ASCII. -/
theorem tags_and_sources_round_trip_witness :
    ["rust", "a<b\"\\\n\x01é\u2028😀"] ≠ [] ∧
    GetTagsJSON (["rust", "a<b\"\\\n\x01é\u2028😀"].map GoString.ofString) =
      "[\"rust\",\"a\\u003cb\\\"\\\\\\n\\u0001é\\u2028😀\"]" ∧
    SetTagsFromJSON (GetTagsJSON (["rust", "a<b\"\\\n\x01é\u2028😀"].map GoString.ofString)) =
      (["rust", "a<b\"\\\n\x01é\u2028😀"], none) :=
  ⟨by decide, by decide,
    (tags_and_sources_round_trip ["rust", "a<b\"\\\n\x01é\u2028😀"] (by decide)).1⟩

/-- C26 (counterexample): a tag that is the single byte `0xff`, which is not
valid UTF-8. `GetTagsJSON` writes it as the escape of U+FFFD, and
`SetTagsFromJSON` succeeds with the tag U+FFFD, three other bytes; the same
holds for a source. -/
theorem tags_round_trip_invalid_utf8 :
    GetTagsJSON [[Rune.invalid 0xFF]] = "[\"\\ufffd\"]" ∧
    SetTagsFromJSON (GetTagsJSON [[Rune.invalid 0xFF]]) = (["\uFFFD"], none) ∧
    SetSourcesFromJSON (GetSourcesJSON [[Rune.invalid 0xFF]]) = (["\uFFFD"], none) ∧
    (SetTagsFromJSON (GetTagsJSON [[Rune.invalid 0xFF]])).1.map GoString.ofString ≠
      [[Rune.invalid 0xFF]] := by
  decide

/-! ## Scheduler: refreshing all subscriptions -/

/-- C22: `RefreshAllSubscriptions` returns the error of loading the active
subscriptions, and no other: it fails exactly when loading fails, and then it
calls `RefreshSubscription` for no subscription. When loading succeeds every
loaded subscription gets its turn, in order, also after a refresh that
failed, and `RefreshSubscription` is called exactly for the subscriptions for
which `shouldRefresh` is true at their turn, never for one that is not due;
with a clock that stands still these are the loaded subscriptions that are
due. -/
theorem RefreshAllSubscriptions_refreshes_due {σ : Type} (rt : Runtime) (db : Database σ)
    (query : σ → Except Error SubscriptionRows × σ) (now : σ → Time) (s : Scheduler σ)
    (w : σ) :
    (RefreshAllSubscriptions rt db query now s w).1.1 =
      (GetActiveSubscriptions query w).1.2 ∧
    ((GetActiveSubscriptions query w).1.2 ≠ none →
      (RefreshAllSubscriptions rt db query now s w).1.2 = []) ∧
    ((GetActiveSubscriptions query w).1.2 = none →
      (RefreshAllSubscriptions rt db query now s w).1.2 =
        ((refreshTurns rt db now s (GetActiveSubscriptions query w).1.1
            (GetActiveSubscriptions query w).2).filter
          (fun turn => shouldRefresh (now turn.2) turn.1)).map
          (fun turn => (turn.1, (RefreshSubscription rt db s turn.1 turn.2).1.1.2)) ∧
      (refreshTurns rt db now s (GetActiveSubscriptions query w).1.1
          (GetActiveSubscriptions query w).2).map (fun turn => turn.1) =
        (GetActiveSubscriptions query w).1.1 ∧
      (∀ t : Time, (∀ w0, now w0 = t) →
        (RefreshAllSubscriptions rt db query now s w).1.2.map (fun call => call.1) =
          (GetActiveSubscriptions query w).1.1.filter (fun sub => shouldRefresh t sub))) := by
  have hloop : ∀ (subs : List Subscription) (w0 : σ),
      (refreshAllLoop rt db now s subs w0).1 =
        ((refreshTurns rt db now s subs w0).filter
          (fun turn => shouldRefresh (now turn.2) turn.1)).map
          (fun turn => (turn.1, (RefreshSubscription rt db s turn.1 turn.2).1.1.2)) := by
    intro subs
    induction subs with
    | nil => intro w0; rfl
    | cons sub rest ih =>
      intro w0
      unfold refreshAllLoop refreshTurns
      by_cases hdue : shouldRefresh (now w0) sub = true
      · rw [if_pos hdue, if_pos hdue]
        rw [List.filter_cons_of_pos (by simpa using hdue)]
        simp only [List.map_cons]
        rw [← ih]
      · rw [if_neg hdue, if_neg hdue]
        rw [List.filter_cons_of_neg (by simpa using hdue)]
        exact ih w0
  have hturns : ∀ (subs : List Subscription) (w0 : σ),
      (refreshTurns rt db now s subs w0).map (fun turn => turn.1) = subs := by
    intro subs
    induction subs with
    | nil => intro w0; rfl
    | cons sub rest ih =>
      intro w0
      unfold refreshTurns
      simp only [List.map_cons]
      rw [ih]
  have hstill : ∀ (t : Time), (∀ w0, now w0 = t) → ∀ (subs : List Subscription) (w0 : σ),
      ((refreshAllLoop rt db now s subs w0).1).map (fun call => call.1) =
        subs.filter (fun sub => shouldRefresh t sub) := by
    intro t ht subs
    induction subs with
    | nil => intro w0; rfl
    | cons sub rest ih =>
      intro w0
      unfold refreshAllLoop
      rw [ht w0]
      by_cases hdue : shouldRefresh t sub = true
      · rw [if_pos hdue, List.filter_cons_of_pos (by simpa using hdue)]
        simp only [List.map_cons]
        rw [ih]
      · rw [if_neg hdue, List.filter_cons_of_neg (by simpa using hdue)]
        exact ih w0
  unfold RefreshAllSubscriptions
  rcases hload : GetActiveSubscriptions query w with ⟨⟨subs, err⟩, w1⟩
  cases err with
  | some e =>
    dsimp only
    exact ⟨rfl, fun _ => rfl, fun h => by cases h⟩
  | none =>
    dsimp only
    refine ⟨rfl, fun h => absurd rfl h, fun _ => ⟨hloop subs w1, hturns subs w1, ?_⟩⟩
    intro t ht
    exact hstill t ht subs w1

set_option maxRecDepth 8000 in
/-- C22 (witness): three active subscriptions are loaded. The first is due
and its refresh fails, the second is not due and is passed over, the third is
due and is refreshed after the failure; `RefreshAllSubscriptions` returns no
error. -/
theorem RefreshAllSubscriptions_refreshes_due_witness :
    (GetActiveSubscriptions exampleQuery silentWorld).1.2 = none ∧
    (GetActiveSubscriptions exampleQuery silentWorld).1.1.map
        (fun sub => (sub.ID, sub.Sources, shouldRefresh ⟨2000⟩ sub)) =
      [(3, [], true), (7, [], false), (9, ["https://example.org/feed"], true)] ∧
    (RefreshAllSubscriptions goRuntime flakyDatabase exampleQuery stoppedClock
      cancelledScheduler silentWorld).1.1 = none ∧
    (RefreshAllSubscriptions goRuntime flakyDatabase exampleQuery stoppedClock
      cancelledScheduler silentWorld).1.2.map (fun call => (call.1.ID, call.2)) =
      [(3, some "database is locked"), (9, none)] ∧
    (RefreshAllSubscriptions goRuntime flakyDatabase exampleQuery stoppedClock
      cancelledScheduler silentWorld).1.2.map (fun call => call.1) =
      (GetActiveSubscriptions exampleQuery silentWorld).1.1.filter
        (fun sub => shouldRefresh ⟨2000⟩ sub) :=
  ⟨by decide, by decide, by decide, by decide,
    ((RefreshAllSubscriptions_refreshes_due goRuntime flakyDatabase exampleQuery stoppedClock
      cancelledScheduler silentWorld).2.2 (by decide)).2.2 ⟨2000⟩ (fun _ => rfl)⟩

end Termiflow
